import Mathlib

set_option allowUnsafeReducibility true
attribute [local semireducible] Rat.mul Rat.inv Rat.add Rat.sub
set_option allowUnsafeReducibility false

/-!
Verification development for the FEC (Fichier des Écritures Comptables)
aggregation engine of the `iter` repository.

The engine lives in `lib/fecProcessor.ts` (here: `src/unnamed/part_000`).
It is typed TypeScript running on JS numbers; we embed it shallowly:

* JS numbers are modelled exactly as `JSNum`: either `NaN` or an exact
  rational.  IEEE-754 rounding and overflow-to-infinity are out of scope of
  this model (amounts are exact rationals); `NaN` propagation, the `|| 0`
  coercions and `NaN` comparisons are modelled faithfully.
* JS objects used as string-keyed dictionaries are modelled as association
  lists in insertion order.  (Real JS objects iterate integer-like keys
  first, in numeric order; none of the properties proved below depends on
  the iteration order of such keys, and all concrete inputs used in
  counterexamples/witnesses are chosen so both orders coincide.)
* `Math.random()` is modelled by threading an ambient draw sequence
  `rand : ℕ → ℚ` together with a draw counter through the computation, in
  the exact order the source consumes draws.
* The static mapping table (`getMappingWithFallback` / `getMappingForAccount`
  from `mapping.ts`, a file not included in the sources) is opaque from the
  engine's point of view; both lookups are taken as parameters.
-/

/-- A JS number as used by the engine: `NaN` or an exact rational.
(Infinities are unreachable in this exact-arithmetic model and are not
represented; `parseFloat` of the literal string `"Infinity"` is modelled
as `NaN`, outside the scope of the decimal grammar we model.) -/
inductive JSNum where
  | nan : JSNum
  | num : ℚ → JSNum
deriving DecidableEq

namespace JSNum

/-- JS `+` on numbers: `NaN` is absorbing. -/
def add : JSNum → JSNum → JSNum
  | num a, num b => num (a + b)
  | _, _ => nan

/-- JS `-` on numbers. -/
def sub : JSNum → JSNum → JSNum
  | num a, num b => num (a - b)
  | _, _ => nan

/-- JS `*` on numbers. -/
def mul : JSNum → JSNum → JSNum
  | num a, num b => num (a * b)
  | _, _ => nan

/-- `Math.abs`. -/
def abs : JSNum → JSNum
  | nan => nan
  | num a => num |a|

/-- JS `x || 0`: `NaN` and `0` are falsy, so both collapse to `0`. -/
def orZero : JSNum → JSNum
  | nan => num 0
  | num a => num a

/-- JS `<` on numbers: any comparison involving `NaN` is `false`. -/
def lt : JSNum → JSNum → Bool
  | num a, num b => decide (a < b)
  | _, _ => false

/-- JS `>` on numbers: any comparison involving `NaN` is `false`. -/
def gt : JSNum → JSNum → Bool
  | num a, num b => decide (b < a)
  | _, _ => false

/-- `Math.round`: round half toward positive infinity. -/
def round : JSNum → JSNum
  | nan => nan
  | num a => num (⌊a + 1/2⌋ : ℤ)

/-- Division by a (nonzero, constant) rational, as used in the budget rounding. -/
def divC : JSNum → ℚ → JSNum
  | nan, _ => nan
  | num a, c => num (a / c)

theorem add_comm (a b : JSNum) : add a b = add b a := by
  cases a <;> cases b <;> simp [add] <;> ring

theorem add_assoc (a b c : JSNum) : add (add a b) c = add a (add b c) := by
  cases a <;> cases b <;> cases c <;> simp [add] <;> ring

theorem zero_add (a : JSNum) : add (num 0) a = a := by
  cases a <;> simp [add]

theorem add_zero (a : JSNum) : add a (num 0) = a := by
  cases a <;> simp [add]

end JSNum

/-! ## JS string helpers -/

/-- JS whitespace (the characters stripped by `String.prototype.trim` that
can realistically occur in FEC data). -/
def jsIsWhitespace (c : Char) : Bool :=
  c = ' ' || c = '\t' || c = '\n' || c = '\r' ||
  c = '\x0b' || c = '\x0c' || c = ' '

/-- `String.prototype.trim`. -/
def jsTrim (s : String) : String :=
  ⟨((s.data.dropWhile jsIsWhitespace).reverse.dropWhile jsIsWhitespace).reverse⟩

/-- `s.padEnd(9, "0")`. -/
def padEnd9 (s : String) : String :=
  if 9 ≤ s.length then s else ⟨s.data ++ List.replicate (9 - s.length) '0'⟩

/-- `s.replace(",", ".")` on the character list: JS `replace` with a string
pattern replaces only the first occurrence. -/
def replaceFirstComma : List Char → List Char
  | [] => []
  | c :: t => if c = ',' then '.' :: t else c :: replaceFirstComma t

/-- `s.replace(",", ".")`. -/
def replaceCommaStr (s : String) : String := ⟨replaceFirstComma s.data⟩

/-- UTF-16 code-unit comparison of two character lists (all strings involved
are BMP, where code-unit order is code-point order). -/
def charListLe : List Char → List Char → Bool
  | [], _ => true
  | _ :: _, [] => false
  | a :: as, b :: bs =>
    if a.val < b.val then true
    else if b.val < a.val then false
    else charListLe as bs

/-- JS default string comparison `a <= b` (code-unit lexicographic). -/
def strLe (a b : String) : Bool := charListLe a.data b.data

def isDigitChar (c : Char) : Bool := '0' ≤ c && c ≤ '9'

def digitsToNat (l : List Char) : ℕ :=
  l.foldl (fun n c => 10 * n + (c.toNat - '0'.toNat)) 0

/-- JS `parseFloat`, restricted to the decimal grammar (optional sign,
digits with optional fraction, optional exponent); the longest valid prefix
is parsed and trailing garbage ignored; if no digits can be consumed the
result is `NaN`.  (`Infinity` and hex literals are outside this model.) -/
def jsParseFloat (s : String) : JSNum :=
  let cs := s.data.dropWhile jsIsWhitespace
  let sign : ℚ := match cs with
    | '-' :: _ => -1
    | _ => 1
  let cs1 := match cs with
    | '+' :: t => t
    | '-' :: t => t
    | _ => cs
  let intDigits := cs1.takeWhile isDigitChar
  let rest1 := cs1.dropWhile isDigitChar
  let fracDigits := match rest1 with
    | '.' :: t => t.takeWhile isDigitChar
    | _ => []
  let rest2 := match rest1 with
    | '.' :: t => t.dropWhile isDigitChar
    | _ => rest1
  if intDigits.isEmpty && fracDigits.isEmpty then JSNum.nan
  else
    let expPart : ℤ := match rest2 with
      | e :: t =>
        if e = 'e' || e = 'E' then
          let esign : ℤ := match t with
            | '-' :: _ => -1
            | _ => 1
          let t2 := match t with
            | '+' :: u => u
            | '-' :: u => u
            | _ => t
          let eds := t2.takeWhile isDigitChar
          if eds.isEmpty then 0 else esign * (digitsToNat eds : ℤ)
        else 0
      | [] => 0
    let mantissa : ℚ :=
      (digitsToNat intDigits : ℚ) +
        (digitsToNat fracDigits : ℚ) / (10 : ℚ) ^ fracDigits.length
    JSNum.num (sign * mantissa * (10 : ℚ) ^ expPart)

/-! ## Ordered-dictionary and list helpers -/

/-- A JS object used as a month-keyed dictionary, in insertion order. -/
abbrev MonthlyAmounts := List (String × JSNum)

/-- Value at a key (`m[k]`), `undefined` as `none`. -/
def alookup (m : MonthlyAmounts) (k : String) : Option JSNum :=
  match m with
  | [] => none
  | (k', v) :: t => if k' = k then some v else alookup t k

/-- `m[k] = v`: overwrite in place, or append a fresh key. -/
def objSet (m : MonthlyAmounts) (k : String) (v : JSNum) : MonthlyAmounts :=
  match m with
  | [] => [(k, v)]
  | (k', v') :: t => if k' = k then (k', v) :: t else (k', v') :: objSet t k v

/-- The pervasive accumulation step `m[k] = (m[k] || 0) + v`. -/
def bump (m : MonthlyAmounts) (k : String) (v : JSNum) : MonthlyAmounts :=
  match m with
  | [] => [(k, JSNum.add (JSNum.num 0) v)]
  | (k', v') :: t =>
    if k' = k then (k', JSNum.add v'.orZero v) :: t else (k', v') :: bump t k v

/-- Stable insertion into a sorted list (before the first element `y` with
`le x y`). -/
def insertIntoSorted (le : α → α → Bool) (x : α) : List α → List α
  | [] => [x]
  | y :: ys => if le x y then x :: y :: ys else y :: insertIntoSorted le x ys

/-- Stable sort; models JS `Array.prototype.sort` with a consistent
comparator (stable since ES2019). -/
def insertionSortBy (le : α → α → Bool) : List α → List α
  | [] => []
  | x :: xs => insertIntoSorted le x (insertionSortBy le xs)

/-- Deduplication keeping first occurrences (lodash `_.uniq`). -/
def uniqAux (seen : List String) : List String → List String
  | [] => []
  | x :: xs => if seen.contains x then uniqAux seen xs else x :: uniqAux (x :: seen) xs

def uniqFirst (l : List String) : List String := uniqAux [] l

/-- lodash `_.groupBy`: groups keyed in first-occurrence order of the key,
each group the order-preserving sublist of elements with that key.
(Real JS objects would list integer-like keys first; no property proved
below depends on the relative order of groups.) -/
def groupByKey (f : α → String) (l : List α) : List (String × List α) :=
  (uniqFirst (l.map f)).map (fun k => (k, l.filter (fun a => f a = k)))

/-- Accumulating map: the state threads left to right through the list. -/
def mapAccum (f : σ → α → β × σ) : σ → List α → List β × σ
  | s, [] => ([], s)
  | s, a :: l =>
    let p := f s a
    let q := mapAccum f p.2 l
    (p.1 :: q.1, q.2)

def sumAmounts (l : List JSNum) : JSNum := l.foldl JSNum.add (JSNum.num 0)

/-! ## The source functions (from `fecProcessor.ts`) -/

/-- `normalizeAccountNumber`: trim, then right-pad with `'0'` to 9
characters; blank input normalizes to the empty string.
(`String(compteNum || "")` is the identity on the string-typed input.) -/
def normalizeAccountNumber (compteNum : String) : String :=
  let cleaned := jsTrim compteNum
  if cleaned = "" then "" else padEnd9 cleaned

/-- `extractMonthKey`: `"YYYYMMDD" → "YYYY-MM"`, `""` for short dates. -/
def extractMonthKey (ecritureDate : String) : String :=
  let dateStr := jsTrim ecritureDate
  if 6 ≤ dateStr.length then
    ⟨dateStr.data.take 4 ++ '-' :: (dateStr.data.drop 4).take 2⟩
  else ""

/-- `isBalanceSheetCategory`: the fixed stock (balance-sheet) category set. -/
def isBalanceSheetCategory (category : String) : Bool :=
  category = "Current Assets" || category = "Current Liabilities" ||
  category = "Equity & Long-term Funding" || category = "Non-Current Assets"

/-- `generateMockBudget` given the value `r` drawn by its single
`Math.random()` call (only reached when the actual amount is not `0`). -/
def generateMockBudget (r : ℚ) (actualAmount : JSNum) : JSNum :=
  if actualAmount = JSNum.num 0 then JSNum.num 0
  else
    let variation : ℚ := 1 + (r * (3/10) - (15/100))
    let budget := JSNum.mul actualAmount (JSNum.num variation)
    let absVal := JSNum.abs budget
    if JSNum.lt absVal (JSNum.num 100) then
      JSNum.mul (JSNum.round (JSNum.divC budget 10)) (JSNum.num 10)
    else if JSNum.lt absVal (JSNum.num 1000) then
      JSNum.mul (JSNum.round (JSNum.divC budget 50)) (JSNum.num 50)
    else
      JSNum.mul (JSNum.round (JSNum.divC budget 100)) (JSNum.num 100)

/-- One budget draw: `Math.random()` is consumed exactly when
`generateMockBudget` does not take its `actualAmount === 0` early return. -/
def drawBudget (rand : ℕ → ℚ) (ctr : ℕ) (actualAmount : JSNum) : JSNum × ℕ :=
  if actualAmount = JSNum.num 0 then (JSNum.num 0, ctr)
  else (generateMockBudget (rand ctr) actualAmount, ctr + 1)

/-- `calculateCumulativeAmounts`: running sum of the values in sorted key
order, result keyed in sorted order.  (A key absent from `m` — impossible
for the object-built maps the engine passes in — would read as `undefined`
and poison the running total to `NaN`, as in JS.) -/
def calculateCumulativeAmounts (m : MonthlyAmounts) : MonthlyAmounts :=
  let sortedMonths := insertionSortBy strLe (m.map Prod.fst)
  (sortedMonths.foldl
    (fun acc month =>
      let rt := JSNum.add acc.2 ((alookup m month).getD JSNum.nan)
      (objSet acc.1 month rt, rt))
    (([] : MonthlyAmounts), JSNum.num 0)).1

/-! ## Data model -/

/-- A FEC ledger line, restricted to the fields the engine reads.
`Debit`/`Credit` may arrive as strings (comma decimal separator) or as
numbers, as in the TS union handled by every `typeof === "string"` test. -/
structure FECEntry where
  EcritureNum : String
  EcritureDate : String
  CompteNum : String
  CompteLib : String
  Debit : String ⊕ JSNum
  Credit : String ⊕ JSNum
deriving DecidableEq

/-- The shared parsing of a `Debit`/`Credit` field:
`typeof x === "string" ? parseFloat(x.replace(",", ".")) : x || 0`.
Note the `|| 0` applies only to the non-string branch; an unparseable
string stays `NaN`. -/
def parseAmount : String ⊕ JSNum → JSNum
  | .inl s => jsParseFloat (replaceCommaStr s)
  | .inr n => n.orZero

/-- A resolved account mapping (the record shape used by `mapping.ts`). -/
structure Mapping where
  account : String
  concept : String
  grandeCategorie : String
  sousCategorie : String
deriving DecidableEq

/-- A session-override ("custom") mapping value. -/
structure CustomMapping where
  concept : String
  grandeCategorie : String
  sousCategorie : String
deriving DecidableEq

/-- The account-mapping resolution inside `processRawFEC`:
session overrides by the normalized number, else the opaque static fallback
on the raw number, else the exact static lookup on the (re-)normalized
number.  `custom` models `customMappings` (a `Map` queried by `has`/`get`),
`fallback` models `getMappingWithFallback` and `exact` models
`getMappingForAccount`, both from the external `mapping.ts`. -/
def resolveMapping (custom : String → Option CustomMapping)
    (fallback exact : String → Option Mapping) (rawCompteNum : String) :
    Option Mapping :=
  let compteNum := normalizeAccountNumber rawCompteNum
  let mapping :=
    match custom compteNum with
    | some cm =>
      some { account := compteNum, concept := cm.concept,
             grandeCategorie := cm.grandeCategorie,
             sousCategorie := cm.sousCategorie }
    | none => fallback rawCompteNum
  match mapping with
  | none => exact (normalizeAccountNumber rawCompteNum)
  | some m => some m

/-- An entry after the mapping step, before the `mapping !== null` filter. -/
structure PreMappedEntry extends FECEntry where
  mapping : Option Mapping
  netAmount : JSNum
deriving DecidableEq

/-- A mapped entry (after the filter). -/
structure MappedEntry extends FECEntry where
  mapping : Mapping
  netAmount : JSNum
deriving DecidableEq

/-- Step 1 of `processRawFEC` on one entry. -/
def premapEntry (custom : String → Option CustomMapping)
    (fallback exact : String → Option Mapping) (e : FECEntry) : PreMappedEntry :=
  { e with
    mapping := resolveMapping custom fallback exact e.CompteNum,
    netAmount := JSNum.sub (parseAmount e.Debit) (parseAmount e.Credit) }

/-- Step 1 of `processRawFEC`: map every entry, keep the mapped ones. -/
def mappedEntries (custom : String → Option CustomMapping)
    (fallback exact : String → Option Mapping) (entries : List FECEntry) :
    List MappedEntry :=
  (entries.map (premapEntry custom fallback exact)).filterMap
    (fun pe => pe.mapping.map
      (fun m => { pe.toFECEntry with mapping := m, netAmount := pe.netAmount }))

/-- Sum of `netAmount` over a list of mapped entries (`_.sumBy`). -/
def sumNet (l : List MappedEntry) : JSNum :=
  l.foldl (fun s e => JSNum.add s e.netAmount) (JSNum.num 0)

/-- Per-account leaf aggregate under a concept. -/
structure AccountDetail where
  compteNum : String
  compteLib : String
  netAmount : JSNum
  monthlyAmounts : MonthlyAmounts
  monthlyBudgets : MonthlyAmounts
deriving DecidableEq

/-- Fold step aggregating one entry into `conceptAccountDetails`
(initialize the account record on first sight, then
`netAmount += entry.netAmount` and, for a nonempty month key,
`monthlyAmounts[monthKey] = (monthlyAmounts[monthKey] || 0) + netAmount`). -/
def addEntryToDetails (ds : List AccountDetail) (e : MappedEntry) :
    List AccountDetail :=
  let monthKey := extractMonthKey e.EcritureDate
  let upd := fun (d : AccountDetail) =>
    let d1 := { d with netAmount := JSNum.add d.netAmount e.netAmount }
    if monthKey = "" then d1
    else { d1 with monthlyAmounts := bump d1.monthlyAmounts monthKey e.netAmount }
  let rec go : List AccountDetail → List AccountDetail
    | [] => [upd { compteNum := e.CompteNum, compteLib := e.CompteLib,
                   netAmount := JSNum.num 0, monthlyAmounts := [],
                   monthlyBudgets := [] }]
    | d :: t => if d.compteNum = e.CompteNum then upd d :: t else d :: go t
  go ds

/-- The six mutable dictionaries plus the draw counter threaded through the
budget pass of one concept. -/
structure PassState where
  conceptAmounts : MonthlyAmounts
  conceptBudgets : MonthlyAmounts
  subAmounts : MonthlyAmounts
  subBudgets : MonthlyAmounts
  catAmounts : MonthlyAmounts
  catBudgets : MonthlyAmounts
  ctr : ℕ
deriving DecidableEq

/-- One `(month, amount)` iteration of the budget pass: generate the mock
budget for this account/month, store it on the account detail, and bump the
concept, sub-category and category running dictionaries. -/
def accountMonthStep (rand : ℕ → ℚ) (acc : AccountDetail × PassState)
    (p : String × JSNum) : AccountDetail × PassState :=
  let d := acc.1
  let st := acc.2
  let month := p.1
  let amount := p.2
  let bd := drawBudget rand st.ctr amount
  let budgetAmount := bd.1
  ({ d with monthlyBudgets := objSet d.monthlyBudgets month budgetAmount },
   { conceptAmounts := bump st.conceptAmounts month amount,
     conceptBudgets := bump st.conceptBudgets month budgetAmount,
     subAmounts := bump st.subAmounts month amount,
     subBudgets := bump st.subBudgets month budgetAmount,
     catAmounts := bump st.catAmounts month amount,
     catBudgets := bump st.catBudgets month budgetAmount,
     ctr := bd.2 })

/-- Budget pass over one account detail (iterating the snapshot of its
`monthlyAmounts` entries). -/
def accountBudgetPass (rand : ℕ → ℚ) (st : PassState) (d : AccountDetail) :
    AccountDetail × PassState :=
  d.monthlyAmounts.foldl (accountMonthStep rand) (d, st)

/-- The JS sort comparator `(a, b) => b.netAmount - a.netAmount` as a
stable-sort `le` test (a comparator value of `NaN` counts as `0` per the
ES `SortCompare` specification). -/
def detailLe (a b : AccountDetail) : Bool :=
  match JSNum.sub b.netAmount a.netAmount with
  | JSNum.nan => true
  | JSNum.num q => decide (q ≤ 0)

/-- A `concept`-level report row. -/
structure ConceptRow where
  id : String
  type : String
  category : String
  subCategory : String
  concept : String
  amount : JSNum
  monthlyAmounts : MonthlyAmounts
  monthlyBudgets : MonthlyAmounts
  accountNumbers : List String
  accountDetails : List AccountDetail
  isCollapsed : Bool
deriving DecidableEq

/-- A `subcategory`-level report row. -/
structure SubCategoryRow where
  id : String
  type : String
  category : String
  subCategory : String
  amount : JSNum
  monthlyAmounts : MonthlyAmounts
  monthlyBudgets : MonthlyAmounts
  isCollapsed : Bool
  children : List ConceptRow
  accountNumbers : List String
deriving DecidableEq

/-- A `category`-level report row. -/
structure CategoryRow where
  id : String
  type : String
  category : String
  amount : JSNum
  monthlyAmounts : MonthlyAmounts
  monthlyBudgets : MonthlyAmounts
  isCollapsed : Bool
  children : List SubCategoryRow
  accountNumbers : List String
deriving DecidableEq

/-- State threaded across the concepts of one sub-category. -/
structure SubState where
  subCategoryTotal : JSNum
  subAmounts : MonthlyAmounts
  subBudgets : MonthlyAmounts
  catAmounts : MonthlyAmounts
  catBudgets : MonthlyAmounts
  ctr : ℕ
deriving DecidableEq

/-- State threaded across the sub-categories of one category. -/
structure CatState where
  categoryTotal : JSNum
  catAmounts : MonthlyAmounts
  catBudgets : MonthlyAmounts
  ctr : ℕ
deriving DecidableEq

/-- Build one (raw, pre-cumulative) concept row and update the running
sub-category/category state, as in the `conceptGrouped` loop body. -/
def buildConceptRow (rand : ℕ → ℚ) (category subCategory concept : String)
    (conceptEntries : List MappedEntry) (st : SubState) :
    ConceptRow × SubState :=
  let conceptTotal := sumNet conceptEntries
  let conceptAccountNumbers := uniqFirst (conceptEntries.map (fun e => e.CompteNum))
  let details0 := conceptEntries.foldl addEntryToDetails []
  let pass := mapAccum (fun s d => accountBudgetPass rand s d)
    { conceptAmounts := [], conceptBudgets := [],
      subAmounts := st.subAmounts, subBudgets := st.subBudgets,
      catAmounts := st.catAmounts, catBudgets := st.catBudgets,
      ctr := st.ctr } details0
  let pst := pass.2
  let finalAccountDetails := insertionSortBy detailLe pass.1
  ({ id := category ++ "-" ++ subCategory ++ "-" ++ concept,
     type := "concept", category := category, subCategory := subCategory,
     concept := concept, amount := conceptTotal,
     monthlyAmounts := pst.conceptAmounts,
     monthlyBudgets := pst.conceptBudgets,
     accountNumbers := conceptAccountNumbers,
     accountDetails := finalAccountDetails, isCollapsed := true },
   { subCategoryTotal := JSNum.add st.subCategoryTotal conceptTotal,
     subAmounts := pst.subAmounts, subBudgets := pst.subBudgets,
     catAmounts := pst.catAmounts, catBudgets := pst.catBudgets,
     ctr := pst.ctr })

/-- Apply the cumulative transform when `b` is set (`isBalanceSheet ? … : …`). -/
def cumulIf (b : Bool) (m : MonthlyAmounts) : MonthlyAmounts :=
  if b then calculateCumulativeAmounts m else m

/-- The per-account part of the stock fixup applied at sub-category level. -/
def updateDetail (bs : Bool) (d : AccountDetail) : AccountDetail :=
  { d with monthlyAmounts := cumulIf bs d.monthlyAmounts,
           monthlyBudgets := cumulIf bs d.monthlyBudgets }

/-- The `updatedConceptRows` fixup: cumulative series for stock categories
at concept and account-detail level. -/
def updateConceptRow (bs : Bool) (r : ConceptRow) : ConceptRow :=
  { r with monthlyAmounts := cumulIf bs r.monthlyAmounts,
           monthlyBudgets := cumulIf bs r.monthlyBudgets,
           accountDetails := r.accountDetails.map (updateDetail bs) }

/-- Concatenation of the `accountNumbers` of a list of concept rows
(`_.flatMap(conceptRows, "accountNumbers")`). -/
def conceptAccountNumbersFlat (rows : List ConceptRow) : List String :=
  rows.foldr (fun r acc => r.accountNumbers ++ acc) []

/-- Concatenation of the `accountNumbers` of a list of sub-category rows. -/
def subAccountNumbersFlat (rows : List SubCategoryRow) : List String :=
  rows.foldr (fun r acc => r.accountNumbers ++ acc) []

/-- Build one sub-category row (the `subGrouped` loop body). -/
def buildSubCategoryRow (rand : ℕ → ℚ) (category : String) (st : CatState)
    (g : String × List MappedEntry) : SubCategoryRow × CatState :=
  let subCategory := g.1
  let conceptGroups := groupByKey (fun e => e.mapping.concept) g.2
  let pass := mapAccum
    (fun s cg => buildConceptRow rand category subCategory cg.1 cg.2 s)
    { subCategoryTotal := JSNum.num 0, subAmounts := [], subBudgets := [],
      catAmounts := st.catAmounts, catBudgets := st.catBudgets, ctr := st.ctr }
    conceptGroups
  let conceptRows := pass.1
  let sst := pass.2
  let subCategoryAccountNumbers := uniqFirst (conceptAccountNumbersFlat conceptRows)
  let isBS := isBalanceSheetCategory category
  ({ id := category ++ "-" ++ subCategory, type := "subcategory",
     category := category, subCategory := subCategory,
     amount := sst.subCategoryTotal,
     monthlyAmounts := cumulIf isBS sst.subAmounts,
     monthlyBudgets := cumulIf isBS sst.subBudgets,
     isCollapsed := true,
     children := conceptRows.map (updateConceptRow isBS),
     accountNumbers := subCategoryAccountNumbers },
   { categoryTotal := JSNum.add st.categoryTotal sst.subCategoryTotal,
     catAmounts := sst.catAmounts, catBudgets := sst.catBudgets,
     ctr := sst.ctr })

/-- Build one category row (the outer `grouped` loop body). -/
def buildCategoryRow (rand : ℕ → ℚ) (ctr : ℕ)
    (g : String × List MappedEntry) : CategoryRow × ℕ :=
  let category := g.1
  let subGroups := groupByKey (fun e => e.mapping.sousCategorie) g.2
  let pass := mapAccum (buildSubCategoryRow rand category)
    { categoryTotal := JSNum.num 0, catAmounts := [], catBudgets := [],
      ctr := ctr } subGroups
  let subRows := pass.1
  let cst := pass.2
  let categoryAccountNumbers := uniqFirst (subAccountNumbersFlat subRows)
  let isBS := isBalanceSheetCategory category
  ({ id := category, type := "category", category := category,
     amount := cst.categoryTotal,
     monthlyAmounts := cumulIf isBS cst.catAmounts,
     monthlyBudgets := cumulIf isBS cst.catBudgets,
     isCollapsed := false, children := subRows,
     accountNumbers := categoryAccountNumbers }, cst.ctr)

/-- `processRawFEC` (the `buildOperatingModel` engine): map and filter the
entries, group category → sub-category → concept, aggregate, apply the
stock cumulative transform, and sort categories (the source's
`localeCompare` is modelled as code-unit comparison, which agrees with it
on the ASCII category names in scope). -/
def processRawFEC (custom : String → Option CustomMapping)
    (fallback exact : String → Option Mapping) (rand : ℕ → ℚ)
    (entries : List FECEntry) : List CategoryRow :=
  if entries.isEmpty then [] else
  let mes := mappedEntries custom fallback exact entries
  if mes.isEmpty then [] else
  let grouped := groupByKey (fun e => e.mapping.grandeCategorie) mes
  let pass := mapAccum (fun c g => buildCategoryRow rand c g) 0 grouped
  insertionSortBy (fun a b => strLe a.category b.category) pass.1

/-! ## `validateEcritures` and `calculateGlobalBalance` -/

structure UnbalancedEcriture where
  ecritureNum : String
  totalDebit : JSNum
  totalCredit : JSNum
  difference : JSNum
deriving DecidableEq

structure ValidationResult where
  isValid : Bool
  unbalancedEcritures : List UnbalancedEcriture
deriving DecidableEq

/-- Sum of parsed debits over a group of lines (`lines.reduce`). -/
def sumDebits (lines : List FECEntry) : JSNum :=
  lines.foldl (fun s l => JSNum.add s (parseAmount l.Debit)) (JSNum.num 0)

/-- Sum of parsed credits over a group of lines. -/
def sumCredits (lines : List FECEntry) : JSNum :=
  lines.foldl (fun s l => JSNum.add s (parseAmount l.Credit)) (JSNum.num 0)

/-- The record pushed for one journal-entry group (`ecritureNum`, its
debit/credit totals and their absolute difference). -/
def unbalancedRecord (g : String × List FECEntry) : UnbalancedEcriture :=
  { ecritureNum := g.1, totalDebit := sumDebits g.2,
    totalCredit := sumCredits g.2,
    difference := JSNum.abs (JSNum.sub (sumDebits g.2) (sumCredits g.2)) }

/-- Loop body of `validateEcritures`: push the group when its difference
exceeds the `0.01` rounding tolerance. -/
def unbalancedStep (acc : List UnbalancedEcriture)
    (g : String × List FECEntry) : List UnbalancedEcriture :=
  if JSNum.gt (unbalancedRecord g).difference (JSNum.num (1/100)) then
    acc ++ [unbalancedRecord g]
  else acc

/-- `validateEcritures`: group by `EcritureNum`, report the groups whose
absolute debit/credit difference exceeds the `0.01` tolerance. -/
def validateEcritures (entries : List FECEntry) : ValidationResult :=
  let grouped := groupByKey (fun e => e.EcritureNum) entries
  let unbalanced := grouped.foldl unbalancedStep ([] : List UnbalancedEcriture)
  { isValid := unbalanced.isEmpty, unbalancedEcritures := unbalanced }

structure GlobalBalance where
  totalDebit : JSNum
  totalCredit : JSNum
  netBalance : JSNum
  isBalanced : Bool
deriving DecidableEq

/-- `calculateGlobalBalance`: totals over all entries, balanced when
`Math.abs(netBalance) < 0.01` (strict). -/
def calculateGlobalBalance (entries : List FECEntry) : GlobalBalance :=
  let totalDebit := sumDebits entries
  let totalCredit := sumCredits entries
  let netBalance := JSNum.sub totalDebit totalCredit
  { totalDebit := totalDebit, totalCredit := totalCredit,
    netBalance := netBalance,
    isBalanced := JSNum.lt (JSNum.abs netBalance) (JSNum.num (1/100)) }

/-! ## `getUnmappedEntries` -/

structure UnmappedAccount where
  compteNum : String
  compteLib : String
  totalDebit : JSNum
  totalCredit : JSNum
  netAmount : JSNum
  count : ℕ
deriving DecidableEq

/-- Aggregation record of `unmappedMap` before `netAmount` is attached. -/
structure UnmappedAcc where
  compteNum : String
  compteLib : String
  totalDebit : JSNum
  totalCredit : JSNum
  count : ℕ
deriving DecidableEq

/-- Upsert into the insertion-ordered `unmappedMap`. -/
def addUnmapped (acc : List UnmappedAcc) (key lib : String)
    (debit credit : JSNum) : List UnmappedAcc :=
  match acc with
  | [] => [{ compteNum := key, compteLib := lib, totalDebit := debit,
             totalCredit := credit, count := 1 }]
  | u :: t =>
    if u.compteNum = key then
      { u with totalDebit := JSNum.add u.totalDebit debit,
               totalCredit := JSNum.add u.totalCredit credit,
               count := u.count + 1 } :: t
    else u :: addUnmapped t key lib debit credit

/-- The sort `le` for `(a, b) => Math.abs(b.netAmount) - Math.abs(a.netAmount)`
(a comparator value of `NaN` counts as `0`). -/
def unmappedLe (a b : UnmappedAccount) : Bool :=
  match JSNum.sub (JSNum.abs b.netAmount) (JSNum.abs a.netAmount) with
  | JSNum.nan => true
  | JSNum.num q => decide (q ≤ 0)

/-- Loop body of `getUnmappedEntries`: skip entries resolved by the static
fallback on the trimmed raw number or by the exact lookup on the normalized
number; aggregate the rest under `normalized || trimmedRaw`. -/
def unmappedStep (fallback exact : String → Option Mapping)
    (acc : List UnmappedAcc) (entry : FECEntry) : List UnmappedAcc :=
  let originalCompteNum := jsTrim entry.CompteNum
  match fallback originalCompteNum with
  | some _ => acc
  | none =>
    let normalizedCompteNum := normalizeAccountNumber originalCompteNum
    match exact normalizedCompteNum with
    | some _ => acc
    | none =>
      let key := if normalizedCompteNum = "" then originalCompteNum
                 else normalizedCompteNum
      addUnmapped acc key entry.CompteLib
        (parseAmount entry.Debit) (parseAmount entry.Credit)

/-- `getUnmappedEntries`: aggregate the entries unresolved by the two
static lookups (fallback on the trimmed raw number, exact on the
normalized number), keyed by `normalized || trimmedRaw`, then attach
`netAmount` and sort by descending absolute net amount. -/
def getUnmappedEntries (fallback exact : String → Option Mapping)
    (entries : List FECEntry) : List UnmappedAccount :=
  let unmappedMap := entries.foldl (unmappedStep fallback exact)
    ([] : List UnmappedAcc)
  insertionSortBy unmappedLe
    (unmappedMap.map (fun u =>
      { compteNum := u.compteNum, compteLib := u.compteLib,
        totalDebit := u.totalDebit, totalCredit := u.totalCredit,
        netAmount := JSNum.sub u.totalDebit u.totalCredit,
        count := u.count }))

/-! ## Budget-value erasure (for comparing runs with different randomness) -/

/-- The key list of a month-keyed dictionary. -/
def monthKeys (m : MonthlyAmounts) : List String := m.map Prod.fst

/-- An account detail with its budget values erased (keys kept). -/
structure AccountDetailE where
  compteNum : String
  compteLib : String
  netAmount : JSNum
  monthlyAmounts : MonthlyAmounts
  monthlyBudgetKeys : List String
deriving DecidableEq

def eraseDetail (d : AccountDetail) : AccountDetailE :=
  { compteNum := d.compteNum, compteLib := d.compteLib,
    netAmount := d.netAmount, monthlyAmounts := d.monthlyAmounts,
    monthlyBudgetKeys := monthKeys d.monthlyBudgets }

/-- A concept row with its budget values erased (keys kept). -/
structure ConceptRowE where
  id : String
  type : String
  category : String
  subCategory : String
  concept : String
  amount : JSNum
  monthlyAmounts : MonthlyAmounts
  monthlyBudgetKeys : List String
  accountNumbers : List String
  accountDetails : List AccountDetailE
  isCollapsed : Bool
deriving DecidableEq

def eraseConceptRow (r : ConceptRow) : ConceptRowE :=
  { id := r.id, type := r.type, category := r.category,
    subCategory := r.subCategory, concept := r.concept, amount := r.amount,
    monthlyAmounts := r.monthlyAmounts,
    monthlyBudgetKeys := monthKeys r.monthlyBudgets,
    accountNumbers := r.accountNumbers,
    accountDetails := r.accountDetails.map eraseDetail,
    isCollapsed := r.isCollapsed }

/-- A sub-category row with its budget values erased (keys kept). -/
structure SubCategoryRowE where
  id : String
  type : String
  category : String
  subCategory : String
  amount : JSNum
  monthlyAmounts : MonthlyAmounts
  monthlyBudgetKeys : List String
  isCollapsed : Bool
  children : List ConceptRowE
  accountNumbers : List String
deriving DecidableEq

def eraseSubRow (r : SubCategoryRow) : SubCategoryRowE :=
  { id := r.id, type := r.type, category := r.category,
    subCategory := r.subCategory, amount := r.amount,
    monthlyAmounts := r.monthlyAmounts,
    monthlyBudgetKeys := monthKeys r.monthlyBudgets,
    isCollapsed := r.isCollapsed,
    children := r.children.map eraseConceptRow,
    accountNumbers := r.accountNumbers }

/-- A category row with its budget values erased (keys kept). -/
structure CategoryRowE where
  id : String
  type : String
  category : String
  amount : JSNum
  monthlyAmounts : MonthlyAmounts
  monthlyBudgetKeys : List String
  isCollapsed : Bool
  children : List SubCategoryRowE
  accountNumbers : List String
deriving DecidableEq

def eraseCatRow (r : CategoryRow) : CategoryRowE :=
  { id := r.id, type := r.type, category := r.category, amount := r.amount,
    monthlyAmounts := r.monthlyAmounts,
    monthlyBudgetKeys := monthKeys r.monthlyBudgets,
    isCollapsed := r.isCollapsed,
    children := r.children.map eraseSubRow,
    accountNumbers := r.accountNumbers }

/-- The account-detail sort order seen through the erasure. -/
def detailLeE (a b : AccountDetailE) : Bool :=
  match JSNum.sub b.netAmount a.netAmount with
  | JSNum.nan => true
  | JSNum.num q => decide (q ≤ 0)

/-- The category sort order seen through the erasure. -/
def catLeE (a b : CategoryRowE) : Bool := strLe a.category b.category

/-- Agreement of two budget-pass states up to budget values. -/
def passStateRel (s1 s2 : PassState) : Prop :=
  s1.conceptAmounts = s2.conceptAmounts
  ∧ monthKeys s1.conceptBudgets = monthKeys s2.conceptBudgets
  ∧ s1.subAmounts = s2.subAmounts
  ∧ monthKeys s1.subBudgets = monthKeys s2.subBudgets
  ∧ s1.catAmounts = s2.catAmounts
  ∧ monthKeys s1.catBudgets = monthKeys s2.catBudgets
  ∧ s1.ctr = s2.ctr

/-- Agreement of two sub-category states up to budget values. -/
def subStateRel (s1 s2 : SubState) : Prop :=
  s1.subCategoryTotal = s2.subCategoryTotal
  ∧ s1.subAmounts = s2.subAmounts
  ∧ monthKeys s1.subBudgets = monthKeys s2.subBudgets
  ∧ s1.catAmounts = s2.catAmounts
  ∧ monthKeys s1.catBudgets = monthKeys s2.catBudgets
  ∧ s1.ctr = s2.ctr

/-- Agreement of two category states up to budget values. -/
def catStateRel (s1 s2 : CatState) : Prop :=
  s1.categoryTotal = s2.categoryTotal
  ∧ s1.catAmounts = s2.catAmounts
  ∧ monthKeys s1.catBudgets = monthKeys s2.catBudgets
  ∧ s1.ctr = s2.ctr

/-! ## Entry slices of the grouping pipeline -/

/-- The mapped entries grouped under one category
(`_.groupBy` groups are the order-preserving filters by key). -/
def catEntriesOf (custom : String → Option CustomMapping)
    (fallback exact : String → Option Mapping) (entries : List FECEntry)
    (cat : String) : List MappedEntry :=
  (mappedEntries custom fallback exact entries).filter
    (fun e => e.mapping.grandeCategorie = cat)

/-- The mapped entries grouped under one sub-category of one category. -/
def subEntriesOf (custom : String → Option CustomMapping)
    (fallback exact : String → Option Mapping) (entries : List FECEntry)
    (cat sub : String) : List MappedEntry :=
  (catEntriesOf custom fallback exact entries cat).filter
    (fun e => e.mapping.sousCategorie = sub)

/-- The mapped entries grouped under one concept of one sub-category. -/
def conceptEntriesOf (custom : String → Option CustomMapping)
    (fallback exact : String → Option Mapping) (entries : List FECEntry)
    (cat sub con : String) : List MappedEntry :=
  (subEntriesOf custom fallback exact entries cat sub).filter
    (fun e => e.mapping.concept = con)

/-! ## Concrete inputs used by counterexamples and witnesses -/

/-- An entry with the four read fields and a fixed posting date shape. -/
def mkEntry (eno date cnum clib : String) (d c : String ⊕ JSNum) : FECEntry :=
  { EcritureNum := eno, EcritureDate := date, CompteNum := cnum,
    CompteLib := clib, Debit := d, Credit := c }

/-- An empty static lookup (raw/normalized numbers all unresolved). -/
def lookupNone : String → Option Mapping := fun _ => none

/-- An empty session-override map. -/
def customNone : String → Option CustomMapping := fun _ => none

/-- A fixed draw sequence for `Math.random`. -/
def randZero : ℕ → ℚ := fun _ => 0

/-- A ledger line carrying one cent of debit (for the C4 counterexample). -/
def entryOneCent : FECEntry :=
  mkEntry ("1") ("20250101") ("600000000") ("X")
    (Sum.inr (JSNum.num (1/100))) (Sum.inr (JSNum.num 0))

/-- Claim C4's first example group: debit 100.00, credit 99.995. -/
def groupNearlyBalanced : List FECEntry :=
  [mkEntry ("1") ("20250101") ("600000000") ("X")
      (Sum.inr (JSNum.num 100)) (Sum.inr (JSNum.num 0)),
   mkEntry ("1") ("20250101") ("700000000") ("Y")
      (Sum.inr (JSNum.num 0)) (Sum.inr (JSNum.num (99995/1000)))]

/-- Claim C4's second example group: debit 100.00, credit 99.98. -/
def groupClearlyUnbalanced : List FECEntry :=
  [mkEntry ("1") ("20250101") ("600000000") ("X")
      (Sum.inr (JSNum.num 100)) (Sum.inr (JSNum.num 0)),
   mkEntry ("1") ("20250101") ("700000000") ("Y")
      (Sum.inr (JSNum.num 0)) (Sum.inr (JSNum.num (9998/100)))]

/-- A ledger line whose `Debit` string does not parse as a number. -/
def entryBadDebit : FECEntry :=
  mkEntry ("1") ("20250101") ("600000000") ("X")
    (Sum.inl ("abc")) (Sum.inr (JSNum.num 100))

/-- A ledger line whose account number is a single space. -/
def entrySpaceAccount : FECEntry :=
  mkEntry ("1") ("20250101") (" ") ("X")
    (Sum.inr (JSNum.num 5)) (Sum.inr (JSNum.num 0))

/-- A ledger line on account "999", unresolvable by the empty lookups. -/
def entryNine : FECEntry :=
  mkEntry ("1") ("20250101") ("999") ("X")
    (Sum.inr (JSNum.num 5)) (Sum.inr (JSNum.num 0))

/-- The spec's end-to-end scenario: a software expense line. -/
def entrySoftware : FECEntry :=
  mkEntry ("1") ("20250115") ("61352003") ("Soft")
    (Sum.inr (JSNum.num 100)) (Sum.inr (JSNum.num 0))

/-- The spec's end-to-end scenario: a sales revenue line. -/
def entrySales : FECEntry :=
  mkEntry ("1") ("20250115") ("70100000") ("Sales")
    (Sum.inr (JSNum.num 0)) (Sum.inr (JSNum.num 100))

/-- The spec's end-to-end session overrides keyed by normalized numbers. -/
def customSpecExample : String → Option CustomMapping := fun s =>
  if s = "613520030" then
    some { concept := "Software", grandeCategorie := "Operating Expenses (OPEX)",
           sousCategorie := "R&D Expenses" }
  else if s = "701000000" then
    some { concept := "Sales", grandeCategorie := "Revenue",
           sousCategorie := "Product Revenue" }
  else none

def dummyConceptRow : ConceptRow :=
  { id := "", type := "", category := "", subCategory := "", concept := "",
    amount := JSNum.num 0, monthlyAmounts := [], monthlyBudgets := [],
    accountNumbers := [], accountDetails := [], isCollapsed := true }

def dummySubCategoryRow : SubCategoryRow :=
  { id := "", type := "", category := "", subCategory := "",
    amount := JSNum.num 0, monthlyAmounts := [], monthlyBudgets := [],
    isCollapsed := true, children := [], accountNumbers := [] }

def dummyCategoryRow : CategoryRow :=
  { id := "", type := "", category := "", amount := JSNum.num 0,
    monthlyAmounts := [], monthlyBudgets := [], isCollapsed := false,
    children := [], accountNumbers := [] }

/-- The operating model built from the spec's end-to-end scenario. -/
def witnessModel : List CategoryRow :=
  processRawFEC customSpecExample lookupNone lookupNone randZero
    [entrySoftware, entrySales]

/-- Its first category row ("Operating Expenses (OPEX)"). -/
def witnessRow : CategoryRow := witnessModel.headD dummyCategoryRow

def witnessSubRow : SubCategoryRow := witnessRow.children.headD dummySubCategoryRow

def witnessConceptRow : ConceptRow := witnessSubRow.children.headD dummyConceptRow

/-! ## Monthly-series bookkeeping (for the cumulative/flow characterization) -/

/-- The rational carried by a JS number (`NaN ↦ 0`; every series below is
built from non-`NaN` values, where this is faithful). -/
def qOf : JSNum → ℚ
  | JSNum.nan => 0
  | JSNum.num q => q

/-- The report month of a mapped entry. -/
def monthOf (e : MappedEntry) : String := extractMonthKey e.EcritureDate

/-- Rational net movement of an entry slice within month `m`. -/
def netQm (l : List MappedEntry) (m : String) : ℚ :=
  ((l.filter (fun e => monthOf e = m)).map (fun e => qOf e.netAmount)).sum

/-- The prefix of a key list up to and including (the first occurrence of)
`m`. -/
def upTo (K : List String) (m : String) : List String :=
  K.takeWhile (fun k => ¬ k = m) ++ [m]

/-- Folding a `(month, amount)` stream into a dictionary with `bump` — the
shape of every monthly accumulation in the engine. -/
def histFold (a : MonthlyAmounts) (s : List (String × JSNum)) : MonthlyAmounts :=
  s.foldl (fun acc p => bump acc p.1 p.2) a

/-- Rational total of a `(month, amount)` stream at one key. -/
def keyQ (s : List (String × JSNum)) (m : String) : ℚ :=
  ((s.filter (fun p => p.1 = m)).map (fun p => qOf p.2)).sum

/-- Rational value of a dictionary at a key (`0` when absent). -/
def ql (a : MonthlyAmounts) (m : String) : ℚ :=
  qOf ((alookup a m).getD (JSNum.num 0))

/-- Streams and dictionaries whose amounts are all non-`NaN`. -/
def numVals (s : List (String × JSNum)) : Prop := ∀ p ∈ s, p.2 ≠ JSNum.nan

/-- The `(month, amount)` stream replayed by the budget pass over a list of
account details: each detail contributes its `monthlyAmounts` pairs. -/
def detailStream (ds : List AccountDetail) : List (String × JSNum) :=
  (ds.map AccountDetail.monthlyAmounts).join

/-- The stream of one concept group. -/
def conceptStream (l : List MappedEntry) : List (String × JSNum) :=
  detailStream (l.foldl addEntryToDetails [])

/-- The stream of one sub-category group (its concept groups in order). -/
def subStream (l : List MappedEntry) : List (String × JSNum) :=
  ((groupByKey (fun e => e.mapping.concept) l).map
    (fun g => conceptStream g.2)).join

/-- The stream of one category group (its sub-category groups in order). -/
def catStream (l : List MappedEntry) : List (String × JSNum) :=
  ((groupByKey (fun e => e.mapping.sousCategorie) l).map
    (fun g => subStream g.2)).join

/-- The claim-side description of a row monthly series over its entry
slice: the key set is exactly the nonempty months of the slice; at each
present key the value is the raw net movement within that month (flow) or,
for stock (balance-sheet) categories, the running cumulative over the
row's sorted key prefix up to and including the month. -/
def claimSeries (isBS : Bool) (M : MonthlyAmounts) (sl : List MappedEntry) : Prop :=
  (∀ m, m ∈ monthKeys M ↔ (¬ m = "" ∧ ∃ e ∈ sl, monthOf e = m)) ∧
  (if isBS then
    List.Chain' (fun a b => strLe a b = true) (monthKeys M) ∧
    ∀ m ∈ monthKeys M,
      alookup M m = some (JSNum.num
        (((upTo (monthKeys M) m).map (fun k => netQm sl k)).sum))
  else
    ∀ m ∈ monthKeys M,
      alookup M m = some (JSNum.num (netQm sl m)))

/-- The claim-side description of a row's `monthlyBudgets`: there is a raw
monthly budget dictionary `B` keyed exactly by the node's nonempty entry
months, and the stored series is the same transform of `B` that the claim
applies to the amounts — the identity for flow rows, and for stock rows
the running cumulative of `B` over the stored (sorted) key prefix, with
the stored keys exactly `B`'s keys. -/
def claimBudget (isBS : Bool) (MB : MonthlyAmounts) (sl : List MappedEntry) : Prop :=
  ∃ B : MonthlyAmounts,
    (∀ m, m ∈ monthKeys B ↔ (¬ m = "" ∧ ∃ e ∈ sl, monthOf e = m)) ∧
    (if isBS then
      List.Chain' (fun a b => strLe a b = true) (monthKeys MB) ∧
      (∀ m, m ∈ monthKeys MB ↔ m ∈ monthKeys B) ∧
      ∀ m ∈ monthKeys MB,
        alookup MB m = some (JSNum.num
          (((upTo (monthKeys MB) m).map (fun k => ql B k)).sum))
    else MB = B)

/-- The dictionary built by the fold inside `calculateCumulativeAmounts`
after the already-processed keys, as a function of the running total `v`
and the remaining key list. -/
def cumTail (R : MonthlyAmounts) : JSNum → List String → MonthlyAmounts
  | _, [] => []
  | v, k :: ks =>
    let rt := JSNum.add v ((alookup R k).getD JSNum.nan)
    (k, rt) :: cumTail R rt ks

/-- The running total of `calculateCumulativeAmounts` after a key list. -/
def runTotal (R : MonthlyAmounts) (v : JSNum) (ks : List String) : JSNum :=
  ks.foldl (fun a k => JSNum.add a ((alookup R k).getD JSNum.nan)) v

/-- The three facts carried up the aggregation for a stream and the entry
slice it came from: non-`NaN` values, per-key totals equal to the slice's
net movement in the month, and keys exactly the nonempty months of the
slice. -/
def streamFacts (S : List (String × JSNum)) (sl : List MappedEntry) : Prop :=
  numVals S ∧
  (∀ m, ¬ m = "" → keyQ S m = netQm sl m) ∧
  (∀ m, m ∈ S.map Prod.fst ↔ (¬ m = "" ∧ ∃ e ∈ sl, monthOf e = m))

/-- The per-detail update of the `conceptAccountDetails` fold (the body of
`addEntryToDetails` applied to the matched record). -/
def updEntry (e : MappedEntry) (d : AccountDetail) : AccountDetail :=
  let monthKey := extractMonthKey e.EcritureDate
  let d1 := { d with netAmount := JSNum.add d.netAmount e.netAmount }
  if monthKey = "" then d1
  else { d1 with monthlyAmounts := bump d1.monthlyAmounts monthKey e.netAmount }

/-- The fresh account record of `addEntryToDetails`. -/
def newDetail (e : MappedEntry) : AccountDetail :=
  { compteNum := e.CompteNum, compteLib := e.CompteLib,
    netAmount := JSNum.num 0, monthlyAmounts := [], monthlyBudgets := [] }

/-- One account record's monthly dictionary is the per-month net histogram
of its account's processed entries (nonempty months only). -/
def detailProp (d : AccountDetail) (P : List MappedEntry) : Prop :=
  numVals d.monthlyAmounts ∧
  (monthKeys d.monthlyAmounts).Nodup ∧
  (∀ m, m ∈ monthKeys d.monthlyAmounts ↔
    (¬ m = "" ∧ ∃ e ∈ P, e.CompteNum = d.compteNum ∧ monthOf e = m)) ∧
  (∀ m, ¬ m = "" →
    ql d.monthlyAmounts m
      = netQm (P.filter (fun e => e.CompteNum = d.compteNum)) m)

/-- Invariant of the `conceptAccountDetails` fold: account keys are
distinct and cover the processed entries, and each record satisfies
`detailProp`. -/
def detailsInv (ds : List AccountDetail) (P : List MappedEntry) : Prop :=
  (ds.map AccountDetail.compteNum).Nodup ∧
  (∀ e ∈ P, e.CompteNum ∈ ds.map AccountDetail.compteNum) ∧
  ∀ d ∈ ds, detailProp d P

/-- Session overrides sending account `1` into Current Assets/S1 and
account `2` into Current Assets/S2 (stock category, distinct
sub-categories). -/
def cm2 : String → Option CustomMapping := fun s =>
  if s = "100000000" then
    some { concept := "c1", grandeCategorie := "Current Assets",
           sousCategorie := "S1" }
  else if s = "200000000" then
    some { concept := "c2", grandeCategorie := "Current Assets",
           sousCategorie := "S2" }
  else none

/-- A January posting on account `1`. -/
def entryS1 : FECEntry :=
  mkEntry ("1") ("20250101") ("1") ("A")
    (Sum.inr (JSNum.num 100)) (Sum.inr (JSNum.num 0))

/-- A February posting on account `2`. -/
def entryS2 : FECEntry :=
  mkEntry ("2") ("20250201") ("2") ("B")
    (Sum.inr (JSNum.num 50)) (Sum.inr (JSNum.num 0))

/-! ## Facts about `jsTrim`, `padEnd9` and `normalizeAccountNumber` (C5) -/

theorem dropWhile_head_not (p : Char → Bool) (l : List Char) :
    ∀ a, (l.dropWhile p).head? = some a → p a = false := by
  induction l with
  | nil => simp
  | cons c t ih =>
    intro a h
    rw [List.dropWhile_cons] at h
    by_cases hc : p c
    · exact ih a (by simpa [hc] using h)
    · simp [hc] at h
      simp [← h]
      simpa using hc

theorem dropWhile_eq_self_of_head (p : Char → Bool) (l : List Char)
    (h : ∀ a, l.head? = some a → p a = false) : l.dropWhile p = l := by
  cases l with
  | nil => rfl
  | cons c t => rw [List.dropWhile_cons]; simp [h c rfl]

theorem jsTrim_data (s : String) :
    (jsTrim s).data =
      ((s.data.dropWhile jsIsWhitespace).reverse.dropWhile jsIsWhitespace).reverse := rfl

/-- The first character of a trimmed string is not whitespace. -/
theorem jsTrim_head_not (s : String) :
    ∀ a, (jsTrim s).data.head? = some a → jsIsWhitespace a = false := by
  intro a h
  rw [jsTrim_data] at h
  set m := s.data.dropWhile jsIsWhitespace with hm
  have hsuff : (m.reverse.dropWhile jsIsWhitespace) <:+ m.reverse :=
    List.dropWhile_suffix _
  have hpref : (m.reverse.dropWhile jsIsWhitespace).reverse <+: m := by
    have := List.reverse_prefix.mpr hsuff
    simpa using this
  obtain ⟨t, ht⟩ := hpref
  have hm' : m.head? = some a := by
    rw [← ht, List.head?_append, h]; rfl
  exact dropWhile_head_not _ _ a hm'

/-- The last character of a trimmed string is not whitespace. -/
theorem jsTrim_last_not (s : String) :
    ∀ a, (jsTrim s).data.reverse.head? = some a → jsIsWhitespace a = false := by
  intro a h
  rw [jsTrim_data, List.reverse_reverse] at h
  exact dropWhile_head_not _ _ a h

/-- A string whose first and last characters are not whitespace is fixed by
`jsTrim`. -/
theorem jsTrim_eq_self (t : String)
    (h1 : ∀ a, t.data.head? = some a → jsIsWhitespace a = false)
    (h2 : ∀ a, t.data.reverse.head? = some a → jsIsWhitespace a = false) :
    jsTrim t = t := by
  apply String.ext
  rw [jsTrim_data]
  rw [dropWhile_eq_self_of_head _ _ h1]
  rw [dropWhile_eq_self_of_head _ _ h2, List.reverse_reverse]

theorem padEnd9_length (s : String) : (padEnd9 s).length = max 9 s.length := by
  unfold padEnd9
  by_cases h : 9 ≤ s.length
  · simp [h, Nat.max_eq_right h]
  · have h' : s.length ≤ 9 := Nat.le_of_lt (Nat.lt_of_not_le h)
    have hd : (⟨s.data ++ List.replicate (9 - s.length) '0'⟩ : String).length
        = s.data.length + (9 - s.length) := by
      show (s.data ++ List.replicate (9 - s.length) '0').length = _
      simp
    have hlen : s.data.length = s.length := rfl
    simp only [h, if_false]
    rw [hd, hlen]
    omega

theorem padEnd9_data (s : String) (h : ¬ 9 ≤ s.length) :
    (padEnd9 s).data = s.data ++ List.replicate (9 - s.length) '0' := by
  unfold padEnd9; simp [h]

/-- `normalizeAccountNumber` unfolded on the two branches. -/
theorem normalizeAccountNumber_eq (s : String) :
    normalizeAccountNumber s =
      (if jsTrim s = "" then "" else padEnd9 (jsTrim s)) := rfl

theorem padEnd9_of_long (s : String) (h : 9 ≤ s.length) : padEnd9 s = s := by
  unfold padEnd9; simp [h]

theorem jsTrim_length_le (s : String) : (jsTrim s).length ≤ s.length := by
  have h1 : ((s.data.dropWhile jsIsWhitespace).reverse.dropWhile jsIsWhitespace).length
      ≤ (s.data.dropWhile jsIsWhitespace).reverse.length :=
    (List.dropWhile_suffix _).sublist.length_le
  have h2 : (s.data.dropWhile jsIsWhitespace).length ≤ s.data.length :=
    (List.dropWhile_suffix _).sublist.length_le
  show (jsTrim s).data.length ≤ s.data.length
  rw [jsTrim_data]
  simp only [List.length_reverse] at *
  omega

theorem string_ne_empty_iff (s : String) : s ≠ "" ↔ s.data ≠ [] := by
  constructor
  · intro h hd
    exact h (String.ext hd)
  · intro h hd
    rw [hd] at h
    exact h rfl

/-- The padded trim of a nonblank string is fixed by `jsTrim`. -/
theorem jsTrim_padEnd9_jsTrim (s : String) (h : jsTrim s ≠ "") :
    jsTrim (padEnd9 (jsTrim s)) = padEnd9 (jsTrim s) := by
  have hne : (jsTrim s).data ≠ [] := (string_ne_empty_iff _).mp h
  by_cases hlen : 9 ≤ (jsTrim s).length
  · rw [padEnd9_of_long _ hlen]
    exact jsTrim_eq_self _ (jsTrim_head_not s) (jsTrim_last_not s)
  · apply jsTrim_eq_self
    · intro a ha
      rw [padEnd9_data _ hlen, List.head?_append_of_ne_nil _ hne] at ha
      exact jsTrim_head_not s a ha
    · intro a ha
      rw [padEnd9_data _ hlen, List.reverse_append] at ha
      by_cases hk : 9 - (jsTrim s).length = 0
      · rw [hk] at ha
        simp only [List.replicate, List.reverse_nil, List.nil_append] at ha
        exact jsTrim_last_not s a ha
      · have hrep : (List.replicate (9 - (jsTrim s).length) '0').reverse ≠ [] := by
          simp [List.reverse_eq_nil_iff, List.replicate_eq_nil_iff]
          omega
        rw [List.head?_append_of_ne_nil _ hrep] at ha
        have hrev : (List.replicate (9 - (jsTrim s).length) '0').reverse
            = List.replicate (9 - (jsTrim s).length) '0' :=
          List.reverse_replicate _ _
        rw [hrev] at ha
        obtain ⟨k, hkk⟩ : ∃ k, 9 - (jsTrim s).length = k + 1 :=
          ⟨9 - (jsTrim s).length - 1, by omega⟩
        rw [hkk, List.replicate_succ] at ha
        simp only [List.head?_cons, Option.some.injEq] at ha
        rw [← ha]
        rfl

/-- Corrects C5: `normalizeAccountNumber` of a whitespace-only (nonempty)
string is the empty string, not a 9-character string; the claim's
length-9 and longer-than-9 clauses hold only relative to the trimmed
input. -/
theorem C5_counterexample :
    ¬ ((normalizeAccountNumber (" ")).length = 9 ∨ (" " : String) = "") := by
  decide

/-- C5 (amended): `normalizeAccountNumber` is idempotent on every string;
it returns `""` exactly on blank (trim-empty) input; on input of length at
most 9 with nonblank trim it returns a 9-character string; and when the
trimmed input is longer than 9 characters it returns the trimmed input
unchanged (no truncation). -/
theorem C5_normalize_idempotent (s : String) :
    normalizeAccountNumber (normalizeAccountNumber s) = normalizeAccountNumber s
    ∧ (jsTrim s = "" → normalizeAccountNumber s = "")
    ∧ (jsTrim s ≠ "" → s.length ≤ 9 → (normalizeAccountNumber s).length = 9)
    ∧ (9 < (jsTrim s).length → normalizeAccountNumber s = jsTrim s) := by
  refine ⟨?_, ?_, ?_, ?_⟩
  · by_cases h : jsTrim s = ""
    · rw [normalizeAccountNumber_eq s, if_pos h]
      rfl
    · rw [normalizeAccountNumber_eq s, if_neg h]
      have hfix := jsTrim_padEnd9_jsTrim s h
      have hlong : 9 ≤ (padEnd9 (jsTrim s)).length := by
        rw [padEnd9_length]; omega
      have hne : padEnd9 (jsTrim s) ≠ "" := by
        rw [string_ne_empty_iff]
        intro hd
        have : (padEnd9 (jsTrim s)).length = 0 := by
          show (padEnd9 (jsTrim s)).data.length = 0
          rw [hd]; rfl
        omega
      rw [normalizeAccountNumber_eq, hfix, if_neg hne, padEnd9_of_long _ hlong]
  · intro h
    rw [normalizeAccountNumber_eq s, if_pos h]
  · intro h hlen
    rw [normalizeAccountNumber_eq s, if_neg h, padEnd9_length]
    have := jsTrim_length_le s
    omega
  · intro h
    have hne : jsTrim s ≠ "" := by
      rw [string_ne_empty_iff]
      intro hd
      have : (jsTrim s).length = 0 := by
        show (jsTrim s).data.length = 0
        rw [hd]; rfl
      omega
    rw [normalizeAccountNumber_eq s, if_neg hne,
      padEnd9_of_long _ (Nat.le_of_lt h)]

/-- Witness for C5 at the concrete input `"6135203"`. -/
theorem C5_normalize_idempotent_witness :
    (jsTrim ("6135203") ≠ "" ∧ ("6135203" : String).length ≤ 9
      ∧ (normalizeAccountNumber ("6135203")).length = 9)
    ∧ normalizeAccountNumber (normalizeAccountNumber ("6135203"))
        = normalizeAccountNumber ("6135203") :=
  ⟨⟨by decide, by decide,
    (C5_normalize_idempotent ("6135203")).2.2.1 (by decide) (by decide)⟩,
   (C5_normalize_idempotent ("6135203")).1⟩

/-! ## Facts about `uniqFirst` and `groupByKey` -/

theorem mem_uniqAux (l : List String) : ∀ (seen : List String) (x : String),
    x ∈ uniqAux seen l ↔ x ∈ l ∧ x ∉ seen := by
  induction l with
  | nil =>
    intro seen x
    simp [uniqAux]
  | cons a t ih =>
    intro seen x
    by_cases h : a ∈ seen
    · have hc : seen.contains a = true := List.elem_iff.mpr h
      rw [uniqAux, if_pos hc, ih]
      constructor
      · rintro ⟨hx, hs⟩
        exact ⟨List.mem_cons_of_mem _ hx, hs⟩
      · rintro ⟨hx, hs⟩
        rcases List.mem_cons.mp hx with rfl | hx'
        · exact absurd h hs
        · exact ⟨hx', hs⟩
    · have hc : ¬ seen.contains a = true := fun hcc => h (List.elem_iff.mp hcc)
      rw [uniqAux, if_neg hc]
      constructor
      · intro hx
        rcases List.mem_cons.mp hx with rfl | hx'
        · exact ⟨List.mem_cons_self _ _, h⟩
        · rcases (ih (a :: seen) x).mp hx' with ⟨h1, h2⟩
          refine ⟨List.mem_cons_of_mem _ h1, fun hs => h2 (List.mem_cons_of_mem _ hs)⟩
      · rintro ⟨hx, hs⟩
        rcases List.mem_cons.mp hx with rfl | hx'
        · exact List.mem_cons_self _ _
        · by_cases hxa : x = a
          · subst hxa
            exact List.mem_cons_self _ _
          · exact List.mem_cons_of_mem _
              ((ih (a :: seen) x).mpr ⟨hx', fun hm => by
                rcases List.mem_cons.mp hm with h1 | h2
                · exact hxa h1
                · exact hs h2⟩)

theorem mem_uniqFirst (l : List String) (x : String) :
    x ∈ uniqFirst l ↔ x ∈ l := by
  rw [uniqFirst, mem_uniqAux]
  simp

theorem uniqAux_nodup (l : List String) :
    ∀ seen : List String, (uniqAux seen l).Nodup := by
  induction l with
  | nil => intro seen; simp [uniqAux]
  | cons a t ih =>
    intro seen
    by_cases h : seen.contains a = true
    · rw [uniqAux, if_pos h]
      exact ih seen
    · rw [uniqAux, if_neg h]
      refine List.Nodup.cons ?_ (ih (a :: seen))
      intro hmem
      have := (mem_uniqAux t (a :: seen) a).mp hmem
      exact this.2 (List.mem_cons_self _ _)

theorem uniqFirst_nodup (l : List String) : (uniqFirst l).Nodup :=
  uniqAux_nodup l []

theorem mem_groupByKey {f : α → String} {l : List α} {g : String × List α} :
    g ∈ groupByKey f l ↔
      g.1 ∈ uniqFirst (l.map f) ∧ g.2 = l.filter (fun a => f a = g.1) := by
  rw [groupByKey, List.mem_map]
  constructor
  · rintro ⟨k, hk, rfl⟩
    exact ⟨hk, rfl⟩
  · rintro ⟨h1, h2⟩
    exact ⟨g.1, h1, by rw [← h2]⟩

theorem groupByKey_keys {f : α → String} {l : List α} :
    (groupByKey f l).map Prod.fst = uniqFirst (l.map f) := by
  rw [groupByKey, List.map_map]
  exact List.map_id _

theorem groupByKey_keys_nodup {f : α → String} {l : List α} :
    ((groupByKey f l).map Prod.fst).Nodup := by
  rw [groupByKey_keys]
  exact uniqFirst_nodup _


/-! ## C4: balance tolerance -/

theorem foldl_unbalancedStep (gs : List (String × List FECEntry)) :
    ∀ acc : List UnbalancedEcriture,
      gs.foldl unbalancedStep acc =
        acc ++ gs.filterMap (fun g =>
          if JSNum.gt (unbalancedRecord g).difference (JSNum.num (1/100)) = true
          then some (unbalancedRecord g) else none) := by
  induction gs with
  | nil =>
    intro acc
    simp
  | cons g t ih =>
    intro acc
    cases hgt : JSNum.gt (unbalancedRecord g).difference (JSNum.num (1/100)) with
    | false =>
      have h1 : ¬ (JSNum.gt (unbalancedRecord g).difference (JSNum.num (1/100)) = true) := by
        rw [hgt]; simp
      rw [List.foldl_cons, unbalancedStep, if_neg h1, ih,
        List.filterMap_cons, if_neg h1]
    | true =>
      rw [List.foldl_cons, unbalancedStep, if_pos hgt, ih,
        List.filterMap_cons, if_pos hgt]
      simp [List.append_assoc]

theorem validate_unbalanced_eq (entries : List FECEntry) :
    (validateEcritures entries).unbalancedEcritures =
      (groupByKey (fun e => e.EcritureNum) entries).filterMap
        (fun g => if JSNum.gt (unbalancedRecord g).difference (JSNum.num (1/100)) = true
                  then some (unbalancedRecord g) else none) := by
  show (groupByKey (fun e => e.EcritureNum) entries).foldl unbalancedStep [] = _
  rw [foldl_unbalancedStep]
  simp

/-- Corrects C4: one cent of net imbalance (`|netBalance| = 0.01`, inside
the claim's `≤ 0.01` tolerance) is already reported as unbalanced by
`calculateGlobalBalance`, whose test is the strict `< 0.01`. -/
theorem C4_counterexample :
    (calculateGlobalBalance [entryOneCent]).netBalance = JSNum.num (1/100)
    ∧ |(1 : ℚ)/100| ≤ 1/100
    ∧ (calculateGlobalBalance [entryOneCent]).isBalanced ≠ true := by
  refine ⟨by decide, by decide, by decide⟩

/-- C4 (amended): a journal-entry group is listed by `validateEcritures`
exactly when `|sumDebit − sumCredit| > 0.01`; `isValid` holds iff the list
is empty; the claim's two example groups (credit 99.995: balanced; credit
99.98: unbalanced) behave as stated; but `calculateGlobalBalance.isBalanced`
holds exactly when `|netBalance| < 0.01` — strict, not the claim's `≤`. -/
theorem C4_balance_tolerance (entries : List FECEntry) :
    ((validateEcritures entries).isValid = true
        ↔ (validateEcritures entries).unbalancedEcritures = [])
    ∧ (∀ g ∈ groupByKey (fun e => e.EcritureNum) entries,
        (unbalancedRecord g ∈ (validateEcritures entries).unbalancedEcritures
          ↔ JSNum.gt (JSNum.abs (JSNum.sub (sumDebits g.2) (sumCredits g.2)))
              (JSNum.num (1/100)) = true))
    ∧ ((calculateGlobalBalance entries).isBalanced = true
        ↔ JSNum.lt (JSNum.abs (calculateGlobalBalance entries).netBalance)
            (JSNum.num (1/100)) = true)
    ∧ (validateEcritures groupNearlyBalanced).isValid = true
    ∧ (validateEcritures groupClearlyUnbalanced).isValid = false := by
  refine ⟨?_, ?_, Iff.rfl, by decide, by decide⟩
  · show ((validateEcritures entries).unbalancedEcritures.isEmpty = true ↔ _)
    exact List.isEmpty_iff
  · intro g hg
    rw [validate_unbalanced_eq]
    constructor
    · intro hmem
      rcases List.mem_filterMap.mp hmem with ⟨g', hg', heq⟩
      cases hgt : JSNum.gt (unbalancedRecord g').difference (JSNum.num (1/100)) with
      | false =>
        rw [hgt] at heq
        simp at heq
      | true =>
        rw [hgt] at heq
        rw [if_pos rfl] at heq
        have hrec : unbalancedRecord g' = unbalancedRecord g := by
          injection heq
        have hkey : g'.1 = g.1 := by
          have := congrArg UnbalancedEcriture.ecritureNum hrec
          simpa [unbalancedRecord] using this
        have hgrp : g' = g := by
          rcases mem_groupByKey.mp hg with ⟨_, h2⟩
          rcases mem_groupByKey.mp hg' with ⟨_, h2'⟩
          have : g'.2 = g.2 := by rw [h2, h2', hkey]
          exact Prod.ext hkey this
        rw [hgrp] at hgt
        exact hgt
    · intro hgt
      refine List.mem_filterMap.mpr ⟨g, hg, ?_⟩
      have hd : (unbalancedRecord g).difference
          = JSNum.abs (JSNum.sub (sumDebits g.2) (sumCredits g.2)) := rfl
      rw [if_pos (by rw [hd]; exact hgt)]

/-- Witness for C4 at a concrete one-line group carrying one cent. -/
theorem C4_balance_tolerance_witness :
    (("1", [entryOneCent]) ∈ groupByKey (fun e => e.EcritureNum) [entryOneCent])
    ∧ (unbalancedRecord (("1"), [entryOneCent])
          ∈ (validateEcritures [entryOneCent]).unbalancedEcritures
        ↔ JSNum.gt (JSNum.abs (JSNum.sub (sumDebits [entryOneCent])
            (sumCredits [entryOneCent]))) (JSNum.num (1/100)) = true) :=
  ⟨by decide, (C4_balance_tolerance [entryOneCent]).2.1 (("1"), [entryOneCent]) (by decide)⟩

/-! ## C3: unparseable amounts -/

/-- Exhibits the C3 code bug: a `Debit` string that does not parse yields
`NaN`, which poisons every sum it touches (so it does not contribute `0`:
the global totals become `NaN`, the global balance check fails, and the
entry's group can never be flagged unbalanced). -/
theorem C3_unparseable_poisons_sums :
    parseAmount (Sum.inl ("abc")) = JSNum.nan
    ∧ (calculateGlobalBalance [entryBadDebit]).totalDebit = JSNum.nan
    ∧ (calculateGlobalBalance [entryBadDebit]).totalDebit ≠ JSNum.num 0
    ∧ (calculateGlobalBalance [entryBadDebit]).netBalance = JSNum.nan
    ∧ (calculateGlobalBalance [entryBadDebit]).isBalanced = false
    ∧ (validateEcritures [entryBadDebit]).isValid = true
    ∧ (validateEcritures [entryBadDebit]).unbalancedEcritures = []
    ∧ (premapEntry customNone lookupNone lookupNone entryBadDebit).netAmount
        = JSNum.nan := by
  decide

/-! ## C6: mapping resolution order -/

/-- C6: inside `processRawFEC` the mapping of an account number is resolved
by, in order, first-non-null: session overrides keyed by the normalized
number, the opaque static fallback on the raw number, the exact static
lookup on the normalized number (`null` if all fail); and an entry enters
the aggregation exactly when this resolution is non-null. -/
theorem C6_resolution_order (custom : String → Option CustomMapping)
    (fallback exact : String → Option Mapping) (raw : String)
    (entries : List FECEntry) :
    resolveMapping custom fallback exact raw =
      (((custom (normalizeAccountNumber raw)).map (fun cm =>
          ({ account := normalizeAccountNumber raw, concept := cm.concept,
             grandeCategorie := cm.grandeCategorie,
             sousCategorie := cm.sousCategorie } : Mapping))) <|>
        (fallback raw <|> exact (normalizeAccountNumber raw)))
    ∧ mappedEntries custom fallback exact entries =
        entries.filterMap (fun e =>
          (resolveMapping custom fallback exact e.CompteNum).map (fun m =>
            ({ toFECEntry := e, mapping := m,
               netAmount := JSNum.sub (parseAmount e.Debit)
                 (parseAmount e.Credit) } : MappedEntry))) := by
  constructor
  · simp only [resolveMapping]
    cases custom (normalizeAccountNumber raw) with
    | some cm => rfl
    | none =>
      cases fallback raw with
      | some m => rfl
      | none => rfl
  · rw [mappedEntries, List.filterMap_map]
    rfl

/-! ## Membership through sorting, `mapAccum`, and the group tree -/

theorem mem_insertIntoSorted (le : α → α → Bool) (x y : α) (l : List α) :
    y ∈ insertIntoSorted le x l ↔ y = x ∨ y ∈ l := by
  induction l with
  | nil => simp [insertIntoSorted]
  | cons a t ih =>
    rw [insertIntoSorted]
    by_cases h : le x a
    · simp [h, List.mem_cons]
    · simp [h, List.mem_cons, ih]
      tauto

theorem mem_insertionSortBy (le : α → α → Bool) (l : List α) (y : α) :
    y ∈ insertionSortBy le l ↔ y ∈ l := by
  induction l with
  | nil => simp [insertionSortBy]
  | cons a t ih =>
    rw [insertionSortBy, mem_insertIntoSorted]
    simp [ih, List.mem_cons]

theorem mapAccum_mem {σ α β : Type _} (f : σ → α → β × σ) :
    ∀ (l : List α) (s : σ) (b : β),
      b ∈ (mapAccum f s l).1 → ∃ a ∈ l, ∃ s', b = (f s' a).1 := by
  intro l
  induction l with
  | nil =>
    intro s b h
    simp [mapAccum] at h
  | cons a t ih =>
    intro s b h
    simp only [mapAccum] at h
    rcases List.mem_cons.mp h with h1 | h2
    · exact ⟨a, List.mem_cons_self _ _, s, h1⟩
    · rcases ih _ b h2 with ⟨a', ha', s', hb⟩
      exact ⟨a', List.mem_cons_of_mem _ ha', s', hb⟩

/-- Every row of the output is a `buildCategoryRow` of one category group. -/
theorem processRawFEC_row (custom : String → Option CustomMapping)
    (fallback exact : String → Option Mapping) (rand : ℕ → ℚ)
    (entries : List FECEntry) :
    ∀ crow ∈ processRawFEC custom fallback exact rand entries,
      ∃ g ∈ groupByKey (fun e => e.mapping.grandeCategorie)
          (mappedEntries custom fallback exact entries),
        ∃ ctr, crow = (buildCategoryRow rand ctr g).1 := by
  intro crow hmem
  simp only [processRawFEC] at hmem
  split at hmem
  · simp at hmem
  · split at hmem
    · simp at hmem
    · rw [mem_insertionSortBy] at hmem
      rcases mapAccum_mem _ _ _ _ hmem with ⟨g, hg, ctr, hrow⟩
      exact ⟨g, hg, ctr, hrow⟩

/-- Every child of a category row is a `buildSubCategoryRow` of one
sub-category group of the category's entries. -/
theorem mem_catRow_children (rand : ℕ → ℚ) (ctr : ℕ)
    (g : String × List MappedEntry) :
    ∀ srow ∈ (buildCategoryRow rand ctr g).1.children,
      ∃ g' ∈ groupByKey (fun e => e.mapping.sousCategorie) g.2, ∃ st,
        srow = (buildSubCategoryRow rand g.1 st g').1 := by
  intro srow h
  have h' : srow ∈ (mapAccum (buildSubCategoryRow rand g.1)
      { categoryTotal := JSNum.num 0, catAmounts := [], catBudgets := [],
        ctr := ctr } (groupByKey (fun e => e.mapping.sousCategorie) g.2)).1 := h
  rcases mapAccum_mem _ _ _ _ h' with ⟨g', hg', st, hrow⟩
  exact ⟨g', hg', st, hrow⟩

/-- Every child of a sub-category row is an `updateConceptRow` of a
`buildConceptRow` of one concept group of the sub-category's entries. -/
theorem mem_subRow_children (rand : ℕ → ℚ) (cat : String) (st : CatState)
    (g : String × List MappedEntry) :
    ∀ corow ∈ (buildSubCategoryRow rand cat st g).1.children,
      ∃ g' ∈ groupByKey (fun e => e.mapping.concept) g.2, ∃ ss,
        corow = updateConceptRow (isBalanceSheetCategory cat)
          (buildConceptRow rand cat g.1 g'.1 g'.2 ss).1 := by
  intro corow h
  have h' : corow ∈ ((mapAccum
      (fun s cg => buildConceptRow rand cat g.1 cg.1 cg.2 s)
      { subCategoryTotal := JSNum.num 0, subAmounts := [], subBudgets := [],
        catAmounts := st.catAmounts, catBudgets := st.catBudgets,
        ctr := st.ctr }
      (groupByKey (fun e => e.mapping.concept) g.2)).1).map
        (updateConceptRow (isBalanceSheetCategory cat)) := h
  rcases List.mem_map.mp h' with ⟨r, hr, hup⟩
  rcases mapAccum_mem _ _ _ _ hr with ⟨g', hg', ss, hrow⟩
  exact ⟨g', hg', ss, by rw [← hup, hrow]⟩

/-! ## Field and amount computation lemmas -/

theorem catRow_category (rand : ℕ → ℚ) (ctr : ℕ) (g : String × List MappedEntry) :
    (buildCategoryRow rand ctr g).1.category = g.1 := rfl

theorem subRow_fields (rand : ℕ → ℚ) (cat : String) (st : CatState)
    (g : String × List MappedEntry) :
    (buildSubCategoryRow rand cat st g).1.category = cat
    ∧ (buildSubCategoryRow rand cat st g).1.subCategory = g.1 := ⟨rfl, rfl⟩

theorem conceptRow_fields (rand : ℕ → ℚ) (cat sub con : String)
    (ce : List MappedEntry) (ss : SubState) :
    (buildConceptRow rand cat sub con ce ss).1.concept = con
    ∧ (buildConceptRow rand cat sub con ce ss).1.amount = sumNet ce
    ∧ (buildConceptRow rand cat sub con ce ss).1.accountNumbers
        = uniqFirst (ce.map (fun e => e.CompteNum)) := ⟨rfl, rfl, rfl⟩

theorem updateConceptRow_fields (bs : Bool) (r : ConceptRow) :
    (updateConceptRow bs r).amount = r.amount
    ∧ (updateConceptRow bs r).concept = r.concept
    ∧ (updateConceptRow bs r).accountNumbers = r.accountNumbers := ⟨rfl, rfl, rfl⟩

theorem sumAmounts_map_concept (rows : List ConceptRow) :
    sumAmounts (rows.map ConceptRow.amount)
      = rows.foldl (fun acc r => JSNum.add acc r.amount) (JSNum.num 0) := by
  rw [sumAmounts, List.foldl_map]

theorem sumAmounts_map_sub (rows : List SubCategoryRow) :
    sumAmounts (rows.map SubCategoryRow.amount)
      = rows.foldl (fun acc r => JSNum.add acc r.amount) (JSNum.num 0) := by
  rw [sumAmounts, List.foldl_map]

theorem map_updateConceptRow_amount (bs : Bool) (rows : List ConceptRow) :
    (rows.map (updateConceptRow bs)).map ConceptRow.amount
      = rows.map ConceptRow.amount := by
  rw [List.map_map]
  rfl

theorem concept_pass_total (rand : ℕ → ℚ) (cat sub : String)
    (groups : List (String × List MappedEntry)) : ∀ st : SubState,
    (mapAccum (fun s cg => buildConceptRow rand cat sub cg.1 cg.2 s) st groups).2.subCategoryTotal
      = (mapAccum (fun s cg => buildConceptRow rand cat sub cg.1 cg.2 s) st groups).1.foldl
          (fun acc r => JSNum.add acc r.amount) st.subCategoryTotal := by
  induction groups with
  | nil => intro st; rfl
  | cons g t ih =>
    intro st
    simp only [mapAccum, List.foldl_cons]
    rw [ih]
    rfl

theorem sub_pass_total (rand : ℕ → ℚ) (cat : String)
    (groups : List (String × List MappedEntry)) : ∀ st : CatState,
    (mapAccum (buildSubCategoryRow rand cat) st groups).2.categoryTotal
      = (mapAccum (buildSubCategoryRow rand cat) st groups).1.foldl
          (fun acc r => JSNum.add acc r.amount) st.categoryTotal := by
  induction groups with
  | nil => intro st; rfl
  | cons g t ih =>
    intro st
    simp only [mapAccum, List.foldl_cons]
    rw [ih]
    rfl

/-- A sub-category row's total is the sum of its concept children's totals. -/
theorem subRow_amount (rand : ℕ → ℚ) (cat : String) (st : CatState)
    (g : String × List MappedEntry) :
    (buildSubCategoryRow rand cat st g).1.amount
      = sumAmounts (((buildSubCategoryRow rand cat st g).1.children).map
          ConceptRow.amount) := by
  have hch : (buildSubCategoryRow rand cat st g).1.children
      = ((mapAccum (fun s cg => buildConceptRow rand cat g.1 cg.1 cg.2 s)
          { subCategoryTotal := JSNum.num 0, subAmounts := [], subBudgets := [],
            catAmounts := st.catAmounts, catBudgets := st.catBudgets,
            ctr := st.ctr }
          (groupByKey (fun e => e.mapping.concept) g.2)).1).map
            (updateConceptRow (isBalanceSheetCategory cat)) := rfl
  have hamt : (buildSubCategoryRow rand cat st g).1.amount
      = (mapAccum (fun s cg => buildConceptRow rand cat g.1 cg.1 cg.2 s)
          { subCategoryTotal := JSNum.num 0, subAmounts := [], subBudgets := [],
            catAmounts := st.catAmounts, catBudgets := st.catBudgets,
            ctr := st.ctr }
          (groupByKey (fun e => e.mapping.concept) g.2)).2.subCategoryTotal := rfl
  rw [hch, hamt, map_updateConceptRow_amount, sumAmounts_map_concept,
    concept_pass_total]

/-- A category row's total is the sum of its sub-category children's totals. -/
theorem catRow_amount (rand : ℕ → ℚ) (ctr : ℕ) (g : String × List MappedEntry) :
    (buildCategoryRow rand ctr g).1.amount
      = sumAmounts (((buildCategoryRow rand ctr g).1.children).map
          SubCategoryRow.amount) := by
  have hch : (buildCategoryRow rand ctr g).1.children
      = (mapAccum (buildSubCategoryRow rand g.1)
          { categoryTotal := JSNum.num 0, catAmounts := [], catBudgets := [],
            ctr := ctr } (groupByKey (fun e => e.mapping.sousCategorie) g.2)).1 := rfl
  have hamt : (buildCategoryRow rand ctr g).1.amount
      = (mapAccum (buildSubCategoryRow rand g.1)
          { categoryTotal := JSNum.num 0, catAmounts := [], catBudgets := [],
            ctr := ctr } (groupByKey (fun e => e.mapping.sousCategorie) g.2)).2.categoryTotal := rfl
  rw [hch, hamt, sumAmounts_map_sub, sub_pass_total]

/-! ## C7: tree-sum invariant -/

/-- C7: in every generated tree, a category's `amount` is the sum of its
sub-categories' `amount`s, a sub-category's the sum of its concepts', and a
concept's the sum of `netAmount` over the mapped entries grouped under it. -/
theorem C7_tree_sum (custom : String → Option CustomMapping)
    (fallback exact : String → Option Mapping) (rand : ℕ → ℚ)
    (entries : List FECEntry) :
    ∀ crow ∈ processRawFEC custom fallback exact rand entries,
      crow.amount = sumAmounts (crow.children.map SubCategoryRow.amount)
      ∧ ∀ srow ∈ crow.children,
          srow.amount = sumAmounts (srow.children.map ConceptRow.amount)
          ∧ ∀ corow ∈ srow.children,
              corow.amount = sumNet (conceptEntriesOf custom fallback exact
                entries crow.category srow.subCategory corow.concept) := by
  intro crow hcrow
  rcases processRawFEC_row custom fallback exact rand entries crow hcrow with
    ⟨g, hg, ctr, hrow⟩
  have hg2 := (mem_groupByKey.mp hg).2
  have hcat : crow.category = g.1 := by rw [hrow]; rfl
  have hcatE : catEntriesOf custom fallback exact entries crow.category = g.2 := by
    rw [hcat]
    exact hg2.symm
  constructor
  · rw [hrow]
    exact catRow_amount rand ctr g
  · intro srow hsrow
    rw [hrow] at hsrow
    rcases mem_catRow_children rand ctr g srow hsrow with ⟨g', hg', st, hsrow'⟩
    have hg'2 := (mem_groupByKey.mp hg').2
    have hsub : srow.subCategory = g'.1 := by rw [hsrow']; rfl
    have hsubE : subEntriesOf custom fallback exact entries crow.category
        srow.subCategory = g'.2 := by
      show (catEntriesOf custom fallback exact entries crow.category).filter
        (fun e => e.mapping.sousCategorie = srow.subCategory) = g'.2
      rw [hcatE, hsub]
      exact hg'2.symm
    constructor
    · rw [hsrow']
      exact subRow_amount rand g.1 st g'
    · intro corow hcorow
      rw [hsrow'] at hcorow
      rcases mem_subRow_children rand g.1 st g' corow hcorow with
        ⟨g'', hg'', ss, hcorow'⟩
      have hg''2 := (mem_groupByKey.mp hg'').2
      have hcon : corow.concept = g''.1 := by rw [hcorow']; rfl
      have hconE : conceptEntriesOf custom fallback exact entries crow.category
          srow.subCategory corow.concept = g''.2 := by
        show (subEntriesOf custom fallback exact entries crow.category
          srow.subCategory).filter (fun e => e.mapping.concept = corow.concept)
          = g''.2
        rw [hsubE, hcon]
        exact hg''2.symm
      rw [hconE, hcorow']
      rfl

/-- Witness for C7 on the spec's end-to-end scenario. -/
theorem C7_tree_sum_witness :
    (witnessRow ∈ witnessModel)
    ∧ witnessRow.amount = sumAmounts (witnessRow.children.map SubCategoryRow.amount)
    ∧ (witnessSubRow ∈ witnessRow.children)
    ∧ witnessSubRow.amount = sumAmounts (witnessSubRow.children.map ConceptRow.amount)
    ∧ (witnessConceptRow ∈ witnessSubRow.children)
    ∧ witnessConceptRow.amount = sumNet (conceptEntriesOf customSpecExample
        lookupNone lookupNone [entrySoftware, entrySales] witnessRow.category
        witnessSubRow.subCategory witnessConceptRow.concept) :=
  have h1 : witnessRow ∈ witnessModel := by decide
  have h2 := C7_tree_sum customSpecExample lookupNone lookupNone randZero
    [entrySoftware, entrySales] witnessRow h1
  have h3 : witnessSubRow ∈ witnessRow.children := by decide
  have h4 : witnessConceptRow ∈ witnessSubRow.children := by decide
  ⟨h1, h2.1, h3, (h2.2 witnessSubRow h3).1, h4,
    (h2.2 witnessSubRow h3).2 witnessConceptRow h4⟩

/-! ## C10: account-number sets -/

theorem flat_update_accountNumbers (bs : Bool) (rows : List ConceptRow) :
    conceptAccountNumbersFlat (rows.map (updateConceptRow bs))
      = conceptAccountNumbersFlat rows := by
  induction rows with
  | nil => rfl
  | cons r t ih =>
    show (updateConceptRow bs r).accountNumbers
        ++ conceptAccountNumbersFlat (t.map (updateConceptRow bs))
      = r.accountNumbers ++ conceptAccountNumbersFlat t
    rw [ih]
    rfl

theorem subRow_accountNumbers (rand : ℕ → ℚ) (cat : String) (st : CatState)
    (g : String × List MappedEntry) :
    (buildSubCategoryRow rand cat st g).1.accountNumbers
      = uniqFirst (conceptAccountNumbersFlat
          ((buildSubCategoryRow rand cat st g).1.children)) := by
  have hch : (buildSubCategoryRow rand cat st g).1.children
      = ((mapAccum (fun s cg => buildConceptRow rand cat g.1 cg.1 cg.2 s)
          { subCategoryTotal := JSNum.num 0, subAmounts := [], subBudgets := [],
            catAmounts := st.catAmounts, catBudgets := st.catBudgets,
            ctr := st.ctr }
          (groupByKey (fun e => e.mapping.concept) g.2)).1).map
            (updateConceptRow (isBalanceSheetCategory cat)) := rfl
  rw [hch, flat_update_accountNumbers]
  rfl

/-- C10: each concept row's `accountNumbers` is the first-occurrence
deduplication of the raw (untrimmed, un-normalized) `CompteNum` strings of
its contributing entries, and each sub-category and category row's is the
deduplicated concatenation of its children's. -/
theorem C10_account_numbers (custom : String → Option CustomMapping)
    (fallback exact : String → Option Mapping) (rand : ℕ → ℚ)
    (entries : List FECEntry) :
    ∀ crow ∈ processRawFEC custom fallback exact rand entries,
      crow.accountNumbers = uniqFirst (subAccountNumbersFlat crow.children)
      ∧ ∀ srow ∈ crow.children,
          srow.accountNumbers
            = uniqFirst (conceptAccountNumbersFlat srow.children)
          ∧ ∀ corow ∈ srow.children,
              corow.accountNumbers = uniqFirst ((conceptEntriesOf custom
                fallback exact entries crow.category srow.subCategory
                corow.concept).map (fun e => e.CompteNum)) := by
  intro crow hcrow
  rcases processRawFEC_row custom fallback exact rand entries crow hcrow with
    ⟨g, hg, ctr, hrow⟩
  have hg2 := (mem_groupByKey.mp hg).2
  have hcat : crow.category = g.1 := by rw [hrow]; rfl
  have hcatE : catEntriesOf custom fallback exact entries crow.category = g.2 := by
    rw [hcat]
    exact hg2.symm
  constructor
  · rw [hrow]
    rfl
  · intro srow hsrow
    rw [hrow] at hsrow
    rcases mem_catRow_children rand ctr g srow hsrow with ⟨g', hg', st, hsrow'⟩
    have hg'2 := (mem_groupByKey.mp hg').2
    have hsub : srow.subCategory = g'.1 := by rw [hsrow']; rfl
    have hsubE : subEntriesOf custom fallback exact entries crow.category
        srow.subCategory = g'.2 := by
      show (catEntriesOf custom fallback exact entries crow.category).filter
        (fun e => e.mapping.sousCategorie = srow.subCategory) = g'.2
      rw [hcatE, hsub]
      exact hg'2.symm
    constructor
    · rw [hsrow']
      exact subRow_accountNumbers rand g.1 st g'
    · intro corow hcorow
      rw [hsrow'] at hcorow
      rcases mem_subRow_children rand g.1 st g' corow hcorow with
        ⟨g'', hg'', ss, hcorow'⟩
      have hg''2 := (mem_groupByKey.mp hg'').2
      have hcon : corow.concept = g''.1 := by rw [hcorow']; rfl
      have hconE : conceptEntriesOf custom fallback exact entries crow.category
          srow.subCategory corow.concept = g''.2 := by
        show (subEntriesOf custom fallback exact entries crow.category
          srow.subCategory).filter (fun e => e.mapping.concept = corow.concept)
          = g''.2
        rw [hsubE, hcon]
        exact hg''2.symm
      rw [hconE, hcorow']
      rfl

/-- Witness for C10 on the spec's end-to-end scenario. -/
theorem C10_account_numbers_witness :
    (witnessRow ∈ witnessModel)
    ∧ witnessRow.accountNumbers = uniqFirst (subAccountNumbersFlat witnessRow.children)
    ∧ (witnessSubRow ∈ witnessRow.children)
    ∧ (witnessConceptRow ∈ witnessSubRow.children)
    ∧ witnessConceptRow.accountNumbers = uniqFirst ((conceptEntriesOf
        customSpecExample lookupNone lookupNone [entrySoftware, entrySales]
        witnessRow.category witnessSubRow.subCategory
        witnessConceptRow.concept).map (fun e => e.CompteNum)) :=
  have h1 : witnessRow ∈ witnessModel := by decide
  have h2 := C10_account_numbers customSpecExample lookupNone lookupNone
    randZero [entrySoftware, entrySales] witnessRow h1
  have h3 : witnessSubRow ∈ witnessRow.children := by decide
  have h4 : witnessConceptRow ∈ witnessSubRow.children := by decide
  ⟨h1, h2.1, h3, h4, (h2.2 witnessSubRow h3).2 witnessConceptRow h4⟩

/-! ## C9 lemmas: everything except budget values is draw-independent -/

theorem monthKeys_objSet (m : MonthlyAmounts) (k : String) (v : JSNum) :
    monthKeys (objSet m k v) =
      if k ∈ monthKeys m then monthKeys m else monthKeys m ++ [k] := by
  induction m with
  | nil => simp [objSet, monthKeys]
  | cons p t ih =>
    by_cases h : p.1 = k
    · have : k ∈ monthKeys (p :: t) := by
        rw [← h]
        exact List.mem_cons_self _ _
      simp only [objSet, if_pos h, if_pos this]
      show p.1 :: monthKeys t = monthKeys (p :: t)
      rfl
    · have hmem : (k ∈ monthKeys (p :: t)) ↔ (k ∈ monthKeys t) := by
        show (k ∈ p.1 :: monthKeys t) ↔ _
        constructor
        · intro hk
          rcases List.mem_cons.mp hk with h1 | h2
          · exact absurd h1.symm h
          · exact h2
        · exact List.mem_cons_of_mem _
      have hobj : objSet (p :: t) k v = (p.1, p.2) :: objSet t k v := by
        show (if p.1 = k then (p.1, v) :: t else (p.1, p.2) :: objSet t k v) = _
        rw [if_neg h]
      rw [hobj]
      show p.1 :: monthKeys (objSet t k v) = _
      rw [ih]
      by_cases h2 : k ∈ monthKeys t
      · rw [if_pos h2, if_pos (hmem.mpr h2)]
        rfl
      · rw [if_neg h2, if_neg (fun hk => h2 (hmem.mp hk))]
        rfl

theorem monthKeys_bump (m : MonthlyAmounts) (k : String) (v : JSNum) :
    monthKeys (bump m k v) =
      if k ∈ monthKeys m then monthKeys m else monthKeys m ++ [k] := by
  induction m with
  | nil => simp [bump, monthKeys]
  | cons p t ih =>
    by_cases h : p.1 = k
    · have : k ∈ monthKeys (p :: t) := by
        rw [← h]
        exact List.mem_cons_self _ _
      simp only [bump, if_pos h, if_pos this]
      show p.1 :: monthKeys t = monthKeys (p :: t)
      rfl
    · have hmem : (k ∈ monthKeys (p :: t)) ↔ (k ∈ monthKeys t) := by
        show (k ∈ p.1 :: monthKeys t) ↔ _
        constructor
        · intro hk
          rcases List.mem_cons.mp hk with h1 | h2
          · exact absurd h1.symm h
          · exact h2
        · exact List.mem_cons_of_mem _
      have hobj : bump (p :: t) k v = (p.1, p.2) :: bump t k v := by
        show (if p.1 = k then (p.1, JSNum.add p.2.orZero v) :: t
          else (p.1, p.2) :: bump t k v) = _
        rw [if_neg h]
      rw [hobj]
      show p.1 :: monthKeys (bump t k v) = _
      rw [ih]
      by_cases h2 : k ∈ monthKeys t
      · rw [if_pos h2, if_pos (hmem.mpr h2)]
        rfl
      · rw [if_neg h2, if_neg (fun hk => h2 (hmem.mp hk))]
        rfl

theorem drawBudget_ctr (r1 r2 : ℕ → ℚ) (c : ℕ) (v : JSNum) :
    (drawBudget r1 c v).2 = (drawBudget r2 c v).2 := by
  by_cases h : v = JSNum.num 0 <;> simp [drawBudget, h]

theorem cumul_fold_keys (m : MonthlyAmounts) (ks : List String) :
    ∀ acc : MonthlyAmounts × JSNum,
      monthKeys ((ks.foldl (fun acc month =>
          (objSet acc.1 month (JSNum.add acc.2 ((alookup m month).getD JSNum.nan)),
           JSNum.add acc.2 ((alookup m month).getD JSNum.nan))) acc).1)
        = ks.foldl (fun l k => if k ∈ l then l else l ++ [k])
            (monthKeys acc.1) := by
  induction ks with
  | nil => intro acc; rfl
  | cons k t ih =>
    intro acc
    rw [List.foldl_cons, List.foldl_cons, ih]
    congr 1
    exact monthKeys_objSet _ _ _

theorem monthKeys_calculateCumulative (m : MonthlyAmounts) :
    monthKeys (calculateCumulativeAmounts m)
      = (insertionSortBy strLe (monthKeys m)).foldl
          (fun l k => if k ∈ l then l else l ++ [k]) [] := by
  show monthKeys (((insertionSortBy strLe (m.map Prod.fst)).foldl (fun acc month =>
      (objSet acc.1 month (JSNum.add acc.2 ((alookup m month).getD JSNum.nan)),
       JSNum.add acc.2 ((alookup m month).getD JSNum.nan)))
      (([] : MonthlyAmounts), JSNum.num 0)).1) = _
  rw [cumul_fold_keys]
  rfl

theorem monthKeys_cumulIf_congr (b : Bool) (m1 m2 : MonthlyAmounts)
    (h : monthKeys m1 = monthKeys m2) :
    monthKeys (cumulIf b m1) = monthKeys (cumulIf b m2) := by
  cases b with
  | false => exact h
  | true =>
    show monthKeys (calculateCumulativeAmounts m1) = monthKeys (calculateCumulativeAmounts m2)
    rw [monthKeys_calculateCumulative, monthKeys_calculateCumulative, h]

theorem insertIntoSorted_map (f : α → β) (le : α → α → Bool) (le' : β → β → Bool)
    (hle : ∀ a b, le a b = le' (f a) (f b)) (x : α) :
    ∀ l : List α, (insertIntoSorted le x l).map f
      = insertIntoSorted le' (f x) (l.map f) := by
  intro l
  induction l with
  | nil => rfl
  | cons a t ih =>
    show (if le x a then x :: a :: t else a :: insertIntoSorted le x t).map f = _
    rw [hle]
    by_cases h : le' (f x) (f a)
    · rw [if_pos h]
      show f x :: f a :: t.map f = insertIntoSorted le' (f x) (f a :: t.map f)
      rw [insertIntoSorted, if_pos h]
    · rw [if_neg h]
      show f a :: (insertIntoSorted le x t).map f = insertIntoSorted le' (f x) (f a :: t.map f)
      rw [insertIntoSorted, if_neg h, ih]

theorem insertionSortBy_map (f : α → β) (le : α → α → Bool) (le' : β → β → Bool)
    (hle : ∀ a b, le a b = le' (f a) (f b)) :
    ∀ l : List α, (insertionSortBy le l).map f
      = insertionSortBy le' (l.map f) := by
  intro l
  induction l with
  | nil => rfl
  | cons a t ih =>
    show (insertIntoSorted le a (insertionSortBy le t)).map f = _
    rw [insertIntoSorted_map f le le' hle, ih]
    rfl

theorem eraseDetail_updateDetail (bs : Bool) (d1 d2 : AccountDetail)
    (h : eraseDetail d1 = eraseDetail d2) :
    eraseDetail (updateDetail bs d1) = eraseDetail (updateDetail bs d2) := by
  have hc : d1.compteNum = d2.compteNum := congrArg AccountDetailE.compteNum h
  have hl : d1.compteLib = d2.compteLib := congrArg AccountDetailE.compteLib h
  have hn : d1.netAmount = d2.netAmount := congrArg AccountDetailE.netAmount h
  have hm : d1.monthlyAmounts = d2.monthlyAmounts :=
    congrArg AccountDetailE.monthlyAmounts h
  have hb : monthKeys d1.monthlyBudgets = monthKeys d2.monthlyBudgets :=
    congrArg AccountDetailE.monthlyBudgetKeys h
  show ({ compteNum := d1.compteNum, compteLib := d1.compteLib,
          netAmount := d1.netAmount,
          monthlyAmounts := cumulIf bs d1.monthlyAmounts,
          monthlyBudgetKeys := monthKeys (cumulIf bs d1.monthlyBudgets) }
      : AccountDetailE) = _
  rw [hc, hl, hn, hm, monthKeys_cumulIf_congr bs _ _ hb]
  rfl

theorem map_eraseDetail_update (bs : Bool) :
    ∀ l1 l2 : List AccountDetail, l1.map eraseDetail = l2.map eraseDetail →
      (l1.map (updateDetail bs)).map eraseDetail
        = (l2.map (updateDetail bs)).map eraseDetail := by
  intro l1
  induction l1 with
  | nil =>
    intro l2 h
    cases l2 with
    | nil => rfl
    | cons b t => exact absurd h (by simp)
  | cons a t ih =>
    intro l2 h
    cases l2 with
    | nil => exact absurd h (by simp)
    | cons b t2 =>
      simp only [List.map_cons, List.cons.injEq] at h ⊢
      exact ⟨eraseDetail_updateDetail bs a b h.1, ih t2 h.2⟩

theorem eraseConceptRow_update (bs : Bool) (r1 r2 : ConceptRow)
    (h : eraseConceptRow r1 = eraseConceptRow r2) :
    eraseConceptRow (updateConceptRow bs r1)
      = eraseConceptRow (updateConceptRow bs r2) := by
  have h1 : r1.id = r2.id := congrArg ConceptRowE.id h
  have h2 : r1.type = r2.type := congrArg ConceptRowE.type h
  have h3 : r1.category = r2.category := congrArg ConceptRowE.category h
  have h4 : r1.subCategory = r2.subCategory := congrArg ConceptRowE.subCategory h
  have h5 : r1.concept = r2.concept := congrArg ConceptRowE.concept h
  have h6 : r1.amount = r2.amount := congrArg ConceptRowE.amount h
  have h7 : r1.monthlyAmounts = r2.monthlyAmounts :=
    congrArg ConceptRowE.monthlyAmounts h
  have h8 : monthKeys r1.monthlyBudgets = monthKeys r2.monthlyBudgets :=
    congrArg ConceptRowE.monthlyBudgetKeys h
  have h9 : r1.accountNumbers = r2.accountNumbers :=
    congrArg ConceptRowE.accountNumbers h
  have h10 : r1.accountDetails.map eraseDetail = r2.accountDetails.map eraseDetail :=
    congrArg ConceptRowE.accountDetails h
  have h11 : r1.isCollapsed = r2.isCollapsed := congrArg ConceptRowE.isCollapsed h
  show ({ id := r1.id, type := r1.type, category := r1.category,
          subCategory := r1.subCategory, concept := r1.concept,
          amount := r1.amount,
          monthlyAmounts := cumulIf bs r1.monthlyAmounts,
          monthlyBudgetKeys := monthKeys (cumulIf bs r1.monthlyBudgets),
          accountNumbers := r1.accountNumbers,
          accountDetails := (r1.accountDetails.map (updateDetail bs)).map eraseDetail,
          isCollapsed := r1.isCollapsed } : ConceptRowE) = _
  rw [h1, h2, h3, h4, h5, h6, h7, monthKeys_cumulIf_congr bs _ _ h8, h9,
    map_eraseDetail_update bs _ _ h10, h11]
  rfl

theorem map_eraseConceptRow_update (bs : Bool) :
    ∀ l1 l2 : List ConceptRow,
      l1.map eraseConceptRow = l2.map eraseConceptRow →
      (l1.map (updateConceptRow bs)).map eraseConceptRow
        = (l2.map (updateConceptRow bs)).map eraseConceptRow := by
  intro l1
  induction l1 with
  | nil =>
    intro l2 h
    cases l2 with
    | nil => rfl
    | cons b t => exact absurd h (by simp)
  | cons a t ih =>
    intro l2 h
    cases l2 with
    | nil => exact absurd h (by simp)
    | cons b t2 =>
      simp only [List.map_cons, List.cons.injEq] at h ⊢
      exact ⟨eraseConceptRow_update bs a b h.1, ih t2 h.2⟩

theorem accountMonthStep_rel (r1 r2 : ℕ → ℚ) (p : String × JSNum)
    (d1 d2 : AccountDetail) (s1 s2 : PassState)
    (hd : eraseDetail d1 = eraseDetail d2) (hs : passStateRel s1 s2) :
    eraseDetail (accountMonthStep r1 (d1, s1) p).1
        = eraseDetail (accountMonthStep r2 (d2, s2) p).1
    ∧ passStateRel (accountMonthStep r1 (d1, s1) p).2
        (accountMonthStep r2 (d2, s2) p).2 := by
  obtain ⟨e1, e2, e3, e4, e5, e6, e7⟩ := hs
  have hc : d1.compteNum = d2.compteNum := congrArg AccountDetailE.compteNum hd
  have hl : d1.compteLib = d2.compteLib := congrArg AccountDetailE.compteLib hd
  have hn : d1.netAmount = d2.netAmount := congrArg AccountDetailE.netAmount hd
  have hm : d1.monthlyAmounts = d2.monthlyAmounts :=
    congrArg AccountDetailE.monthlyAmounts hd
  have hb : monthKeys d1.monthlyBudgets = monthKeys d2.monthlyBudgets :=
    congrArg AccountDetailE.monthlyBudgetKeys hd
  constructor
  · show ({ compteNum := d1.compteNum, compteLib := d1.compteLib,
            netAmount := d1.netAmount, monthlyAmounts := d1.monthlyAmounts,
            monthlyBudgetKeys := monthKeys (objSet d1.monthlyBudgets p.1
              (drawBudget r1 s1.ctr p.2).1) } : AccountDetailE)
      = ({ compteNum := d2.compteNum, compteLib := d2.compteLib,
            netAmount := d2.netAmount, monthlyAmounts := d2.monthlyAmounts,
            monthlyBudgetKeys := monthKeys (objSet d2.monthlyBudgets p.1
              (drawBudget r2 s2.ctr p.2).1) } : AccountDetailE)
    rw [hc, hl, hn, hm, monthKeys_objSet, monthKeys_objSet, hb]
  · refine ⟨?_, ?_, ?_, ?_, ?_, ?_, ?_⟩
    · show bump s1.conceptAmounts p.1 p.2 = bump s2.conceptAmounts p.1 p.2
      rw [e1]
    · show monthKeys (bump s1.conceptBudgets p.1 (drawBudget r1 s1.ctr p.2).1)
        = monthKeys (bump s2.conceptBudgets p.1 (drawBudget r2 s2.ctr p.2).1)
      rw [monthKeys_bump, monthKeys_bump, e2]
    · show bump s1.subAmounts p.1 p.2 = bump s2.subAmounts p.1 p.2
      rw [e3]
    · show monthKeys (bump s1.subBudgets p.1 (drawBudget r1 s1.ctr p.2).1)
        = monthKeys (bump s2.subBudgets p.1 (drawBudget r2 s2.ctr p.2).1)
      rw [monthKeys_bump, monthKeys_bump, e4]
    · show bump s1.catAmounts p.1 p.2 = bump s2.catAmounts p.1 p.2
      rw [e5]
    · show monthKeys (bump s1.catBudgets p.1 (drawBudget r1 s1.ctr p.2).1)
        = monthKeys (bump s2.catBudgets p.1 (drawBudget r2 s2.ctr p.2).1)
      rw [monthKeys_bump, monthKeys_bump, e6]
    · show (drawBudget r1 s1.ctr p.2).2 = (drawBudget r2 s2.ctr p.2).2
      rw [e7]
      exact drawBudget_ctr r1 r2 s2.ctr p.2

theorem monthFold_rel (r1 r2 : ℕ → ℚ) (ms : List (String × JSNum)) :
    ∀ (d1 d2 : AccountDetail) (s1 s2 : PassState),
      eraseDetail d1 = eraseDetail d2 → passStateRel s1 s2 →
      eraseDetail (ms.foldl (accountMonthStep r1) (d1, s1)).1
          = eraseDetail (ms.foldl (accountMonthStep r2) (d2, s2)).1
      ∧ passStateRel (ms.foldl (accountMonthStep r1) (d1, s1)).2
          (ms.foldl (accountMonthStep r2) (d2, s2)).2 := by
  induction ms with
  | nil =>
    intro d1 d2 s1 s2 hd hs
    exact ⟨hd, hs⟩
  | cons p t ih =>
    intro d1 d2 s1 s2 hd hs
    rw [List.foldl_cons, List.foldl_cons]
    have step := accountMonthStep_rel r1 r2 p d1 d2 s1 s2 hd hs
    have h1 : accountMonthStep r1 (d1, s1) p
        = ((accountMonthStep r1 (d1, s1) p).1, (accountMonthStep r1 (d1, s1) p).2) := rfl
    have h2 : accountMonthStep r2 (d2, s2) p
        = ((accountMonthStep r2 (d2, s2) p).1, (accountMonthStep r2 (d2, s2) p).2) := rfl
    rw [h1, h2]
    exact ih _ _ _ _ step.1 step.2

theorem accountBudgetPass_rel (r1 r2 : ℕ → ℚ) (d : AccountDetail)
    (s1 s2 : PassState) (hs : passStateRel s1 s2) :
    eraseDetail (accountBudgetPass r1 s1 d).1
        = eraseDetail (accountBudgetPass r2 s2 d).1
    ∧ passStateRel (accountBudgetPass r1 s1 d).2 (accountBudgetPass r2 s2 d).2 :=
  monthFold_rel r1 r2 d.monthlyAmounts d d s1 s2 rfl hs

theorem detailsPass_rel (r1 r2 : ℕ → ℚ) (ds : List AccountDetail) :
    ∀ s1 s2 : PassState, passStateRel s1 s2 →
      ((mapAccum (fun s d => accountBudgetPass r1 s d) s1 ds).1).map eraseDetail
        = ((mapAccum (fun s d => accountBudgetPass r2 s d) s2 ds).1).map eraseDetail
      ∧ passStateRel (mapAccum (fun s d => accountBudgetPass r1 s d) s1 ds).2
          (mapAccum (fun s d => accountBudgetPass r2 s d) s2 ds).2 := by
  induction ds with
  | nil =>
    intro s1 s2 hs
    exact ⟨rfl, hs⟩
  | cons d t ih =>
    intro s1 s2 hs
    simp only [mapAccum, List.map_cons]
    have step := accountBudgetPass_rel r1 r2 d s1 s2 hs
    have rest := ih _ _ step.2
    exact ⟨by rw [step.1, rest.1], rest.2⟩

theorem buildConceptRow_rel (r1 r2 : ℕ → ℚ) (cat sub con : String)
    (ce : List MappedEntry) (s1 s2 : SubState) (hs : subStateRel s1 s2) :
    eraseConceptRow (buildConceptRow r1 cat sub con ce s1).1
      = eraseConceptRow (buildConceptRow r2 cat sub con ce s2).1
    ∧ subStateRel (buildConceptRow r1 cat sub con ce s1).2
        (buildConceptRow r2 cat sub con ce s2).2 := by
  obtain ⟨t1, t2, t3, t4, t5, t6⟩ := hs
  have hinit : passStateRel
      { conceptAmounts := [], conceptBudgets := [], subAmounts := s1.subAmounts,
        subBudgets := s1.subBudgets, catAmounts := s1.catAmounts,
        catBudgets := s1.catBudgets, ctr := s1.ctr }
      { conceptAmounts := [], conceptBudgets := [], subAmounts := s2.subAmounts,
        subBudgets := s2.subBudgets, catAmounts := s2.catAmounts,
        catBudgets := s2.catBudgets, ctr := s2.ctr } :=
    ⟨rfl, rfl, t2, t3, t4, t5, t6⟩
  have hp := detailsPass_rel r1 r2 (ce.foldl addEntryToDetails []) _ _ hinit
  obtain ⟨p1, p2, p3, p4, p5, p6, p7⟩ := hp.2
  constructor
  · simp only [buildConceptRow, eraseConceptRow, ConceptRowE.mk.injEq]
    rw [insertionSortBy_map eraseDetail detailLe detailLeE (fun a b => rfl),
      insertionSortBy_map eraseDetail detailLe detailLeE (fun a b => rfl)]
    simp [p1, p2, hp.1]
  · refine ⟨?_, p3, p4, p5, p6, p7⟩
    show JSNum.add s1.subCategoryTotal (sumNet ce)
      = JSNum.add s2.subCategoryTotal (sumNet ce)
    rw [t1]

theorem conceptPass_rel (r1 r2 : ℕ → ℚ) (cat sub : String)
    (groups : List (String × List MappedEntry)) :
    ∀ s1 s2 : SubState, subStateRel s1 s2 →
      ((mapAccum (fun s cg => buildConceptRow r1 cat sub cg.1 cg.2 s) s1 groups).1).map
          eraseConceptRow
        = ((mapAccum (fun s cg => buildConceptRow r2 cat sub cg.1 cg.2 s) s2 groups).1).map
            eraseConceptRow
      ∧ subStateRel
          (mapAccum (fun s cg => buildConceptRow r1 cat sub cg.1 cg.2 s) s1 groups).2
          (mapAccum (fun s cg => buildConceptRow r2 cat sub cg.1 cg.2 s) s2 groups).2 := by
  induction groups with
  | nil =>
    intro s1 s2 hs
    exact ⟨rfl, hs⟩
  | cons g t ih =>
    intro s1 s2 hs
    simp only [mapAccum, List.map_cons]
    have step := buildConceptRow_rel r1 r2 cat sub g.1 g.2 s1 s2 hs
    have rest := ih _ _ step.2
    exact ⟨by rw [step.1, rest.1], rest.2⟩

theorem flat_erased_congr :
    ∀ l1 l2 : List ConceptRow,
      l1.map eraseConceptRow = l2.map eraseConceptRow →
      conceptAccountNumbersFlat l1 = conceptAccountNumbersFlat l2 := by
  intro l1
  induction l1 with
  | nil =>
    intro l2 h
    cases l2 with
    | nil => rfl
    | cons b t => exact absurd h (by simp)
  | cons a t ih =>
    intro l2 h
    cases l2 with
    | nil => exact absurd h (by simp)
    | cons b t2 =>
      simp only [List.map_cons, List.cons.injEq] at h
      have hab : a.accountNumbers = b.accountNumbers :=
        congrArg ConceptRowE.accountNumbers h.1
      show a.accountNumbers ++ conceptAccountNumbersFlat t
        = b.accountNumbers ++ conceptAccountNumbersFlat t2
      rw [hab, ih t2 h.2]

theorem buildSubCategoryRow_rel (r1 r2 : ℕ → ℚ) (cat : String)
    (g : String × List MappedEntry) (s1 s2 : CatState)
    (hs : catStateRel s1 s2) :
    eraseSubRow (buildSubCategoryRow r1 cat s1 g).1
      = eraseSubRow (buildSubCategoryRow r2 cat s2 g).1
    ∧ catStateRel (buildSubCategoryRow r1 cat s1 g).2
        (buildSubCategoryRow r2 cat s2 g).2 := by
  obtain ⟨t1, t2, t3, t4⟩ := hs
  have hinit : subStateRel
      { subCategoryTotal := JSNum.num 0, subAmounts := [], subBudgets := [],
        catAmounts := s1.catAmounts, catBudgets := s1.catBudgets, ctr := s1.ctr }
      { subCategoryTotal := JSNum.num 0, subAmounts := [], subBudgets := [],
        catAmounts := s2.catAmounts, catBudgets := s2.catBudgets, ctr := s2.ctr } :=
    ⟨rfl, rfl, rfl, t2, t3, t4⟩
  have hp := conceptPass_rel r1 r2 cat g.1
    (groupByKey (fun e => e.mapping.concept) g.2) _ _ hinit
  obtain ⟨p1, p2, p3, p4, p5, p6⟩ := hp.2
  constructor
  · simp only [buildSubCategoryRow, eraseSubRow, SubCategoryRowE.mk.injEq]
    simp [p1, p2, monthKeys_cumulIf_congr _ _ _ p3,
      map_eraseConceptRow_update _ _ _ hp.1, flat_erased_congr _ _ hp.1]
  · refine ⟨?_, p4, p5, p6⟩
    show JSNum.add s1.categoryTotal
        (mapAccum (fun (s : SubState) (cg : String × List MappedEntry) =>
            buildConceptRow r1 cat g.1 cg.1 cg.2 s)
          { subCategoryTotal := JSNum.num 0, subAmounts := [], subBudgets := [],
            catAmounts := s1.catAmounts, catBudgets := s1.catBudgets,
            ctr := s1.ctr }
          (groupByKey (fun e => e.mapping.concept) g.2)).2.subCategoryTotal
      = JSNum.add s2.categoryTotal
        (mapAccum (fun (s : SubState) (cg : String × List MappedEntry) =>
            buildConceptRow r2 cat g.1 cg.1 cg.2 s)
          { subCategoryTotal := JSNum.num 0, subAmounts := [], subBudgets := [],
            catAmounts := s2.catAmounts, catBudgets := s2.catBudgets,
            ctr := s2.ctr }
          (groupByKey (fun e => e.mapping.concept) g.2)).2.subCategoryTotal
    rw [t1, p1]

theorem subPass_rel (r1 r2 : ℕ → ℚ) (cat : String)
    (groups : List (String × List MappedEntry)) :
    ∀ s1 s2 : CatState, catStateRel s1 s2 →
      ((mapAccum (buildSubCategoryRow r1 cat) s1 groups).1).map eraseSubRow
        = ((mapAccum (buildSubCategoryRow r2 cat) s2 groups).1).map eraseSubRow
      ∧ catStateRel (mapAccum (buildSubCategoryRow r1 cat) s1 groups).2
          (mapAccum (buildSubCategoryRow r2 cat) s2 groups).2 := by
  induction groups with
  | nil =>
    intro s1 s2 hs
    exact ⟨rfl, hs⟩
  | cons g t ih =>
    intro s1 s2 hs
    simp only [mapAccum, List.map_cons]
    have step := buildSubCategoryRow_rel r1 r2 cat g s1 s2 hs
    have rest := ih _ _ step.2
    exact ⟨by rw [step.1, rest.1], rest.2⟩

theorem subFlat_erased_congr :
    ∀ l1 l2 : List SubCategoryRow,
      l1.map eraseSubRow = l2.map eraseSubRow →
      subAccountNumbersFlat l1 = subAccountNumbersFlat l2 := by
  intro l1
  induction l1 with
  | nil =>
    intro l2 h
    cases l2 with
    | nil => rfl
    | cons b t => exact absurd h (by simp)
  | cons a t ih =>
    intro l2 h
    cases l2 with
    | nil => exact absurd h (by simp)
    | cons b t2 =>
      simp only [List.map_cons, List.cons.injEq] at h
      have hab : a.accountNumbers = b.accountNumbers :=
        congrArg SubCategoryRowE.accountNumbers h.1
      show a.accountNumbers ++ subAccountNumbersFlat t
        = b.accountNumbers ++ subAccountNumbersFlat t2
      rw [hab, ih t2 h.2]

set_option maxHeartbeats 1000000 in
theorem buildCategoryRow_rel (r1 r2 : ℕ → ℚ) (ctr : ℕ)
    (g : String × List MappedEntry) :
    eraseCatRow (buildCategoryRow r1 ctr g).1
      = eraseCatRow (buildCategoryRow r2 ctr g).1
    ∧ (buildCategoryRow r1 ctr g).2 = (buildCategoryRow r2 ctr g).2 := by
  have hinit : catStateRel
      { categoryTotal := JSNum.num 0, catAmounts := [], catBudgets := [],
        ctr := ctr }
      { categoryTotal := JSNum.num 0, catAmounts := [], catBudgets := [],
        ctr := ctr } := ⟨rfl, rfl, rfl, rfl⟩
  have hp := subPass_rel r1 r2 g.1
    (groupByKey (fun e => e.mapping.sousCategorie) g.2) _ _ hinit
  obtain ⟨q1, q2, q3, q4⟩ := hp.2
  constructor
  · simp only [buildCategoryRow, eraseCatRow, CategoryRowE.mk.injEq]
    simp [q1, q2, monthKeys_cumulIf_congr _ _ _ q3, hp.1,
      subFlat_erased_congr _ _ hp.1]
  · exact q4

theorem catPass_rel_gen
    (F1 F2 : ℕ → (String × List MappedEntry) → CategoryRow × ℕ)
    (hF1 : ∀ c g, eraseCatRow (F1 c g).1 = eraseCatRow (F2 c g).1)
    (hF2 : ∀ c g, (F1 c g).2 = (F2 c g).2)
    (groups : List (String × List MappedEntry)) :
    ∀ ctr : ℕ,
      ((mapAccum F1 ctr groups).1).map eraseCatRow
        = ((mapAccum F2 ctr groups).1).map eraseCatRow
      ∧ (mapAccum F1 ctr groups).2 = (mapAccum F2 ctr groups).2 := by
  induction groups with
  | nil =>
    intro ctr
    exact ⟨rfl, rfl⟩
  | cons g t ih =>
    intro ctr
    constructor
    · show eraseCatRow (F1 ctr g).1
          :: ((mapAccum F1 (F1 ctr g).2 t).1).map eraseCatRow
        = eraseCatRow (F2 ctr g).1
          :: ((mapAccum F2 (F2 ctr g).2 t).1).map eraseCatRow
      rw [hF1 ctr g, hF2 ctr g, (ih _).1]
    · show (mapAccum F1 (F1 ctr g).2 t).2 = (mapAccum F2 (F2 ctr g).2 t).2
      rw [hF2 ctr g]
      exact (ih _).2

/-- C9: two runs of `buildOperatingModel` on identical entries and identical
session overrides produce identical trees — same rows, ids, types, amounts,
monthly actual series, account numbers, account details and collapse flags —
up to the values stored in `monthlyBudgets` at every level, which depend
only on the random draw sequence. -/
theorem C9_deterministic_up_to_budgets (custom : String → Option CustomMapping)
    (fallback exact : String → Option Mapping) (r1 r2 : ℕ → ℚ)
    (entries : List FECEntry) :
    (processRawFEC custom fallback exact r1 entries).map eraseCatRow
      = (processRawFEC custom fallback exact r2 entries).map eraseCatRow := by
  simp only [processRawFEC]
  split
  · rfl
  · split
    · rfl
    · rw [insertionSortBy_map eraseCatRow
          (fun a b => strLe a.category b.category) catLeE (fun a b => rfl),
        insertionSortBy_map eraseCatRow
          (fun a b => strLe a.category b.category) catLeE (fun a b => rfl),
        (catPass_rel_gen (fun c g => buildCategoryRow r1 c g)
          (fun c g => buildCategoryRow r2 c g)
          (fun c g => (buildCategoryRow_rel r1 r2 c g).1)
          (fun c g => (buildCategoryRow_rel r1 r2 c g).2) _ 0).1]

/-! ## C8: unmapped entries -/

theorem resolve_none_of_all_none (fallback exact : String → Option Mapping)
    (raw : String) (h1 : fallback raw = none)
    (h2 : exact (normalizeAccountNumber raw) = none) :
    resolveMapping customNone fallback exact raw = none := by
  simp only [resolveMapping, customNone]
  rw [h1, h2]

theorem jsTrim_idem (s : String) : jsTrim (jsTrim s) = jsTrim s :=
  jsTrim_eq_self (jsTrim s) (jsTrim_head_not s) (jsTrim_last_not s)

theorem normalizeAccountNumber_jsTrim (s : String) :
    normalizeAccountNumber (jsTrim s) = normalizeAccountNumber s := by
  rw [normalizeAccountNumber_eq, normalizeAccountNumber_eq, jsTrim_idem]

theorem mappedEntries_compteNum (custom : String → Option CustomMapping)
    (fallback exact : String → Option Mapping) (entries : List FECEntry) :
    ∀ me ∈ mappedEntries custom fallback exact entries,
      ∃ m, resolveMapping custom fallback exact me.CompteNum = some m := by
  intro me hme
  rcases List.mem_filterMap.mp hme with ⟨pe, hpe, hmap⟩
  rcases List.mem_map.mp hpe with ⟨e', _, hpre⟩
  subst hpre
  cases hm : (premapEntry custom fallback exact e').mapping with
  | none =>
    rw [hm] at hmap
    exact absurd hmap (by simp)
  | some m =>
    rw [hm] at hmap
    rw [Option.map_some'] at hmap
    injection hmap with hfm
    have hcn : me.CompteNum = e'.CompteNum := by
      rw [← hfm]
      rfl
    have hres : resolveMapping custom fallback exact e'.CompteNum = some m := hm
    rw [hcn]
    exact ⟨m, hres⟩

theorem mem_conceptFlat (rows : List ConceptRow) (x : String) :
    x ∈ conceptAccountNumbersFlat rows → ∃ r ∈ rows, x ∈ r.accountNumbers := by
  induction rows with
  | nil => intro h; exact absurd h (by simp [conceptAccountNumbersFlat])
  | cons r t ih =>
    intro h
    rcases List.mem_append.mp h with h1 | h2
    · exact ⟨r, List.mem_cons_self _ _, h1⟩
    · rcases ih h2 with ⟨r', hr', hx⟩
      exact ⟨r', List.mem_cons_of_mem _ hr', hx⟩

theorem mem_subFlat (rows : List SubCategoryRow) (x : String) :
    x ∈ subAccountNumbersFlat rows → ∃ r ∈ rows, x ∈ r.accountNumbers := by
  induction rows with
  | nil => intro h; exact absurd h (by simp [subAccountNumbersFlat])
  | cons r t ih =>
    intro h
    rcases List.mem_append.mp h with h1 | h2
    · exact ⟨r, List.mem_cons_self _ _, h1⟩
    · rcases ih h2 with ⟨r', hr', hx⟩
      exact ⟨r', List.mem_cons_of_mem _ hr', hx⟩

/-- Every account number anywhere in the tree is the `CompteNum` of some
mapped entry. -/
theorem tree_accountNumbers_mapped (custom : String → Option CustomMapping)
    (fallback exact : String → Option Mapping) (rand : ℕ → ℚ)
    (entries : List FECEntry) :
    ∀ crow ∈ processRawFEC custom fallback exact rand entries,
      ∀ x ∈ crow.accountNumbers,
        ∃ me ∈ mappedEntries custom fallback exact entries,
          me.CompteNum = x := by
  intro crow hcrow x hx
  rcases processRawFEC_row custom fallback exact rand entries crow hcrow with
    ⟨g, hg, ctr, hrow⟩
  have hg2 := (mem_groupByKey.mp hg).2
  rw [hrow] at hx
  have hx' : x ∈ uniqFirst (subAccountNumbersFlat
      (buildCategoryRow rand ctr g).1.children) := hx
  rw [mem_uniqFirst] at hx'
  rcases mem_subFlat _ _ hx' with ⟨srow, hsrow, hxs⟩
  rcases mem_catRow_children rand ctr g srow hsrow with ⟨g', hg', st, hsrow'⟩
  have hg'2 := (mem_groupByKey.mp hg').2
  rw [hsrow'] at hxs
  have hxs' : x ∈ uniqFirst (conceptAccountNumbersFlat
      (buildSubCategoryRow rand g.1 st g').1.children) := by
    rw [← subRow_accountNumbers]
    exact hxs
  rw [mem_uniqFirst] at hxs'
  rcases mem_conceptFlat _ _ hxs' with ⟨corow, hcorow, hxc⟩
  rcases mem_subRow_children rand g.1 st g' corow hcorow with ⟨g'', hg'', ss, hcorow'⟩
  have hg''2 := (mem_groupByKey.mp hg'').2
  rw [hcorow'] at hxc
  have hxc' : x ∈ uniqFirst (g''.2.map (fun e => e.CompteNum)) := hxc
  rw [mem_uniqFirst] at hxc'
  rcases List.mem_map.mp hxc' with ⟨me, hme, hmex⟩
  refine ⟨me, ?_, hmex⟩
  have hme' : me ∈ g'.2 := by
    rw [hg''2] at hme
    exact List.mem_of_mem_filter hme
  have hme'' : me ∈ g.2 := by
    rw [hg'2] at hme'
    exact List.mem_of_mem_filter hme'
  rw [hg2] at hme''
  exact List.mem_of_mem_filter hme''

theorem addUnmapped_mem_key (k lib : String) (d c : JSNum) :
    ∀ acc : List UnmappedAcc,
      ∃ u ∈ addUnmapped acc k lib d c, u.compteNum = k := by
  intro acc
  induction acc with
  | nil =>
    refine ⟨_, List.mem_singleton.mpr rfl, ?_⟩
    rfl
  | cons u t ih =>
    by_cases h : u.compteNum = k
    · refine ⟨{ u with totalDebit := (JSNum.add u.totalDebit d), totalCredit := (JSNum.add u.totalCredit c), count := (u.count + 1) }, ?_, h⟩
      rw [addUnmapped, if_pos h]
      exact List.mem_cons_self _ _
    · rcases ih with ⟨w, hw, hk⟩
      refine ⟨w, ?_, hk⟩
      rw [addUnmapped, if_neg h]
      exact List.mem_cons_of_mem _ hw

theorem addUnmapped_mem_preserve (k' lib : String) (d c : JSNum) (k : String) :
    ∀ acc : List UnmappedAcc, (∃ u ∈ acc, u.compteNum = k) →
      ∃ u ∈ addUnmapped acc k' lib d c, u.compteNum = k := by
  intro acc
  induction acc with
  | nil =>
    rintro ⟨u, hu, _⟩
    exact absurd hu (by simp)
  | cons v t ih =>
    rintro ⟨u, hu, hk⟩
    by_cases h : v.compteNum = k'
    · rw [addUnmapped, if_pos h]
      rcases List.mem_cons.mp hu with rfl | hu'
      · exact ⟨{ u with totalDebit := (JSNum.add u.totalDebit d), totalCredit := (JSNum.add u.totalCredit c), count := (u.count + 1) }, List.mem_cons_self _ _, hk⟩
      · exact ⟨u, List.mem_cons_of_mem _ hu', hk⟩
    · rw [addUnmapped, if_neg h]
      rcases List.mem_cons.mp hu with rfl | hu'
      · exact ⟨u, List.mem_cons_self _ _, hk⟩
      · rcases ih ⟨u, hu', hk⟩ with ⟨w, hw, hwk⟩
        exact ⟨w, List.mem_cons_of_mem _ hw, hwk⟩

theorem unmappedStep_preserve (fallback exact : String → Option Mapping)
    (entry : FECEntry) (k : String) (acc : List UnmappedAcc)
    (h : ∃ u ∈ acc, u.compteNum = k) :
    ∃ u ∈ unmappedStep fallback exact acc entry, u.compteNum = k := by
  simp only [unmappedStep]
  cases hf : fallback (jsTrim entry.CompteNum) with
  | some m => exact h
  | none =>
    cases hx : exact (normalizeAccountNumber (jsTrim entry.CompteNum)) with
    | some m => exact h
    | none => exact addUnmapped_mem_preserve _ _ _ _ _ _ h

theorem fold_unmapped_preserve (fallback exact : String → Option Mapping)
    (l : List FECEntry) (k : String) :
    ∀ acc : List UnmappedAcc, (∃ u ∈ acc, u.compteNum = k) →
      ∃ u ∈ l.foldl (unmappedStep fallback exact) acc, u.compteNum = k := by
  induction l with
  | nil =>
    intro acc h
    exact h
  | cons a t ih =>
    intro acc h
    exact ih _ (unmappedStep_preserve fallback exact a k acc h)

theorem fold_unmapped_mem (fallback exact : String → Option Mapping)
    (l : List FECEntry) (e : FECEntry)
    (h1 : fallback (jsTrim e.CompteNum) = none)
    (h2 : exact (normalizeAccountNumber (jsTrim e.CompteNum)) = none) :
    ∀ acc : List UnmappedAcc, e ∈ l →
      ∃ u ∈ l.foldl (unmappedStep fallback exact) acc,
        u.compteNum = (if normalizeAccountNumber (jsTrim e.CompteNum) = ""
          then jsTrim e.CompteNum
          else normalizeAccountNumber (jsTrim e.CompteNum)) := by
  induction l with
  | nil =>
    intro acc he
    exact absurd he (by simp)
  | cons a t ih =>
    intro acc he
    rcases List.mem_cons.mp he with rfl | he'
    · rw [List.foldl_cons]
      apply fold_unmapped_preserve
      simp only [unmappedStep]
      rw [h1, h2]
      exact addUnmapped_mem_key _ _ _ _ _
    · exact ih _ he'

theorem unmappedLe_total (a b : UnmappedAccount) :
    unmappedLe a b = true ∨ unmappedLe b a = true := by
  unfold unmappedLe
  cases ha : JSNum.abs a.netAmount with
  | nan =>
    cases hb : JSNum.abs b.netAmount with
    | nan => left; rfl
    | num qb => left; rfl
  | num qa =>
    cases hb : JSNum.abs b.netAmount with
    | nan => left; rfl
    | num qb =>
      show decide (qb - qa ≤ 0) = true ∨ decide (qa - qb ≤ 0) = true
      by_cases h : qb - qa ≤ 0
      · left; exact decide_eq_true h
      · right; exact decide_eq_true (by linarith)

theorem head_insertIntoSorted (le : α → α → Bool) (x : α) (l : List α) :
    (insertIntoSorted le x l).head? = some x ∨
      (insertIntoSorted le x l).head? = l.head? := by
  cases l with
  | nil => left; rfl
  | cons y ys =>
    rw [insertIntoSorted]
    by_cases h : le x y
    · rw [if_pos h]; left; rfl
    · rw [if_neg h]; right; rfl

theorem chain_insertIntoSorted (le : α → α → Bool)
    (htot : ∀ a b, le a b = true ∨ le b a = true) (x : α) :
    ∀ l : List α, List.Chain' (fun a b => le a b = true) l →
      List.Chain' (fun a b => le a b = true) (insertIntoSorted le x l) := by
  intro l
  induction l with
  | nil => intro _; simp [insertIntoSorted]
  | cons y ys ih =>
    intro h
    rcases List.chain'_cons'.mp h with ⟨hhead, htail⟩
    rw [insertIntoSorted]
    by_cases hxy : le x y
    · rw [if_pos hxy]
      refine List.chain'_cons'.mpr ⟨?_, h⟩
      intro z hz
      have hzy : y = z := by simpa using hz
      subst hzy
      exact hxy
    · rw [if_neg hxy]
      have hyx : le y x = true := by
        rcases htot x y with h1 | h1
        · exact absurd h1 hxy
        · exact h1
      refine List.chain'_cons'.mpr ⟨?_, ih htail⟩
      intro z hz
      rcases head_insertIntoSorted le x ys with hh | hh
      · rw [hh] at hz
        have hzx : x = z := by simpa using hz
        subst hzx
        exact hyx
      · rw [hh] at hz
        exact hhead z hz

theorem chain_insertionSortBy (le : α → α → Bool)
    (htot : ∀ a b, le a b = true ∨ le b a = true) :
    ∀ l : List α,
      List.Chain' (fun a b => le a b = true) (insertionSortBy le l) := by
  intro l
  induction l with
  | nil => simp [insertionSortBy]
  | cons x xs ih =>
    rw [insertionSortBy]
    exact chain_insertIntoSorted le htot x _ ih

/-- C8 counterexample: the aggregation key of `getUnmappedEntries` when
normalization yields `""` is the TRIMMED raw account number, not the raw
one: the whitespace-only account `" "` is aggregated under `""`. -/
theorem C8_counterexample :
    entrySpaceAccount.CompteNum = (" ") ∧
    normalizeAccountNumber entrySpaceAccount.CompteNum = ("") ∧
    (getUnmappedEntries lookupNone lookupNone [entrySpaceAccount]).map
        UnmappedAccount.compteNum = [("")] ∧
    (" " : String) ≠ ("") := by
  decide

/-- C8 (amended): with an empty session-override map, an entry whose raw
account number the static fallback misses — both untrimmed, as the tree
resolver calls it, and trimmed, as `getUnmappedEntries` calls it — and
whose normalized number the exact lookup misses never contributes its
`CompteNum` to any `accountNumbers` in the tree built by
`buildOperatingModel`; its account does appear in `getUnmappedEntries`,
aggregated under the normalized account number — or the TRIMMED raw number
when normalization yields `""` — and the returned list is sorted by
descending absolute `netAmount` (consecutive pairs satisfy the comparator
`|b.netAmount| - |a.netAmount| ≤ 0`, with `NaN` comparing as `0`). -/
theorem C8_unmapped_exclusion (fallback exact : String → Option Mapping)
    (rand : ℕ → ℚ) (entries : List FECEntry) (e : FECEntry)
    (he : e ∈ entries)
    (hraw : fallback e.CompteNum = none)
    (htrim : fallback (jsTrim e.CompteNum) = none)
    (hex : exact (normalizeAccountNumber e.CompteNum) = none) :
    (∀ crow ∈ processRawFEC customNone fallback exact rand entries,
        e.CompteNum ∉ crow.accountNumbers) ∧
    (∃ u ∈ getUnmappedEntries fallback exact entries,
        u.compteNum = (if normalizeAccountNumber e.CompteNum = ""
          then jsTrim e.CompteNum else normalizeAccountNumber e.CompteNum)) ∧
    List.Chain' (fun a b => unmappedLe a b = true)
      (getUnmappedEntries fallback exact entries) := by
  refine ⟨?_, ?_, ?_⟩
  · intro crow hcrow hx
    rcases tree_accountNumbers_mapped customNone fallback exact rand entries
        crow hcrow e.CompteNum hx with ⟨me, hme, hcn⟩
    rcases mappedEntries_compteNum customNone fallback exact entries me hme
      with ⟨m, hm⟩
    rw [hcn, resolve_none_of_all_none fallback exact e.CompteNum hraw hex] at hm
    exact Option.noConfusion hm
  · have hex' : exact (normalizeAccountNumber (jsTrim e.CompteNum)) = none := by
      rw [normalizeAccountNumber_jsTrim]; exact hex
    rcases fold_unmapped_mem fallback exact entries e htrim hex' [] he
      with ⟨u, hu, hk⟩
    refine ⟨{ compteNum := u.compteNum, compteLib := u.compteLib, totalDebit := u.totalDebit, totalCredit := u.totalCredit, netAmount := (JSNum.sub u.totalDebit u.totalCredit), count := u.count }, ?_, ?_⟩
    · simp only [getUnmappedEntries]
      rw [mem_insertionSortBy]
      exact List.mem_map.mpr ⟨u, hu, rfl⟩
    · show u.compteNum = _
      rw [hk, normalizeAccountNumber_jsTrim]
  · exact chain_insertionSortBy unmappedLe unmappedLe_total _

theorem C8_unmapped_exclusion_witness :
    entryNine ∈ [entryNine] ∧
    lookupNone entryNine.CompteNum = none ∧
    lookupNone (jsTrim entryNine.CompteNum) = none ∧
    lookupNone (normalizeAccountNumber entryNine.CompteNum) = none ∧
    ((∀ crow ∈ processRawFEC customNone lookupNone lookupNone randZero
          [entryNine], entryNine.CompteNum ∉ crow.accountNumbers) ∧
      (∃ u ∈ getUnmappedEntries lookupNone lookupNone [entryNine],
          u.compteNum = (if normalizeAccountNumber entryNine.CompteNum = ""
            then jsTrim entryNine.CompteNum
            else normalizeAccountNumber entryNine.CompteNum)) ∧
      List.Chain' (fun a b => unmappedLe a b = true)
        (getUnmappedEntries lookupNone lookupNone [entryNine])) :=
  ⟨List.mem_singleton.mpr rfl, rfl, rfl, rfl,
    C8_unmapped_exclusion lookupNone lookupNone randZero [entryNine] entryNine
      (List.mem_singleton.mpr rfl) rfl rfl rfl⟩

/-! ## Pointwise facts about `alookup`, `bump` and `histFold` -/

theorem alookup_mem (a : MonthlyAmounts) (m : String) (v : JSNum) :
    alookup a m = some v → (m, v) ∈ a := by
  induction a with
  | nil => intro h; exact absurd h (by simp [alookup])
  | cons p t ih =>
    intro h
    rw [alookup] at h
    by_cases hk : p.1 = m
    · rw [if_pos hk] at h
      injection h with h
      subst h
      subst hk
      exact List.mem_cons_self _ _
    · rw [if_neg hk] at h
      exact List.mem_cons_of_mem _ (ih h)

theorem alookup_eq_none (a : MonthlyAmounts) (m : String)
    (h : m ∉ monthKeys a) : alookup a m = none := by
  induction a with
  | nil => rfl
  | cons p t ih =>
    rw [alookup]
    have h1 : ¬ p.1 = m := by
      intro hk
      exact h (by rw [← hk]; exact List.mem_cons_self _ _)
    rw [if_neg h1]
    exact ih (fun hm => h (List.mem_cons_of_mem _ hm))

theorem alookup_isSome_of_mem (a : MonthlyAmounts) (m : String)
    (h : m ∈ monthKeys a) : ∃ v, alookup a m = some v := by
  induction a with
  | nil => exact absurd h (by simp [monthKeys])
  | cons p t ih =>
    rw [alookup]
    by_cases hk : p.1 = m
    · rw [if_pos hk]; exact ⟨p.2, rfl⟩
    · rw [if_neg hk]
      refine ih ?_
      rcases List.mem_cons.mp h with h1 | h2
      · exact absurd h1.symm hk
      · exact h2

theorem alookup_of_mem_keys (a : MonthlyAmounts) (m : String)
    (hv : numVals a) (h : m ∈ monthKeys a) :
    alookup a m = some (JSNum.num (ql a m)) := by
  rcases alookup_isSome_of_mem a m h with ⟨v, hl⟩
  have hvm : v ≠ JSNum.nan := hv (m, v) (alookup_mem a m v hl)
  cases v with
  | nan => exact absurd rfl hvm
  | num q =>
    rw [hl, ql, hl]
    rfl

theorem ql_eq_zero_of_not_mem (a : MonthlyAmounts) (m : String)
    (h : m ∉ monthKeys a) : ql a m = 0 := by
  rw [ql, alookup_eq_none a m h]
  rfl

theorem qOf_add (x y : JSNum) (hx : x ≠ JSNum.nan) (hy : y ≠ JSNum.nan) :
    qOf (JSNum.add x y) = qOf x + qOf y := by
  cases x with
  | nan => exact absurd rfl hx
  | num qx =>
    cases y with
    | nan => exact absurd rfl hy
    | num qy => rfl

theorem alookup_bump (a : MonthlyAmounts) (k : String) (v : JSNum) (m : String) :
    alookup (bump a k v) m =
      if k = m then
        some (JSNum.add (((alookup a m).getD (JSNum.num 0)).orZero) v)
      else alookup a m := by
  induction a with
  | nil =>
    by_cases hk : k = m
    · subst hk
      simp [bump, alookup, JSNum.orZero]
    · simp [bump, alookup, hk]
  | cons p t ih =>
    by_cases hp : p.1 = k
    · have hb : bump (p :: t) k v = (p.1, JSNum.add p.2.orZero v) :: t := by
        show (if p.1 = k then (p.1, JSNum.add p.2.orZero v) :: t
              else (p.1, p.2) :: bump t k v) = _
        rw [if_pos hp]
      rw [hb]
      by_cases hm : k = m
      · have hpm : p.1 = m := by rw [hp, hm]
        rw [if_pos hm]
        show (if p.1 = m then some (JSNum.add p.2.orZero v) else alookup t m) = _
        rw [if_pos hpm]
        show _ = some (JSNum.add
          (((if p.1 = m then some p.2 else alookup t m).getD (JSNum.num 0)).orZero) v)
        rw [if_pos hpm]
        rfl
      · have hpm : ¬ p.1 = m := by rw [hp]; exact hm
        rw [if_neg hm]
        show (if p.1 = m then some (JSNum.add p.2.orZero v) else alookup t m) = _
        rw [if_neg hpm]
        show _ = (if p.1 = m then some p.2 else alookup t m)
        rw [if_neg hpm]
    · have hb : bump (p :: t) k v = (p.1, p.2) :: bump t k v := by
        show (if p.1 = k then (p.1, JSNum.add p.2.orZero v) :: t
              else (p.1, p.2) :: bump t k v) = _
        rw [if_neg hp]
      rw [hb]
      by_cases hm : k = m
      · have hpm : ¬ p.1 = m := by rw [← hm]; exact hp
        rw [if_pos hm]
        show (if p.1 = m then some p.2 else alookup (bump t k v) m) = _
        rw [if_neg hpm, ih, if_pos hm]
        show _ = some (JSNum.add
          (((if p.1 = m then some p.2 else alookup t m).getD (JSNum.num 0)).orZero) v)
        rw [if_neg hpm]
      · rw [if_neg hm]
        show (if p.1 = m then some p.2 else alookup (bump t k v) m) = _
        rw [ih, if_neg hm]
        rfl

theorem bump_numVals (a : MonthlyAmounts) (k : String) (v : JSNum)
    (ha : numVals a) (hv : v ≠ JSNum.nan) : numVals (bump a k v) := by
  induction a with
  | nil =>
    intro p hp
    rcases List.mem_singleton.mp hp with rfl
    show JSNum.add (JSNum.num 0) v ≠ JSNum.nan
    cases v with
    | nan => exact absurd rfl hv
    | num q => simp [JSNum.add]
  | cons p t ih =>
    intro q hq
    by_cases hp : p.1 = k
    · have hb : bump (p :: t) k v = (p.1, JSNum.add p.2.orZero v) :: t := by
        show (if p.1 = k then (p.1, JSNum.add p.2.orZero v) :: t
              else (p.1, p.2) :: bump t k v) = _
        rw [if_pos hp]
      rw [hb] at hq
      rcases List.mem_cons.mp hq with rfl | hq'
      · show JSNum.add p.2.orZero v ≠ JSNum.nan
        have h2 : p.2 ≠ JSNum.nan := ha p (List.mem_cons_self _ _)
        cases hv2 : p.2 with
        | nan => exact absurd hv2 h2
        | num q2 =>
          cases v with
          | nan => exact absurd rfl hv
          | num qv => simp [JSNum.orZero, JSNum.add]
      · exact ha q (List.mem_cons_of_mem _ hq')
    · have hb : bump (p :: t) k v = (p.1, p.2) :: bump t k v := by
        show (if p.1 = k then (p.1, JSNum.add p.2.orZero v) :: t
              else (p.1, p.2) :: bump t k v) = _
        rw [if_neg hp]
      rw [hb] at hq
      rcases List.mem_cons.mp hq with rfl | hq'
      · exact ha p (List.mem_cons_self _ _)
      · exact ih (fun r hr => ha r (List.mem_cons_of_mem _ hr)) _ hq'

theorem ql_bump (a : MonthlyAmounts) (k : String) (v : JSNum) (m : String)
    (ha : numVals a) (hv : v ≠ JSNum.nan) :
    ql (bump a k v) m = ql a m + (if k = m then qOf v else 0) := by
  rw [ql, alookup_bump]
  by_cases hk : k = m
  · rw [if_pos hk, if_pos hk]
    show qOf (JSNum.add (((alookup a m).getD (JSNum.num 0)).orZero) v) = _
    cases hl : alookup a m with
    | none =>
      show qOf (JSNum.add (JSNum.num 0) v) = ql a m + qOf v
      rw [ql, hl]
      cases v with
      | nan => exact absurd rfl hv
      | num qv => rfl
    | some w =>
      have hw : w ≠ JSNum.nan := ha (m, w) (alookup_mem a m w hl)
      cases w with
      | nan => exact absurd rfl hw
      | num qw =>
        show qOf (JSNum.add (JSNum.num qw) v) = ql a m + qOf v
        rw [ql, hl]
        cases v with
        | nan => exact absurd rfl hv
        | num qv => rfl
  · rw [if_neg hk, if_neg hk, ql]
    ring

theorem keyQ_cons (p : String × JSNum) (s : List (String × JSNum)) (m : String) :
    keyQ (p :: s) m = (if p.1 = m then qOf p.2 else 0) + keyQ s m := by
  rw [keyQ, keyQ, List.filter_cons]
  by_cases h : p.1 = m
  · simp [h]
  · simp [h]

theorem keyQ_append (s t : List (String × JSNum)) (m : String) :
    keyQ (s ++ t) m = keyQ s m + keyQ t m := by
  rw [keyQ, keyQ, keyQ, List.filter_append, List.map_append, List.sum_append]

theorem keyQ_join (L : List (List (String × JSNum))) (m : String) :
    keyQ L.join m = (L.map (fun s => keyQ s m)).sum := by
  induction L with
  | nil => rfl
  | cons s L ih =>
    rw [show (s :: L).join = s ++ L.join from rfl, keyQ_append, ih,
      List.map_cons, List.sum_cons]

theorem keyQ_eq_zero_of_not_mem (s : List (String × JSNum)) (m : String)
    (h : m ∉ s.map Prod.fst) : keyQ s m = 0 := by
  induction s with
  | nil => rfl
  | cons p t ih =>
    rw [keyQ_cons]
    have h1 : ¬ p.1 = m := fun hk => h (by rw [← hk]; exact List.mem_map_of_mem _ (List.mem_cons_self _ _))
    rw [if_neg h1, ih (fun hm => h (by rw [List.map_cons]; exact List.mem_cons_of_mem _ hm))]
    ring

theorem keyQ_bump (a : MonthlyAmounts) (k : String) (v : JSNum) (m : String)
    (ha : numVals a) (hv : v ≠ JSNum.nan) :
    keyQ (bump a k v) m = keyQ a m + (if k = m then qOf v else 0) := by
  induction a with
  | nil =>
    show keyQ [(k, JSNum.add (JSNum.num 0) v)] m = _
    rw [keyQ_cons]
    have : qOf (JSNum.add (JSNum.num 0) v) = qOf v := by
      cases v with
      | nan => exact absurd rfl hv
      | num q => show (0 : ℚ) + q = q; ring
    rw [this]
    show (if k = m then qOf v else 0) + keyQ [] m = keyQ [] m + _
    rw [keyQ]
    simp
  | cons p t ih =>
    by_cases hp : p.1 = k
    · have hb : bump (p :: t) k v = (p.1, JSNum.add p.2.orZero v) :: t := by
        show (if p.1 = k then (p.1, JSNum.add p.2.orZero v) :: t
              else (p.1, p.2) :: bump t k v) = _
        rw [if_pos hp]
      rw [hb, keyQ_cons, keyQ_cons]
      have h2 : p.2 ≠ JSNum.nan := ha p (List.mem_cons_self _ _)
      have hoz : qOf (JSNum.add p.2.orZero v) = qOf p.2 + qOf v := by
        cases h2' : p.2 with
        | nan => exact absurd h2' h2
        | num q2 =>
          cases v with
          | nan => exact absurd rfl hv
          | num qv => rfl
      rw [hoz]
      by_cases hm : p.1 = m
      · have hkm : k = m := by rw [← hp]; exact hm
        simp only [if_pos hm, if_pos hkm]
        ring
      · have hkm : ¬ k = m := fun h => hm (by rw [hp]; exact h)
        simp only [if_neg hm, if_neg hkm]
        ring
    · have hb : bump (p :: t) k v = (p.1, p.2) :: bump t k v := by
        show (if p.1 = k then (p.1, JSNum.add p.2.orZero v) :: t
              else (p.1, p.2) :: bump t k v) = _
        rw [if_neg hp]
      rw [hb, keyQ_cons, keyQ_cons,
        ih (fun r hr => ha r (List.mem_cons_of_mem _ hr))]
      ring

theorem keyQ_eq_ql (a : MonthlyAmounts) (m : String)
    (hnd : (monthKeys a).Nodup) (ha : numVals a) : keyQ a m = ql a m := by
  induction a with
  | nil => rfl
  | cons p t ih =>
    rw [keyQ_cons]
    have hql : ql (p :: t) m
        = if p.1 = m then qOf p.2 else ql t m := by
      rw [ql, ql]
      show qOf ((if p.1 = m then some p.2 else alookup t m).getD (JSNum.num 0)) = _
      by_cases hm : p.1 = m
      · rw [if_pos hm, if_pos hm]
        rfl
      · rw [if_neg hm, if_neg hm]
    rw [hql]
    have hnd' : (monthKeys t).Nodup := (List.nodup_cons.mp hnd).2
    have hpt : p.1 ∉ monthKeys t := (List.nodup_cons.mp hnd).1
    by_cases hm : p.1 = m
    · rw [if_pos hm, if_pos hm]
      have : keyQ t m = 0 := keyQ_eq_zero_of_not_mem t m (by rw [← hm]; exact hpt)
      rw [this]
      ring
    · rw [if_neg hm, if_neg hm, ih hnd' (fun r hr => ha r (List.mem_cons_of_mem _ hr))]
      ring

theorem histFold_cons (a : MonthlyAmounts) (p : String × JSNum)
    (s : List (String × JSNum)) :
    histFold a (p :: s) = histFold (bump a p.1 p.2) s := rfl

theorem histFold_append (a : MonthlyAmounts) (s t : List (String × JSNum)) :
    histFold a (s ++ t) = histFold (histFold a s) t := by
  rw [histFold, List.foldl_append]
  rfl

theorem histFold_numVals (s : List (String × JSNum)) :
    ∀ a : MonthlyAmounts, numVals a → numVals s → numVals (histFold a s) := by
  induction s with
  | nil => intro a ha _; exact ha
  | cons p t ih =>
    intro a ha hs
    rw [histFold_cons]
    exact ih _ (bump_numVals a p.1 p.2 ha (hs p (List.mem_cons_self _ _)))
      (fun r hr => hs r (List.mem_cons_of_mem _ hr))

theorem ql_histFold (s : List (String × JSNum)) :
    ∀ (a : MonthlyAmounts) (m : String), numVals a → numVals s →
      ql (histFold a s) m = ql a m + keyQ s m := by
  induction s with
  | nil => intro a m _ _; show ql a m = ql a m + keyQ [] m; rw [keyQ]; simp
  | cons p t ih =>
    intro a m ha hs
    rw [histFold_cons,
      ih _ m (bump_numVals a p.1 p.2 ha (hs p (List.mem_cons_self _ _)))
        (fun r hr => hs r (List.mem_cons_of_mem _ hr)),
      ql_bump a p.1 p.2 m ha (hs p (List.mem_cons_self _ _)), keyQ_cons]
    ring

theorem mem_keys_bump (a : MonthlyAmounts) (k : String) (v : JSNum) (m : String) :
    m ∈ monthKeys (bump a k v) ↔ m ∈ monthKeys a ∨ m = k := by
  rw [monthKeys_bump]
  by_cases h : k ∈ monthKeys a
  · rw [if_pos h]
    constructor
    · exact Or.inl
    · rintro (h1 | rfl)
      · exact h1
      · exact h
  · rw [if_neg h]
    rw [List.mem_append, List.mem_singleton]

theorem mem_keys_histFold (s : List (String × JSNum)) :
    ∀ (a : MonthlyAmounts) (m : String),
      m ∈ monthKeys (histFold a s) ↔ m ∈ monthKeys a ∨ m ∈ s.map Prod.fst := by
  induction s with
  | nil => intro a m; simp [histFold]
  | cons p t ih =>
    intro a m
    rw [histFold_cons, ih, mem_keys_bump, List.map_cons, List.mem_cons]
    tauto

theorem nodup_keys_histFold (s : List (String × JSNum)) :
    ∀ a : MonthlyAmounts, (monthKeys a).Nodup →
      (monthKeys (histFold a s)).Nodup := by
  induction s with
  | nil => intro a h; exact h
  | cons p t ih =>
    intro a h
    rw [histFold_cons]
    refine ih _ ?_
    rw [monthKeys_bump]
    by_cases hk : p.1 ∈ monthKeys a
    · rw [if_pos hk]; exact h
    · rw [if_neg hk]
      refine List.Nodup.append h (List.nodup_singleton _) ?_
      intro x hx hx'
      rw [List.mem_singleton] at hx'
      subst hx'
      exact hk hx

/-! ## Summing a weight over the groups of `groupByKey` -/

theorem sum_map_add {α : Type _} (K : List α) (A B : α → ℚ) :
    (K.map (fun k => A k + B k)).sum = (K.map A).sum + (K.map B).sum := by
  induction K with
  | nil => simp
  | cons k K ih => simp [ih]; ring

theorem sum_if_single (K : List String) (x : String) (c : ℚ)
    (hnd : K.Nodup) (hx : x ∈ K) :
    (K.map (fun k => if x = k then c else 0)).sum = c := by
  induction K with
  | nil => exact absurd hx (by simp)
  | cons k K ih =>
    rw [List.map_cons, List.sum_cons]
    rcases List.mem_cons.mp hx with rfl | hx'
    · rw [if_pos rfl]
      have hxK : x ∉ K := (List.nodup_cons.mp hnd).1
      have : (K.map (fun k => if x = k then c else 0)).sum
          = (K.map (fun _ => (0 : ℚ))).sum := by
        refine congrArg List.sum (List.map_congr_left ?_)
        intro k hk
        rw [if_neg (fun h => hxK (by rw [h]; exact hk))]
      rw [this]
      simp
    · have hxk : ¬ x = k := fun h => (List.nodup_cons.mp hnd).1 (by rw [← h]; exact hx')
      rw [if_neg hxk, ih (List.nodup_cons.mp hnd).2 hx']
      ring

theorem sum_over_keys {α : Type _} (f : α → String) (w : α → ℚ) (K : List String)
    (hnd : K.Nodup) :
    ∀ l : List α, (∀ a ∈ l, f a ∈ K) →
      (K.map (fun k => ((l.filter (fun a => f a = k)).map w).sum)).sum
        = (l.map w).sum := by
  intro l
  induction l with
  | nil =>
    intro _
    simp
  | cons a l ih =>
    intro hcov
    have hterm : ∀ k, (((a :: l).filter (fun x => f x = k)).map w).sum
        = (if f a = k then w a else 0)
          + ((l.filter (fun x => f x = k)).map w).sum := by
      intro k
      by_cases h : f a = k
      · simp [List.filter_cons, h]
      · simp [List.filter_cons, h]
    have hmap : K.map (fun k => (((a :: l).filter (fun x => f x = k)).map w).sum)
        = K.map (fun k => (if f a = k then w a else 0)
          + ((l.filter (fun x => f x = k)).map w).sum) :=
      List.map_congr_left (fun k _ => hterm k)
    rw [hmap, sum_map_add,
      sum_if_single K (f a) (w a) hnd (hcov a (List.mem_cons_self _ _)),
      ih (fun x hx => hcov x (List.mem_cons_of_mem _ hx)), List.map_cons,
      List.sum_cons]

theorem netQm_eq_weight (l : List MappedEntry) (m : String) :
    netQm l m = (l.map (fun e => if monthOf e = m then qOf e.netAmount else 0)).sum := by
  induction l with
  | nil => rfl
  | cons e l ih =>
    rw [netQm] at ih ⊢
    by_cases h : monthOf e = m
    · simp [List.filter_cons, h, ih]
    · simp [List.filter_cons, h, ih]

theorem netQm_groupByKey (f : MappedEntry → String) (l : List MappedEntry)
    (m : String) :
    ((groupByKey f l).map (fun g => netQm g.2 m)).sum = netQm l m := by
  have h1 : (groupByKey f l).map (fun g => netQm g.2 m)
      = (uniqFirst (l.map f)).map
          (fun k => netQm (l.filter (fun a => f a = k)) m) := by
    rw [groupByKey, List.map_map]
    rfl
  rw [h1]
  have h2 : (uniqFirst (l.map f)).map
        (fun k => netQm (l.filter (fun a => f a = k)) m)
      = (uniqFirst (l.map f)).map
          (fun k => ((l.filter (fun a => f a = k)).map
            (fun e => if monthOf e = m then qOf e.netAmount else 0)).sum) :=
    List.map_congr_left (fun k _ => netQm_eq_weight _ m)
  rw [h2, sum_over_keys f _ _ (uniqFirst_nodup _) l
    (fun a ha => (mem_uniqFirst _ _).mpr (List.mem_map_of_mem f ha)),
    ← netQm_eq_weight]

theorem exists_group_mem {α : Type _} (f : α → String) (l : List α) (e : α)
    (he : e ∈ l) : ∃ g ∈ groupByKey f l, e ∈ g.2 := by
  refine ⟨(f e, l.filter (fun a => f a = f e)), ?_, ?_⟩
  · exact mem_groupByKey.mpr
      ⟨(mem_uniqFirst _ _).mpr (List.mem_map_of_mem f he), rfl⟩
  · exact List.mem_filter.mpr ⟨he, by simp⟩

theorem mem_of_mem_group {α : Type _} {f : α → String} {l : List α}
    {g : String × List α} (hg : g ∈ groupByKey f l) :
    ∀ e ∈ g.2, e ∈ l := by
  intro e he
  rw [(mem_groupByKey.mp hg).2] at he
  exact List.mem_of_mem_filter he

/-! ## The `conceptAccountDetails` fold -/

theorem updEntry_compteNum (e : MappedEntry) (d : AccountDetail) :
    (updEntry e d).compteNum = d.compteNum := by
  rw [updEntry]
  split
  · rfl
  · rfl

theorem updEntry_monthly (e : MappedEntry) (d : AccountDetail) :
    (updEntry e d).monthlyAmounts =
      if extractMonthKey e.EcritureDate = "" then d.monthlyAmounts
      else bump d.monthlyAmounts (extractMonthKey e.EcritureDate) e.netAmount := by
  rw [updEntry]
  split
  · rfl
  · rfl

theorem addEntryToDetails_nil (e : MappedEntry) :
    addEntryToDetails [] e = [updEntry e (newDetail e)] := rfl

theorem addEntryToDetails_cons (e : MappedEntry) (d : AccountDetail)
    (t : List AccountDetail) :
    addEntryToDetails (d :: t) e =
      if d.compteNum = e.CompteNum then updEntry e d :: t
      else d :: addEntryToDetails t e := rfl

theorem nodup_keys_bump (a : MonthlyAmounts) (k : String) (v : JSNum)
    (h : (monthKeys a).Nodup) : (monthKeys (bump a k v)).Nodup := by
  rw [monthKeys_bump]
  by_cases hk : k ∈ monthKeys a
  · rw [if_pos hk]; exact h
  · rw [if_neg hk]
    refine List.Nodup.append h (List.nodup_singleton _) ?_
    intro x hx hx'
    rw [List.mem_singleton] at hx'
    subst hx'
    exact hk hx

theorem netQm_append (A B : List MappedEntry) (m : String) :
    netQm (A ++ B) m = netQm A m + netQm B m := by
  rw [netQm, netQm, netQm, List.filter_append, List.map_append, List.sum_append]

theorem netQm_single (e : MappedEntry) (m : String) :
    netQm [e] m = if monthOf e = m then qOf e.netAmount else 0 := by
  by_cases h : monthOf e = m
  · simp [netQm, h]
  · simp [netQm, h]

theorem netQm_nil_of_no_mem (P : List MappedEntry) (c m : String)
    (h : ∀ e ∈ P, ¬ e.CompteNum = c) :
    netQm (P.filter (fun e => e.CompteNum = c)) m = 0 := by
  have : P.filter (fun e => e.CompteNum = c) = [] := by
    rw [List.filter_eq_nil]
    intro e he
    simpa using h e he
  rw [this]
  rfl

theorem detailProp_new (e : MappedEntry) (P : List MappedEntry)
    (hP : ∀ p ∈ P, ¬ p.CompteNum = e.CompteNum)
    (he : e.netAmount ≠ JSNum.nan) :
    detailProp (updEntry e (newDetail e)) (P ++ [e]) := by
  have hcn : (updEntry e (newDetail e)).compteNum = e.CompteNum :=
    updEntry_compteNum e (newDetail e)
  have hfe : (P ++ [e]).filter (fun p => p.CompteNum = e.CompteNum) = [e] := by
    rw [List.filter_append]
    have h1 : P.filter (fun p => p.CompteNum = e.CompteNum) = [] := by
      rw [List.filter_eq_nil]
      intro p hp
      simpa using hP p hp
    rw [h1]
    simp
  by_cases hmk : extractMonthKey e.EcritureDate = ""
  · have hma : (updEntry e (newDetail e)).monthlyAmounts = [] := by
      rw [updEntry_monthly, if_pos hmk]
      rfl
    refine ⟨?_, ?_, ?_, ?_⟩
    · rw [hma]; intro p hp; exact absurd hp (by simp)
    · rw [hma]; exact List.nodup_nil
    · intro m
      rw [hma]
      constructor
      · intro hm; exact absurd hm (by simp [monthKeys])
      · rintro ⟨hm, p, hp, hpc, hpm⟩
        rcases List.mem_append.mp hp with hp1 | hp2
        · exact absurd (by rw [hcn] at hpc; exact hpc) (hP p hp1)
        · rw [List.mem_singleton] at hp2
          subst hp2
          exact absurd (by rw [← hpm]; exact hmk) hm
    · intro m hm
      rw [hma]
      have : ql [] m = 0 := rfl
      rw [this, hcn, hfe, netQm_single]
      rw [if_neg (fun hc => hm (by rw [← hc]; exact hmk))]
  · have hma : (updEntry e (newDetail e)).monthlyAmounts =
        bump [] (extractMonthKey e.EcritureDate) e.netAmount := by
      rw [updEntry_monthly, if_neg hmk]
      rfl
    have hb : bump ([] : MonthlyAmounts) (extractMonthKey e.EcritureDate) e.netAmount
        = [(extractMonthKey e.EcritureDate, JSNum.add (JSNum.num 0) e.netAmount)] := rfl
    have hv : JSNum.add (JSNum.num 0) e.netAmount ≠ JSNum.nan := by
      cases hne : e.netAmount with
      | nan => exact absurd hne he
      | num q => simp [JSNum.add]
    refine ⟨?_, ?_, ?_, ?_⟩
    · rw [hma, hb]
      intro p hp
      rw [List.mem_singleton] at hp
      subst hp
      exact hv
    · rw [hma, hb]
      exact List.nodup_singleton _
    · intro m
      rw [hma, hb]
      show m ∈ [extractMonthKey e.EcritureDate] ↔ _
      rw [List.mem_singleton]
      constructor
      · intro hm
        subst hm
        exact ⟨hmk, e, List.mem_append.mpr (Or.inr (List.mem_singleton.mpr rfl)),
          by rw [hcn], rfl⟩
      · rintro ⟨hm, p, hp, hpc, hpm⟩
        rcases List.mem_append.mp hp with hp1 | hp2
        · exact absurd (by rw [hcn] at hpc; exact hpc) (hP p hp1)
        · rw [List.mem_singleton] at hp2
          subst hp2
          rw [← hpm]
          rfl
    · intro m hm
      rw [hma, hb, hcn, hfe, netQm_single]
      show qOf ((if extractMonthKey e.EcritureDate = m
        then some (JSNum.add (JSNum.num 0) e.netAmount)
        else alookup [] m).getD (JSNum.num 0))
        = if extractMonthKey e.EcritureDate = m then qOf e.netAmount else 0
      by_cases hem : extractMonthKey e.EcritureDate = m
      · rw [if_pos hem, if_pos hem]
        cases hne : e.netAmount with
        | nan => exact absurd hne he
        | num q => show (0 : ℚ) + q = q; ring
      · rw [if_neg hem, if_neg hem]
        rfl

theorem detailProp_skip (e : MappedEntry) (d : AccountDetail)
    (P : List MappedEntry) (hd : detailProp d P)
    (hne : ¬ d.compteNum = e.CompteNum) :
    detailProp d (P ++ [e]) := by
  rcases hd with ⟨h1, h2, h3, h4⟩
  have hfe : (P ++ [e]).filter (fun p => p.CompteNum = d.compteNum)
      = P.filter (fun p => p.CompteNum = d.compteNum) := by
    rw [List.filter_append]
    have : [e].filter (fun p => p.CompteNum = d.compteNum) = [] := by
      rw [List.filter_eq_nil]
      intro p hp
      rw [List.mem_singleton] at hp
      subst hp
      simpa using fun hc => hne (by rw [hc])
    rw [this, List.append_nil]
  refine ⟨h1, h2, ?_, ?_⟩
  · intro m
    rw [h3 m]
    constructor
    · rintro ⟨hm, p, hp, hpc, hpm⟩
      exact ⟨hm, p, List.mem_append.mpr (Or.inl hp), hpc, hpm⟩
    · rintro ⟨hm, p, hp, hpc, hpm⟩
      rcases List.mem_append.mp hp with hp1 | hp2
      · exact ⟨hm, p, hp1, hpc, hpm⟩
      · rw [List.mem_singleton] at hp2
        subst hp2
        exact absurd hpc (fun hc => hne (by rw [← hc]))
  · intro m hm
    rw [hfe]
    exact h4 m hm

theorem detailProp_upd (e : MappedEntry) (d : AccountDetail)
    (P : List MappedEntry) (hd : detailProp d P)
    (heq : d.compteNum = e.CompteNum) (he : e.netAmount ≠ JSNum.nan) :
    detailProp (updEntry e d) (P ++ [e]) := by
  rcases hd with ⟨h1, h2, h3, h4⟩
  have hcn : (updEntry e d).compteNum = d.compteNum := updEntry_compteNum e d
  have hfe : (P ++ [e]).filter (fun p => p.CompteNum = d.compteNum)
      = P.filter (fun p => p.CompteNum = d.compteNum) ++ [e] := by
    rw [List.filter_append]
    have : [e].filter (fun p => p.CompteNum = d.compteNum) = [e] := by
      simp [heq]
    rw [this]
  by_cases hmk : extractMonthKey e.EcritureDate = ""
  · have hma : (updEntry e d).monthlyAmounts = d.monthlyAmounts := by
      rw [updEntry_monthly, if_pos hmk]
    refine ⟨?_, ?_, ?_, ?_⟩
    · rw [hma]; exact h1
    · rw [hma]; exact h2
    · intro m
      rw [hma, hcn, h3 m]
      constructor
      · rintro ⟨hm, p, hp, hpc, hpm⟩
        exact ⟨hm, p, List.mem_append.mpr (Or.inl hp), hpc, hpm⟩
      · rintro ⟨hm, p, hp, hpc, hpm⟩
        rcases List.mem_append.mp hp with hp1 | hp2
        · exact ⟨hm, p, hp1, hpc, hpm⟩
        · rw [List.mem_singleton] at hp2
          subst hp2
          exact absurd (by rw [← hpm]; exact hmk) hm
    · intro m hm
      rw [hma, hcn, hfe, netQm_append, netQm_single,
        if_neg (fun hc => hm (by rw [← hc]; exact hmk)), h4 m hm]
      ring
  · have hma : (updEntry e d).monthlyAmounts =
        bump d.monthlyAmounts (extractMonthKey e.EcritureDate) e.netAmount := by
      rw [updEntry_monthly, if_neg hmk]
    refine ⟨?_, ?_, ?_, ?_⟩
    · rw [hma]; exact bump_numVals _ _ _ h1 he
    · rw [hma]; exact nodup_keys_bump _ _ _ h2
    · intro m
      rw [hma, mem_keys_bump, h3 m, hcn]
      constructor
      · rintro (⟨hm, p, hp, hpc, hpm⟩ | rfl)
        · exact ⟨hm, p, List.mem_append.mpr (Or.inl hp), hpc, hpm⟩
        · exact ⟨hmk, e, List.mem_append.mpr (Or.inr (List.mem_singleton.mpr rfl)),
            heq.symm, rfl⟩
      · rintro ⟨hm, p, hp, hpc, hpm⟩
        rcases List.mem_append.mp hp with hp1 | hp2
        · exact Or.inl ⟨hm, p, hp1, hpc, hpm⟩
        · rw [List.mem_singleton] at hp2
          subst hp2
          exact Or.inr (by rw [← hpm]; rfl)
    · intro m hm
      rw [hma, ql_bump _ _ _ _ h1 he, hcn, hfe, netQm_append, netQm_single,
        h4 m hm]
      have : (if extractMonthKey e.EcritureDate = m then qOf e.netAmount else 0)
          = if monthOf e = m then qOf e.netAmount else 0 := rfl
      rw [this]

theorem newDetail_compteNum (e : MappedEntry) :
    (newDetail e).compteNum = e.CompteNum := rfl

theorem addEntry_accounts (e : MappedEntry) :
    ∀ ds : List AccountDetail,
      (addEntryToDetails ds e).map AccountDetail.compteNum
        = if e.CompteNum ∈ ds.map AccountDetail.compteNum
          then ds.map AccountDetail.compteNum
          else ds.map AccountDetail.compteNum ++ [e.CompteNum] := by
  intro ds
  induction ds with
  | nil =>
    rw [addEntryToDetails_nil]
    simp [updEntry_compteNum, newDetail_compteNum]
  | cons d t ih =>
    rw [addEntryToDetails_cons]
    by_cases h : d.compteNum = e.CompteNum
    · rw [if_pos h]
      have hmem : e.CompteNum ∈ (d :: t).map AccountDetail.compteNum := by
        rw [List.map_cons]
        exact List.mem_cons.mpr (Or.inl h.symm)
      rw [if_pos hmem, List.map_cons, List.map_cons, updEntry_compteNum]
    · rw [if_neg h, List.map_cons, ih, List.map_cons]
      by_cases h2 : e.CompteNum ∈ t.map AccountDetail.compteNum
      · rw [if_pos h2, if_pos (List.mem_cons.mpr (Or.inr h2))]
      · have h3 : e.CompteNum ∉ (d.compteNum :: t.map AccountDetail.compteNum) := by
          intro hc
          rcases List.mem_cons.mp hc with hc1 | hc2
          · exact h hc1.symm
          · exact h2 hc2
        rw [if_neg h2, if_neg h3]
        rfl

theorem addEntry_elems (e : MappedEntry) :
    ∀ ds : List AccountDetail, (ds.map AccountDetail.compteNum).Nodup →
      ∀ d' ∈ addEntryToDetails ds e,
        (d' ∈ ds ∧ ¬ d'.compteNum = e.CompteNum) ∨
        (∃ d ∈ ds, d.compteNum = e.CompteNum ∧ d' = updEntry e d) ∨
        (d' = updEntry e (newDetail e)
          ∧ e.CompteNum ∉ ds.map AccountDetail.compteNum) := by
  intro ds
  induction ds with
  | nil =>
    intro _ d' hd'
    rw [addEntryToDetails_nil, List.mem_singleton] at hd'
    exact Or.inr (Or.inr ⟨hd', by simp⟩)
  | cons d t ih =>
    intro hnd d' hd'
    rw [addEntryToDetails_cons] at hd'
    by_cases h : d.compteNum = e.CompteNum
    · rw [if_pos h] at hd'
      rcases List.mem_cons.mp hd' with rfl | hd2
      · exact Or.inr (Or.inl ⟨d, List.mem_cons_self _ _, h, rfl⟩)
      · refine Or.inl ⟨List.mem_cons_of_mem _ hd2, ?_⟩
        intro hc
        have : d'.compteNum ∈ t.map AccountDetail.compteNum :=
          List.mem_map_of_mem _ hd2
        rw [hc, ← h] at this
        exact (List.nodup_cons.mp (by rw [List.map_cons] at hnd; exact hnd)).1 this
    · rw [if_neg h] at hd'
      rcases List.mem_cons.mp hd' with rfl | hd2
      · exact Or.inl ⟨List.mem_cons_self _ _, fun hc => h hc⟩
      · have hnd' : (t.map AccountDetail.compteNum).Nodup :=
          (List.nodup_cons.mp (by rw [List.map_cons] at hnd; exact hnd)).2
        rcases ih hnd' d' hd2 with ⟨h1, h2⟩ | ⟨d0, hd0, hc0, hu⟩ | ⟨hu, hni⟩
        · exact Or.inl ⟨List.mem_cons_of_mem _ h1, h2⟩
        · exact Or.inr (Or.inl ⟨d0, List.mem_cons_of_mem _ hd0, hc0, hu⟩)
        · refine Or.inr (Or.inr ⟨hu, ?_⟩)
          rw [List.map_cons]
          intro hc
          rcases List.mem_cons.mp hc with hc1 | hc2
          · exact h hc1.symm
          · exact hni hc2

theorem detailsInv_nil : detailsInv [] [] := by
  refine ⟨List.nodup_nil, ?_, ?_⟩
  · intro e he
    exact absurd he (by simp)
  · intro d hd
    exact absurd hd (by simp)

theorem detailsInv_step (ds : List AccountDetail) (P : List MappedEntry)
    (e : MappedEntry) (hinv : detailsInv ds P) (he : e.netAmount ≠ JSNum.nan) :
    detailsInv (addEntryToDetails ds e) (P ++ [e]) := by
  rcases hinv with ⟨hnd, hcov, hprops⟩
  refine ⟨?_, ?_, ?_⟩
  · rw [addEntry_accounts]
    by_cases h : e.CompteNum ∈ ds.map AccountDetail.compteNum
    · rw [if_pos h]; exact hnd
    · rw [if_neg h]
      refine List.Nodup.append hnd (List.nodup_singleton _) ?_
      intro x hx hx'
      rw [List.mem_singleton] at hx'
      subst hx'
      exact h hx
  · intro p hp
    rw [addEntry_accounts]
    by_cases h : e.CompteNum ∈ ds.map AccountDetail.compteNum
    · rw [if_pos h]
      rcases List.mem_append.mp hp with hp1 | hp2
      · exact hcov p hp1
      · rw [List.mem_singleton] at hp2
        subst hp2
        exact h
    · rw [if_neg h]
      rcases List.mem_append.mp hp with hp1 | hp2
      · exact List.mem_append.mpr (Or.inl (hcov p hp1))
      · rw [List.mem_singleton] at hp2
        subst hp2
        exact List.mem_append.mpr (Or.inr (List.mem_singleton.mpr rfl))
  · intro d' hd'
    rcases addEntry_elems e ds hnd d' hd' with ⟨h1, h2⟩ | ⟨d0, hd0, hc0, rfl⟩ |
      ⟨rfl, hni⟩
    · exact detailProp_skip e d' P (hprops d' h1) h2
    · exact detailProp_upd e d0 P (hprops d0 hd0) hc0 he
    · refine detailProp_new e P ?_ he
      intro p hp hpc
      exact hni (by rw [← hpc]; exact hcov p hp)

theorem detailsInv_fold (l : List MappedEntry) :
    ∀ (ds : List AccountDetail) (P : List MappedEntry),
      detailsInv ds P → (∀ e ∈ l, e.netAmount ≠ JSNum.nan) →
      detailsInv (l.foldl addEntryToDetails ds) (P ++ l) := by
  induction l with
  | nil =>
    intro ds P hinv _
    rw [List.foldl_nil, List.append_nil]
    exact hinv
  | cons a t ih =>
    intro ds P hinv hw
    rw [List.foldl_cons]
    have step := detailsInv_step ds P a hinv (hw a (List.mem_cons_self _ _))
    have := ih (addEntryToDetails ds a) (P ++ [a]) step
      (fun e heme => hw e (List.mem_cons_of_mem _ heme))
    rw [List.append_assoc] at this
    simpa using this

theorem detailsInv_of_fold (l : List MappedEntry)
    (hw : ∀ e ∈ l, e.netAmount ≠ JSNum.nan) :
    detailsInv (l.foldl addEntryToDetails []) l := by
  have := detailsInv_fold l [] [] detailsInv_nil hw
  simpa using this

/-! ## Stream facts for the concept, sub-category and category streams -/

theorem mem_detailStream (ds : List AccountDetail) (p : String × JSNum) :
    p ∈ detailStream ds ↔ ∃ d ∈ ds, p ∈ d.monthlyAmounts := by
  rw [detailStream, List.mem_join]
  constructor
  · rintro ⟨s, hs, hp⟩
    rcases List.mem_map.mp hs with ⟨d, hd, rfl⟩
    exact ⟨d, hd, hp⟩
  · rintro ⟨d, hd, hp⟩
    exact ⟨d.monthlyAmounts, List.mem_map_of_mem _ hd, hp⟩

theorem mem_fst_detailStream (ds : List AccountDetail) (m : String) :
    m ∈ (detailStream ds).map Prod.fst ↔
      ∃ d ∈ ds, m ∈ monthKeys d.monthlyAmounts := by
  rw [List.mem_map]
  constructor
  · rintro ⟨p, hp, rfl⟩
    rcases (mem_detailStream ds p).mp hp with ⟨d, hd, hpd⟩
    exact ⟨d, hd, List.mem_map_of_mem _ hpd⟩
  · rintro ⟨d, hd, hm⟩
    rcases List.mem_map.mp hm with ⟨p, hp, rfl⟩
    exact ⟨p, (mem_detailStream ds p).mpr ⟨d, hd, hp⟩, rfl⟩

theorem keyQ_detailStream (ds : List AccountDetail) (m : String) :
    keyQ (detailStream ds) m
      = (ds.map (fun d => keyQ d.monthlyAmounts m)).sum := by
  rw [detailStream, keyQ_join, List.map_map]
  rfl

theorem detailStream_facts (ds : List AccountDetail) (l : List MappedEntry)
    (hinv : detailsInv ds l) : streamFacts (detailStream ds) l := by
  rcases hinv with ⟨hnd, hcov, hprops⟩
  refine ⟨?_, ?_, ?_⟩
  · intro p hp
    rcases (mem_detailStream _ p).mp hp with ⟨d, hd, hpd⟩
    exact (hprops d hd).1 p hpd
  · intro m hm
    rw [keyQ_detailStream]
    have h1 : ds.map (fun d => keyQ d.monthlyAmounts m)
        = ds.map (fun d =>
          ((l.filter (fun e => e.CompteNum = d.compteNum)).map
            (fun e => if monthOf e = m then qOf e.netAmount else 0)).sum) := by
      refine List.map_congr_left ?_
      intro d hd
      rcases hprops d hd with ⟨hv, hknd, _, hql⟩
      rw [keyQ_eq_ql _ _ hknd hv, hql m hm, netQm_eq_weight]
    have h2 : ds.map (fun d =>
          ((l.filter (fun e => e.CompteNum = d.compteNum)).map
            (fun e => if monthOf e = m then qOf e.netAmount else 0)).sum)
        = (ds.map AccountDetail.compteNum).map (fun k =>
          ((l.filter (fun e => e.CompteNum = k)).map
            (fun e => if monthOf e = m then qOf e.netAmount else 0)).sum) := by
      rw [List.map_map]
      rfl
    rw [h1, h2,
      sum_over_keys (fun e => e.CompteNum) _ _ hnd l hcov, ← netQm_eq_weight]
  · intro m
    rw [mem_fst_detailStream]
    constructor
    · rintro ⟨d, hd, hm⟩
      rcases ((hprops d hd).2.2.1 m).mp hm with ⟨hm0, e, he, _, hem⟩
      exact ⟨hm0, e, he, hem⟩
    · rintro ⟨hm0, e, he, hem⟩
      rcases List.mem_map.mp (hcov e he) with ⟨d, hd, heq⟩
      refine ⟨d, hd, ((hprops d hd).2.2.1 m).mpr ⟨hm0, e, he, ?_, hem⟩⟩
      rw [heq]

theorem conceptStream_facts (l : List MappedEntry)
    (hw : ∀ e ∈ l, e.netAmount ≠ JSNum.nan) :
    streamFacts (conceptStream l) l :=
  detailStream_facts _ l (detailsInv_of_fold l hw)

theorem groupJoin_facts (f : MappedEntry → String)
    (T : List MappedEntry → List (String × JSNum)) (l : List MappedEntry)
    (hT : ∀ g ∈ groupByKey f l, streamFacts (T g.2) g.2) :
    streamFacts (((groupByKey f l).map (fun g => T g.2)).join) l := by
  refine ⟨?_, ?_, ?_⟩
  · intro p hp
    rcases List.mem_join.mp hp with ⟨s, hs, hps⟩
    rcases List.mem_map.mp hs with ⟨g, hg, rfl⟩
    exact (hT g hg).1 p hps
  · intro m hm
    rw [keyQ_join, List.map_map]
    have h1 : (groupByKey f l).map ((fun s => keyQ s m) ∘ (fun g => T g.2))
        = (groupByKey f l).map (fun g => netQm g.2 m) := by
      refine List.map_congr_left ?_
      intro g hg
      exact (hT g hg).2.1 m hm
    rw [h1, netQm_groupByKey]
  · intro m
    constructor
    · intro hm
      rcases List.mem_map.mp hm with ⟨p, hp, rfl⟩
      rcases List.mem_join.mp hp with ⟨s, hs, hps⟩
      rcases List.mem_map.mp hs with ⟨g, hg, rfl⟩
      have : p.1 ∈ (T g.2).map Prod.fst := List.mem_map_of_mem _ hps
      rcases ((hT g hg).2.2 p.1).mp this with ⟨hm0, e, he, hem⟩
      exact ⟨hm0, e, mem_of_mem_group hg e he, hem⟩
    · rintro ⟨hm0, e, he, hem⟩
      rcases exists_group_mem f l e he with ⟨g, hg, heg⟩
      have : m ∈ (T g.2).map Prod.fst :=
        ((hT g hg).2.2 m).mpr ⟨hm0, e, heg, hem⟩
      rcases List.mem_map.mp this with ⟨p, hp, rfl⟩
      refine List.mem_map_of_mem _ ?_
      exact List.mem_join.mpr ⟨T g.2, List.mem_map_of_mem _ hg, hp⟩

theorem subStream_facts (l : List MappedEntry)
    (hw : ∀ e ∈ l, e.netAmount ≠ JSNum.nan) :
    streamFacts (subStream l) l := by
  have := groupJoin_facts (fun e => e.mapping.concept) conceptStream l ?_
  · exact this
  · intro g hg
    exact conceptStream_facts g.2
      (fun e he => hw e (mem_of_mem_group hg e he))

theorem catStream_facts (l : List MappedEntry)
    (hw : ∀ e ∈ l, e.netAmount ≠ JSNum.nan) :
    streamFacts (catStream l) l := by
  have := groupJoin_facts (fun e => e.mapping.sousCategorie) subStream l ?_
  · exact this
  · intro g hg
    exact subStream_facts g.2
      (fun e he => hw e (mem_of_mem_group hg e he))

/-! ## Characterizing `calculateCumulativeAmounts` -/

theorem perm_insertIntoSorted (le : α → α → Bool) (x : α) :
    ∀ l : List α, List.Perm (insertIntoSorted le x l) (x :: l) := by
  intro l
  induction l with
  | nil => exact List.Perm.refl _
  | cons y ys ih =>
    rw [insertIntoSorted]
    by_cases h : le x y
    · rw [if_pos h]
    · rw [if_neg h]
      exact (List.Perm.cons y ih).trans (List.Perm.swap x y ys)

theorem perm_insertionSortBy (le : α → α → Bool) :
    ∀ l : List α, List.Perm (insertionSortBy le l) l := by
  intro l
  induction l with
  | nil => exact List.Perm.refl _
  | cons x xs ih =>
    rw [insertionSortBy]
    exact (perm_insertIntoSorted le x _).trans (List.Perm.cons x ih)

theorem objSet_append (a : MonthlyAmounts) (k : String) (v : JSNum)
    (h : k ∉ monthKeys a) : objSet a k v = a ++ [(k, v)] := by
  induction a with
  | nil => rfl
  | cons p t ih =>
    have h1 : ¬ p.1 = k := by
      intro hk
      exact h (by rw [← hk]; exact List.mem_cons_self _ _)
    have hobj : objSet (p :: t) k v = (p.1, p.2) :: objSet t k v := by
      show (if p.1 = k then (p.1, v) :: t else (p.1, p.2) :: objSet t k v) = _
      rw [if_neg h1]
    rw [hobj, ih (fun hm => h (List.mem_cons_of_mem _ hm))]
    rfl

theorem cumTail_cons (R : MonthlyAmounts) (v : JSNum) (k : String)
    (ks : List String) :
    cumTail R v (k :: ks)
      = (k, JSNum.add v ((alookup R k).getD JSNum.nan))
        :: cumTail R (JSNum.add v ((alookup R k).getD JSNum.nan)) ks := rfl

theorem monthKeys_cumTail (R : MonthlyAmounts) :
    ∀ (K : List String) (v : JSNum), monthKeys (cumTail R v K) = K := by
  intro K
  induction K with
  | nil => intro v; rfl
  | cons k ks ih =>
    intro v
    rw [cumTail_cons]
    show k :: monthKeys (cumTail R _ ks) = _
    rw [ih]

theorem cumulFold_eq (R : MonthlyAmounts) :
    ∀ (K : List String) (acc : MonthlyAmounts) (v : JSNum),
      K.Nodup → (∀ k ∈ K, k ∉ monthKeys acc) →
      (K.foldl (fun ac month =>
        let rt := JSNum.add ac.2 ((alookup R month).getD JSNum.nan)
        (objSet ac.1 month rt, rt)) (acc, v)).1 = acc ++ cumTail R v K := by
  intro K
  induction K with
  | nil =>
    intro acc v _ _
    rw [List.foldl_nil]
    show acc = acc ++ []
    rw [List.append_nil]
  | cons k ks ih =>
    intro acc v hnd hdis
    rw [List.foldl_cons]
    show (ks.foldl _
      (objSet acc k (JSNum.add v ((alookup R k).getD JSNum.nan)),
       JSNum.add v ((alookup R k).getD JSNum.nan))).1 = _
    rw [objSet_append acc k _ (hdis k (List.mem_cons_self _ _))]
    rw [ih (acc ++ [(k, JSNum.add v ((alookup R k).getD JSNum.nan))]) _
      (List.nodup_cons.mp hnd).2 ?_]
    · rw [cumTail_cons, List.append_assoc]
      rfl
    · intro k' hk' hmem
      have : monthKeys (acc ++ [(k, JSNum.add v ((alookup R k).getD JSNum.nan))])
          = monthKeys acc ++ [k] := by
        show (acc ++ _).map Prod.fst = _
        rw [List.map_append]
        rfl
      rw [this] at hmem
      rcases List.mem_append.mp hmem with h1 | h2
      · exact hdis k' (List.mem_cons_of_mem _ hk') h1
      · rw [List.mem_singleton] at h2
        subst h2
        exact (List.nodup_cons.mp hnd).1 hk'

theorem calcCumul_eq (R : MonthlyAmounts) (hnd : (monthKeys R).Nodup) :
    calculateCumulativeAmounts R
      = cumTail R (JSNum.num 0) (insertionSortBy strLe (monthKeys R)) := by
  have hK : (insertionSortBy strLe (monthKeys R)).Nodup :=
    ((perm_insertionSortBy strLe (monthKeys R)).nodup_iff).mpr hnd
  have := cumulFold_eq R (insertionSortBy strLe (monthKeys R)) [] (JSNum.num 0)
    hK (fun k _ hk => absurd hk (by simp [monthKeys]))
  rw [calculateCumulativeAmounts]
  rw [show insertionSortBy strLe (List.map Prod.fst R)
    = insertionSortBy strLe (monthKeys R) from rfl]
  rw [this]
  rfl

theorem alookup_cumTail (R : MonthlyAmounts) :
    ∀ (K : List String) (v : JSNum) (m : String), m ∈ K →
      alookup (cumTail R v K) m = some (runTotal R v (upTo K m)) := by
  intro K
  induction K with
  | nil =>
    intro v m hm
    exact absurd hm (by simp)
  | cons k ks ih =>
    intro v m hm
    rw [cumTail_cons]
    by_cases hk : k = m
    · subst hk
      show (if k = k then some (JSNum.add v ((alookup R k).getD JSNum.nan))
        else _) = _
      rw [if_pos rfl]
      have hup : upTo (k :: ks) k = [k] := by
        rw [upTo]
        have : (k :: ks).takeWhile (fun x => ¬ x = k) = [] := by
          rw [List.takeWhile_cons]
          simp
        rw [this]
        rfl
      rw [hup]
      rfl
    · show (if k = m then some (JSNum.add v ((alookup R k).getD JSNum.nan))
        else alookup (cumTail R (JSNum.add v ((alookup R k).getD JSNum.nan)) ks) m) = _
      rw [if_neg hk]
      have hm' : m ∈ ks := by
        rcases List.mem_cons.mp hm with h1 | h2
        · exact absurd h1.symm hk
        · exact h2
      rw [ih _ m hm']
      have hup : upTo (k :: ks) m = k :: upTo ks m := by
        rw [upTo, upTo]
        have : (k :: ks).takeWhile (fun x => ¬ x = m)
            = k :: ks.takeWhile (fun x => ¬ x = m) := by
          rw [List.takeWhile_cons]
          simp [fun h => hk h]
        rw [this]
        rfl
      rw [hup]
      rfl

theorem runTotal_num (R : MonthlyAmounts) (hv : numVals R) :
    ∀ (ks : List String), (∀ k ∈ ks, k ∈ monthKeys R) → ∀ q : ℚ,
      runTotal R (JSNum.num q) ks
        = JSNum.num (q + (ks.map (fun k => ql R k)).sum) := by
  intro ks
  induction ks with
  | nil =>
    intro _ q
    show JSNum.num q = _
    rw [List.map_nil, List.sum_nil]
    rw [add_zero]
  | cons k ks ih =>
    intro hks q
    show runTotal R (JSNum.add (JSNum.num q) ((alookup R k).getD JSNum.nan)) ks = _
    rw [alookup_of_mem_keys R k hv (hks k (List.mem_cons_self _ _))]
    show runTotal R (JSNum.add (JSNum.num q) (JSNum.num (ql R k))) ks = _
    have : JSNum.add (JSNum.num q) (JSNum.num (ql R k))
        = JSNum.num (q + ql R k) := rfl
    rw [this, ih (fun x hx => hks x (List.mem_cons_of_mem _ hx)) (q + ql R k),
      List.map_cons, List.sum_cons]
    have : q + ql R k + (List.map (fun k => ql R k) ks).sum
        = q + (ql R k + (List.map (fun k => ql R k) ks).sum) := by ring
    rw [this]

theorem mem_of_mem_takeWhile {α : Type _} (p : α → Bool) :
    ∀ (l : List α) (x : α), x ∈ l.takeWhile p → x ∈ l := by
  intro l
  induction l with
  | nil => intro x hx; exact absurd hx (by simp)
  | cons a t ih =>
    intro x hx
    rw [List.takeWhile_cons] at hx
    by_cases h : p a
    · rw [if_pos h] at hx
      rcases List.mem_cons.mp hx with rfl | hx'
      · exact List.mem_cons_self _ _
      · exact List.mem_cons_of_mem _ (ih x hx')
    · rw [if_neg h] at hx
      exact absurd hx (by simp)

theorem upTo_subset (K : List String) (m m' : String) (hm : m ∈ K)
    (h : m' ∈ upTo K m) : m' ∈ K := by
  rw [upTo] at h
  rcases List.mem_append.mp h with h1 | h2
  · exact mem_of_mem_takeWhile _ K m' h1
  · rw [List.mem_singleton] at h2
    subst h2
    exact hm

theorem calcCumul_keys (R : MonthlyAmounts) (hnd : (monthKeys R).Nodup) :
    monthKeys (calculateCumulativeAmounts R)
      = insertionSortBy strLe (monthKeys R) := by
  rw [calcCumul_eq R hnd, monthKeys_cumTail]

theorem calcCumul_lookup (R : MonthlyAmounts) (hv : numVals R)
    (hnd : (monthKeys R).Nodup) (m : String)
    (hm : m ∈ insertionSortBy strLe (monthKeys R)) :
    alookup (calculateCumulativeAmounts R) m
      = some (JSNum.num
          (((upTo (insertionSortBy strLe (monthKeys R)) m).map
            (fun k => ql R k)).sum)) := by
  rw [calcCumul_eq R hnd, alookup_cumTail R _ _ m hm]
  have hsub : ∀ k ∈ upTo (insertionSortBy strLe (monthKeys R)) m,
      k ∈ monthKeys R := by
    intro k hk
    exact ((perm_insertionSortBy strLe (monthKeys R)).mem_iff).mp
      (upTo_subset _ m k hm hk)
  rw [runTotal_num R hv _ hsub 0]
  have : (0 : ℚ) + ((upTo (insertionSortBy strLe (monthKeys R)) m).map
      (fun k => ql R k)).sum
    = ((upTo (insertionSortBy strLe (monthKeys R)) m).map
      (fun k => ql R k)).sum := by ring
  rw [this]

theorem charListLe_total : ∀ a b : List Char,
    charListLe a b = true ∨ charListLe b a = true := by
  intro a
  induction a with
  | nil => intro b; left; rfl
  | cons c as ih =>
    intro b
    cases b with
    | nil => right; rfl
    | cons d bs =>
      show (if c.val < d.val then true else if d.val < c.val then false
        else charListLe as bs) = true ∨
        (if d.val < c.val then true else if c.val < d.val then false
        else charListLe bs as) = true
      by_cases h1 : c.val < d.val
      · left
        rw [if_pos h1]
      · by_cases h2 : d.val < c.val
        · right
          rw [if_pos h2]
        · rw [if_neg h1, if_neg h2, if_neg h2, if_neg h1]
          exact ih bs

theorem strLe_total (a b : String) : strLe a b = true ∨ strLe b a = true :=
  charListLe_total a.data b.data

theorem seriesOfR (isBS : Bool) (R : MonthlyAmounts) (sl : List MappedEntry)
    (hv : numVals R) (hnd : (monthKeys R).Nodup)
    (hmem : ∀ m, m ∈ monthKeys R ↔ (¬ m = "" ∧ ∃ e ∈ sl, monthOf e = m))
    (hval : ∀ m, ¬ m = "" → ql R m = netQm sl m) :
    claimSeries isBS (cumulIf isBS R) sl := by
  cases isBS with
  | false =>
    show (∀ m, m ∈ monthKeys R ↔ (¬ m = "" ∧ ∃ e ∈ sl, monthOf e = m)) ∧
      (∀ m ∈ monthKeys R, alookup R m = some (JSNum.num (netQm sl m)))
    refine ⟨hmem, ?_⟩
    intro m hm
    rw [alookup_of_mem_keys R m hv hm, hval m ((hmem m).mp hm).1]
  | true =>
    have hkeys : monthKeys (calculateCumulativeAmounts R)
        = insertionSortBy strLe (monthKeys R) := calcCumul_keys R hnd
    show (∀ m, m ∈ monthKeys (calculateCumulativeAmounts R) ↔
        (¬ m = "" ∧ ∃ e ∈ sl, monthOf e = m)) ∧
      (List.Chain' (fun a b => strLe a b = true)
          (monthKeys (calculateCumulativeAmounts R)) ∧
        ∀ m ∈ monthKeys (calculateCumulativeAmounts R),
          alookup (calculateCumulativeAmounts R) m = some (JSNum.num
            (((upTo (monthKeys (calculateCumulativeAmounts R)) m).map
              (fun k => netQm sl k)).sum)))
    refine ⟨?_, ?_, ?_⟩
    · intro m
      rw [hkeys, (perm_insertionSortBy strLe (monthKeys R)).mem_iff]
      exact hmem m
    · rw [hkeys]
      exact chain_insertionSortBy strLe strLe_total _
    · intro m hm
      rw [hkeys] at hm
      rw [calcCumul_lookup R hv hnd m hm, hkeys]
      have hcongr : (upTo (insertionSortBy strLe (monthKeys R)) m).map
            (fun k => ql R k)
          = (upTo (insertionSortBy strLe (monthKeys R)) m).map
            (fun k => netQm sl k) := by
        refine List.map_congr_left ?_
        intro k hk
        have hkK : k ∈ monthKeys R :=
          ((perm_insertionSortBy strLe (monthKeys R)).mem_iff).mp
            (upTo_subset _ m k hm hk)
        exact hval k ((hmem k).mp hkK).1
      rw [hcongr]

theorem seriesOfStream (isBS : Bool) (S : List (String × JSNum))
    (sl : List MappedEntry) (hS : streamFacts S sl) :
    claimSeries isBS (cumulIf isBS (histFold [] S)) sl := by
  rcases hS with ⟨hv, hq, hmem⟩
  refine seriesOfR isBS (histFold [] S) sl ?_ ?_ ?_ ?_
  · exact histFold_numVals S []
      (fun p hp => absurd hp (by simp)) hv
  · exact nodup_keys_histFold S [] List.nodup_nil
  · intro m
    rw [mem_keys_histFold]
    constructor
    · rintro (h1 | h2)
      · exact absurd h1 (by simp [monthKeys])
      · exact (hmem m).mp h2
    · intro h
      exact Or.inr ((hmem m).mpr h)
  · intro m hm
    rw [ql_histFold S [] m (fun p hp => absurd hp (by simp)) hv]
    have h0 : ql [] m = 0 := rfl
    rw [h0, hq m hm]
    ring

/-! ## Stream extraction through the aggregation passes -/

theorem mapAccum_cons {σ α β : Type _} (f : σ → α → β × σ) (s : σ) (a : α)
    (l : List α) :
    mapAccum f s (a :: l)
      = ((f s a).1 :: (mapAccum f (f s a).2 l).1,
         (mapAccum f (f s a).2 l).2) := rfl

theorem detailStream_cons (d : AccountDetail) (ds : List AccountDetail) :
    detailStream (d :: ds) = d.monthlyAmounts ++ detailStream ds := rfl

theorem monthFold_amounts (rand : ℕ → ℚ) :
    ∀ (ps : List (String × JSNum)) (d : AccountDetail) (st : PassState),
      ((ps.foldl (accountMonthStep rand) (d, st)).2.conceptAmounts
          = histFold st.conceptAmounts ps)
      ∧ ((ps.foldl (accountMonthStep rand) (d, st)).2.subAmounts
          = histFold st.subAmounts ps)
      ∧ ((ps.foldl (accountMonthStep rand) (d, st)).2.catAmounts
          = histFold st.catAmounts ps)
      ∧ ((ps.foldl (accountMonthStep rand) (d, st)).1.compteNum = d.compteNum)
      ∧ ((ps.foldl (accountMonthStep rand) (d, st)).1.monthlyAmounts
          = d.monthlyAmounts) := by
  intro ps
  induction ps with
  | nil => intro d st; exact ⟨rfl, rfl, rfl, rfl, rfl⟩
  | cons p ps ih =>
    intro d st
    rw [List.foldl_cons]
    rcases hstep : accountMonthStep rand (d, st) p with ⟨d', st'⟩
    have hst' : st' = (accountMonthStep rand (d, st) p).2 := by rw [hstep]
    have hd' : d' = (accountMonthStep rand (d, st) p).1 := by rw [hstep]
    have h1 : st'.conceptAmounts = bump st.conceptAmounts p.1 p.2 := by
      rw [hst']; rfl
    have h2 : st'.subAmounts = bump st.subAmounts p.1 p.2 := by
      rw [hst']; rfl
    have h3 : st'.catAmounts = bump st.catAmounts p.1 p.2 := by
      rw [hst']; rfl
    have h4 : d'.compteNum = d.compteNum := by
      rw [hd']; rfl
    have h5 : d'.monthlyAmounts = d.monthlyAmounts := by
      rw [hd']; rfl
    rcases ih d' st' with ⟨i1, i2, i3, i4, i5⟩
    refine ⟨?_, ?_, ?_, ?_, ?_⟩
    · rw [i1, h1, histFold_cons]
    · rw [i2, h2, histFold_cons]
    · rw [i3, h3, histFold_cons]
    · rw [i4, h4]
    · rw [i5, h5]

theorem budgetPass_amounts (rand : ℕ → ℚ) (st : PassState) (d : AccountDetail) :
    ((accountBudgetPass rand st d).2.conceptAmounts
        = histFold st.conceptAmounts d.monthlyAmounts)
    ∧ ((accountBudgetPass rand st d).2.subAmounts
        = histFold st.subAmounts d.monthlyAmounts)
    ∧ ((accountBudgetPass rand st d).2.catAmounts
        = histFold st.catAmounts d.monthlyAmounts)
    ∧ ((accountBudgetPass rand st d).1.compteNum = d.compteNum)
    ∧ ((accountBudgetPass rand st d).1.monthlyAmounts = d.monthlyAmounts) :=
  monthFold_amounts rand d.monthlyAmounts d st

theorem detailsPass_amounts (rand : ℕ → ℚ) :
    ∀ (ds : List AccountDetail) (st : PassState),
      ((mapAccum (fun s d => accountBudgetPass rand s d) st ds).2.conceptAmounts
          = histFold st.conceptAmounts (detailStream ds))
      ∧ ((mapAccum (fun s d => accountBudgetPass rand s d) st ds).2.subAmounts
          = histFold st.subAmounts (detailStream ds))
      ∧ ((mapAccum (fun s d => accountBudgetPass rand s d) st ds).2.catAmounts
          = histFold st.catAmounts (detailStream ds))
      ∧ ((mapAccum (fun s d => accountBudgetPass rand s d) st ds).1.map
            (fun d => (d.compteNum, d.monthlyAmounts))
          = ds.map (fun d => (d.compteNum, d.monthlyAmounts))) := by
  intro ds
  induction ds with
  | nil => intro st; exact ⟨rfl, rfl, rfl, rfl⟩
  | cons d ds ih =>
    intro st
    rw [mapAccum_cons]
    rcases budgetPass_amounts rand st d with ⟨b1, b2, b3, b4, b5⟩
    rcases ih (accountBudgetPass rand st d).2 with ⟨i1, i2, i3, i4⟩
    refine ⟨?_, ?_, ?_, ?_⟩
    · show (mapAccum _ (accountBudgetPass rand st d).2 ds).2.conceptAmounts = _
      rw [i1, b1, detailStream_cons, histFold_append]
    · show (mapAccum _ (accountBudgetPass rand st d).2 ds).2.subAmounts = _
      rw [i2, b2, detailStream_cons, histFold_append]
    · show (mapAccum _ (accountBudgetPass rand st d).2 ds).2.catAmounts = _
      rw [i3, b3, detailStream_cons, histFold_append]
    · rw [List.map_cons, List.map_cons, i4]
      have : ((accountBudgetPass rand st d).1.compteNum,
          (accountBudgetPass rand st d).1.monthlyAmounts)
        = (d.compteNum, d.monthlyAmounts) := by rw [b4, b5]
      rw [this]

theorem buildConceptRow_monthly (rand : ℕ → ℚ) (cat sub con : String)
    (ce : List MappedEntry) (st : SubState) :
    ((buildConceptRow rand cat sub con ce st).1.monthlyAmounts
        = histFold [] (conceptStream ce))
    ∧ ((buildConceptRow rand cat sub con ce st).2.subAmounts
        = histFold st.subAmounts (conceptStream ce))
    ∧ ((buildConceptRow rand cat sub con ce st).2.catAmounts
        = histFold st.catAmounts (conceptStream ce))
    ∧ ∀ d ∈ (buildConceptRow rand cat sub con ce st).1.accountDetails,
        ∃ d0 ∈ ce.foldl addEntryToDetails [],
          d.compteNum = d0.compteNum ∧ d.monthlyAmounts = d0.monthlyAmounts := by
  rcases detailsPass_amounts rand (ce.foldl addEntryToDetails [])
    { conceptAmounts := [], conceptBudgets := [],
      subAmounts := st.subAmounts, subBudgets := st.subBudgets,
      catAmounts := st.catAmounts, catBudgets := st.catBudgets,
      ctr := st.ctr } with ⟨i1, i2, i3, i4⟩
  refine ⟨i1, i2, i3, ?_⟩
  intro d hd
  have hd' : d ∈ (mapAccum (fun s d => accountBudgetPass rand s d)
      { conceptAmounts := [], conceptBudgets := [],
        subAmounts := st.subAmounts, subBudgets := st.subBudgets,
        catAmounts := st.catAmounts, catBudgets := st.catBudgets,
        ctr := st.ctr } (ce.foldl addEntryToDetails [])).1 :=
    (mem_insertionSortBy detailLe _ d).mp hd
  have hpair : (d.compteNum, d.monthlyAmounts)
      ∈ (ce.foldl addEntryToDetails []).map
        (fun d => (d.compteNum, d.monthlyAmounts)) := by
    rw [← i4]
    exact List.mem_map_of_mem _ hd'
  rcases List.mem_map.mp hpair with ⟨d0, hd0, hp⟩
  refine ⟨d0, hd0, ?_, ?_⟩
  · have := congrArg Prod.fst hp
    exact this.symm
  · have := congrArg Prod.snd hp
    exact this.symm

theorem conceptsPass_amounts (rand : ℕ → ℚ) (cat sub : String) :
    ∀ (gs : List (String × List MappedEntry)) (s0 : SubState),
      ((mapAccum (fun s cg => buildConceptRow rand cat sub cg.1 cg.2 s) s0 gs).2.subAmounts
          = histFold s0.subAmounts ((gs.map (fun g => conceptStream g.2)).join))
      ∧ ((mapAccum (fun s cg => buildConceptRow rand cat sub cg.1 cg.2 s) s0 gs).2.catAmounts
          = histFold s0.catAmounts ((gs.map (fun g => conceptStream g.2)).join))
      ∧ ((mapAccum (fun s cg => buildConceptRow rand cat sub cg.1 cg.2 s) s0 gs).1.map
            (fun r => r.monthlyAmounts)
          = gs.map (fun g => histFold [] (conceptStream g.2))) := by
  intro gs
  induction gs with
  | nil => intro s0; exact ⟨rfl, rfl, rfl⟩
  | cons g gs ih =>
    intro s0
    rw [mapAccum_cons]
    rcases buildConceptRow_monthly rand cat sub g.1 g.2 s0 with ⟨b1, b2, b3, _⟩
    rcases ih (buildConceptRow rand cat sub g.1 g.2 s0).2 with ⟨i1, i2, i3⟩
    refine ⟨?_, ?_, ?_⟩
    · show (mapAccum _ (buildConceptRow rand cat sub g.1 g.2 s0).2 gs).2.subAmounts = _
      rw [i1, b2, List.map_cons,
        show (conceptStream g.2 :: (gs.map (fun g => conceptStream g.2))).join
          = conceptStream g.2 ++ (gs.map (fun g => conceptStream g.2)).join from rfl,
        histFold_append]
    · show (mapAccum _ (buildConceptRow rand cat sub g.1 g.2 s0).2 gs).2.catAmounts = _
      rw [i2, b3, List.map_cons,
        show (conceptStream g.2 :: (gs.map (fun g => conceptStream g.2))).join
          = conceptStream g.2 ++ (gs.map (fun g => conceptStream g.2)).join from rfl,
        histFold_append]
    · rw [List.map_cons, List.map_cons, i3, b1]

theorem buildSubRow_monthly (rand : ℕ → ℚ) (cat : String) (st : CatState)
    (g : String × List MappedEntry) :
    ((buildSubCategoryRow rand cat st g).1.monthlyAmounts
        = cumulIf (isBalanceSheetCategory cat) (histFold [] (subStream g.2)))
    ∧ ((buildSubCategoryRow rand cat st g).2.catAmounts
        = histFold st.catAmounts (subStream g.2)) := by
  rcases conceptsPass_amounts rand cat g.1
    (groupByKey (fun e => e.mapping.concept) g.2)
    { subCategoryTotal := JSNum.num 0, subAmounts := [], subBudgets := [],
      catAmounts := st.catAmounts, catBudgets := st.catBudgets,
      ctr := st.ctr } with ⟨i1, i2, _⟩
  constructor
  · show cumulIf (isBalanceSheetCategory cat)
      ((mapAccum (fun (s : SubState) (cg : String × List MappedEntry) =>
          buildConceptRow rand cat g.1 cg.1 cg.2 s)
        { subCategoryTotal := JSNum.num 0, subAmounts := [], subBudgets := [],
          catAmounts := st.catAmounts, catBudgets := st.catBudgets,
          ctr := st.ctr }
        (groupByKey (fun e => e.mapping.concept) g.2)).2.subAmounts)
      = cumulIf (isBalanceSheetCategory cat) (histFold [] (subStream g.2))
    rw [i1]
    rfl
  · show (mapAccum (fun (s : SubState) (cg : String × List MappedEntry) =>
          buildConceptRow rand cat g.1 cg.1 cg.2 s)
        { subCategoryTotal := JSNum.num 0, subAmounts := [], subBudgets := [],
          catAmounts := st.catAmounts, catBudgets := st.catBudgets,
          ctr := st.ctr }
        (groupByKey (fun e => e.mapping.concept) g.2)).2.catAmounts
      = histFold st.catAmounts (subStream g.2)
    rw [i2]
    rfl

theorem subsPass_amounts (rand : ℕ → ℚ) (cat : String) :
    ∀ (sgs : List (String × List MappedEntry)) (c0 : CatState),
      ((mapAccum (buildSubCategoryRow rand cat) c0 sgs).2.catAmounts
          = histFold c0.catAmounts ((sgs.map (fun g => subStream g.2)).join))
      ∧ ((mapAccum (buildSubCategoryRow rand cat) c0 sgs).1.map
            (fun r => r.monthlyAmounts)
          = sgs.map (fun g => cumulIf (isBalanceSheetCategory cat)
              (histFold [] (subStream g.2)))) := by
  intro sgs
  induction sgs with
  | nil => intro c0; exact ⟨rfl, rfl⟩
  | cons g sgs ih =>
    intro c0
    rw [mapAccum_cons]
    rcases buildSubRow_monthly rand cat c0 g with ⟨b1, b2⟩
    rcases ih (buildSubCategoryRow rand cat c0 g).2 with ⟨i1, i2⟩
    refine ⟨?_, ?_⟩
    · show (mapAccum _ (buildSubCategoryRow rand cat c0 g).2 sgs).2.catAmounts = _
      rw [i1, b2, List.map_cons,
        show (subStream g.2 :: (sgs.map (fun g => subStream g.2))).join
          = subStream g.2 ++ (sgs.map (fun g => subStream g.2)).join from rfl,
        histFold_append]
    · rw [List.map_cons, List.map_cons, i2, b1]

theorem buildCatRow_monthly (rand : ℕ → ℚ) (ctr : ℕ)
    (g : String × List MappedEntry) :
    ((buildCategoryRow rand ctr g).1.monthlyAmounts
        = cumulIf (isBalanceSheetCategory g.1) (histFold [] (catStream g.2)))
    ∧ ((buildCategoryRow rand ctr g).1.children.map (fun r => r.monthlyAmounts)
        = (groupByKey (fun e => e.mapping.sousCategorie) g.2).map
            (fun g' => cumulIf (isBalanceSheetCategory g.1)
              (histFold [] (subStream g'.2)))) := by
  rcases subsPass_amounts rand g.1
    (groupByKey (fun e => e.mapping.sousCategorie) g.2)
    { categoryTotal := JSNum.num 0, catAmounts := [], catBudgets := [],
      ctr := ctr } with ⟨i1, i2⟩
  constructor
  · show cumulIf (isBalanceSheetCategory g.1)
      ((mapAccum (buildSubCategoryRow rand g.1)
        { categoryTotal := JSNum.num 0, catAmounts := [], catBudgets := [],
          ctr := ctr }
        (groupByKey (fun e => e.mapping.sousCategorie) g.2)).2.catAmounts)
      = cumulIf (isBalanceSheetCategory g.1) (histFold [] (catStream g.2))
    rw [i1]
    rfl
  · exact i2

theorem updateConceptRow_more (bs : Bool) (r : ConceptRow) :
    (updateConceptRow bs r).category = r.category
    ∧ (updateConceptRow bs r).subCategory = r.subCategory
    ∧ (updateConceptRow bs r).monthlyAmounts = cumulIf bs r.monthlyAmounts
    ∧ (updateConceptRow bs r).monthlyBudgets = cumulIf bs r.monthlyBudgets
    ∧ (updateConceptRow bs r).accountDetails
        = r.accountDetails.map (updateDetail bs) :=
  ⟨rfl, rfl, rfl, rfl, rfl⟩

theorem updateDetail_more (bs : Bool) (d : AccountDetail) :
    (updateDetail bs d).compteNum = d.compteNum
    ∧ (updateDetail bs d).monthlyAmounts = cumulIf bs d.monthlyAmounts
    ∧ (updateDetail bs d).monthlyBudgets = cumulIf bs d.monthlyBudgets :=
  ⟨rfl, rfl, rfl⟩

theorem buildConceptRow_cat_sub (rand : ℕ → ℚ) (cat sub con : String)
    (ce : List MappedEntry) (ss : SubState) :
    (buildConceptRow rand cat sub con ce ss).1.category = cat
    ∧ (buildConceptRow rand cat sub con ce ss).1.subCategory = sub :=
  ⟨rfl, rfl⟩

theorem mappedEntries_netAmount (custom : String → Option CustomMapping)
    (fallback exact : String → Option Mapping) (entries : List FECEntry)
    (hwp : ∀ e ∈ entries,
      parseAmount e.Debit ≠ JSNum.nan ∧ parseAmount e.Credit ≠ JSNum.nan) :
    ∀ me ∈ mappedEntries custom fallback exact entries,
      me.netAmount ≠ JSNum.nan := by
  intro me hme
  rcases List.mem_filterMap.mp hme with ⟨pe, hpe, hmap⟩
  rcases List.mem_map.mp hpe with ⟨e', he', hpre⟩
  subst hpre
  cases hm : (premapEntry custom fallback exact e').mapping with
  | none =>
    rw [hm] at hmap
    exact absurd hmap (by simp)
  | some m =>
    rw [hm] at hmap
    rw [Option.map_some'] at hmap
    injection hmap with hfm
    have hna : me.netAmount = (premapEntry custom fallback exact e').netAmount := by
      rw [← hfm]
    rw [hna]
    show JSNum.sub (parseAmount e'.Debit) (parseAmount e'.Credit) ≠ JSNum.nan
    rcases hwp e' he' with ⟨hd, hc⟩
    cases hpd : parseAmount e'.Debit with
    | nan => exact absurd hpd hd
    | num qd =>
      cases hpc : parseAmount e'.Credit with
      | nan => exact absurd hpc hc
      | num qc => simp [JSNum.sub]

/-! ## Budget dictionaries: raw streams and the claimed transform -/

theorem objSet_numVals (a : MonthlyAmounts) (k : String) (v : JSNum)
    (ha : numVals a) (hv : v ≠ JSNum.nan) : numVals (objSet a k v) := by
  induction a with
  | nil =>
    intro p hp
    rcases List.mem_singleton.mp hp with rfl
    exact hv
  | cons p t ih =>
    intro q hq
    by_cases h : p.1 = k
    · have hobj : objSet (p :: t) k v = (p.1, v) :: t := by
        show (if p.1 = k then (p.1, v) :: t else (p.1, p.2) :: objSet t k v) = _
        rw [if_pos h]
      rw [hobj] at hq
      rcases List.mem_cons.mp hq with rfl | hq'
      · exact hv
      · exact ha q (List.mem_cons_of_mem _ hq')
    · have hobj : objSet (p :: t) k v = (p.1, p.2) :: objSet t k v := by
        show (if p.1 = k then (p.1, v) :: t else (p.1, p.2) :: objSet t k v) = _
        rw [if_neg h]
      rw [hobj] at hq
      rcases List.mem_cons.mp hq with rfl | hq'
      · exact ha p (List.mem_cons_self _ _)
      · exact ih (fun r hr => ha r (List.mem_cons_of_mem _ hr)) _ hq'

theorem mem_keys_objSet (a : MonthlyAmounts) (k : String) (v : JSNum) (m : String) :
    m ∈ monthKeys (objSet a k v) ↔ m ∈ monthKeys a ∨ m = k := by
  rw [monthKeys_objSet]
  by_cases h : k ∈ monthKeys a
  · rw [if_pos h]
    constructor
    · exact Or.inl
    · rintro (h1 | rfl)
      · exact h1
      · exact h
  · rw [if_neg h]
    rw [List.mem_append, List.mem_singleton]

theorem nodup_keys_objSet (a : MonthlyAmounts) (k : String) (v : JSNum)
    (h : (monthKeys a).Nodup) : (monthKeys (objSet a k v)).Nodup := by
  rw [monthKeys_objSet]
  by_cases hk : k ∈ monthKeys a
  · rw [if_pos hk]; exact h
  · rw [if_neg hk]
    refine List.Nodup.append h (List.nodup_singleton _) ?_
    intro x hx hx'
    rw [List.mem_singleton] at hx'
    subst hx'
    exact hk hx

theorem generateMockBudget_num (r : ℚ) (a : JSNum) (ha : a ≠ JSNum.nan) :
    generateMockBudget r a ≠ JSNum.nan := by
  cases a with
  | nan => exact absurd rfl ha
  | num q =>
    rw [generateMockBudget]
    split
    · exact fun h => JSNum.noConfusion h
    · show (if JSNum.lt (JSNum.abs (JSNum.mul (JSNum.num q)
          (JSNum.num (1 + (r * (3/10) - 15/100))))) (JSNum.num 100) = true
        then _ else _) ≠ JSNum.nan
      split
      · exact fun h => JSNum.noConfusion h
      · split
        · exact fun h => JSNum.noConfusion h
        · exact fun h => JSNum.noConfusion h

theorem drawBudget_num (rand : ℕ → ℚ) (c : ℕ) (a : JSNum)
    (ha : a ≠ JSNum.nan) : (drawBudget rand c a).1 ≠ JSNum.nan := by
  rw [drawBudget]
  split
  · exact fun h => JSNum.noConfusion h
  · exact generateMockBudget_num (rand c) a ha

theorem updEntry_budgets (e : MappedEntry) (d : AccountDetail) :
    (updEntry e d).monthlyBudgets = d.monthlyBudgets := by
  rw [updEntry]
  split
  · rfl
  · rfl

theorem addEntry_budgets_nil (e : MappedEntry) :
    ∀ ds : List AccountDetail, (∀ d ∈ ds, d.monthlyBudgets = []) →
      ∀ d' ∈ addEntryToDetails ds e, d'.monthlyBudgets = [] := by
  intro ds
  induction ds with
  | nil =>
    intro _ d' hd'
    rw [addEntryToDetails_nil, List.mem_singleton] at hd'
    subst hd'
    rw [updEntry_budgets]
    rfl
  | cons d t ih =>
    intro hz d' hd'
    rw [addEntryToDetails_cons] at hd'
    by_cases h : d.compteNum = e.CompteNum
    · rw [if_pos h] at hd'
      rcases List.mem_cons.mp hd' with rfl | hd2
      · rw [updEntry_budgets]
        exact hz d (List.mem_cons_self _ _)
      · exact hz d' (List.mem_cons_of_mem _ hd2)
    · rw [if_neg h] at hd'
      rcases List.mem_cons.mp hd' with rfl | hd2
      · exact hz d' (List.mem_cons_self _ _)
      · exact ih (fun x hx => hz x (List.mem_cons_of_mem _ hx)) d' hd2

theorem details0_budgets (l : List MappedEntry) :
    ∀ ds : List AccountDetail, (∀ d ∈ ds, d.monthlyBudgets = []) →
      ∀ d ∈ l.foldl addEntryToDetails ds, d.monthlyBudgets = [] := by
  induction l with
  | nil => intro ds hz; exact hz
  | cons a t ih =>
    intro ds hz
    rw [List.foldl_cons]
    exact ih _ (addEntry_budgets_nil a ds hz)

theorem map_fst_join (L : List (List (String × JSNum))) :
    L.join.map Prod.fst = (L.map (List.map Prod.fst)).join := by
  induction L with
  | nil => rfl
  | cons s L ih =>
    rw [show (s :: L).join = s ++ L.join from rfl, List.map_append, ih,
      List.map_cons]
    rfl

theorem claimBudget_of (isBS : Bool) (B : MonthlyAmounts)
    (sl : List MappedEntry) (hv : numVals B) (hnd : (monthKeys B).Nodup)
    (hmem : ∀ m, m ∈ monthKeys B ↔ (¬ m = "" ∧ ∃ e ∈ sl, monthOf e = m)) :
    claimBudget isBS (cumulIf isBS B) sl := by
  refine ⟨B, hmem, ?_⟩
  cases isBS with
  | false =>
    show cumulIf false B = B
    rfl
  | true =>
    have hkeys : monthKeys (calculateCumulativeAmounts B)
        = insertionSortBy strLe (monthKeys B) := calcCumul_keys B hnd
    show List.Chain' (fun a b => strLe a b = true)
        (monthKeys (calculateCumulativeAmounts B)) ∧
      (∀ m, m ∈ monthKeys (calculateCumulativeAmounts B) ↔ m ∈ monthKeys B) ∧
      ∀ m ∈ monthKeys (calculateCumulativeAmounts B),
        alookup (calculateCumulativeAmounts B) m = some (JSNum.num
          (((upTo (monthKeys (calculateCumulativeAmounts B)) m).map
            (fun k => ql B k)).sum))
    refine ⟨?_, ?_, ?_⟩
    · rw [hkeys]
      exact chain_insertionSortBy strLe strLe_total _
    · intro m
      rw [hkeys]
      exact (perm_insertionSortBy strLe (monthKeys B)).mem_iff
    · intro m hm
      rw [hkeys] at hm
      rw [calcCumul_lookup B hv hnd m hm, hkeys]

theorem monthFold_budgets (rand : ℕ → ℚ) :
    ∀ (ps : List (String × JSNum)) (d : AccountDetail) (st : PassState),
      numVals ps →
      (∃ S : List (String × JSNum),
        S.map Prod.fst = ps.map Prod.fst ∧ numVals S ∧
        ((ps.foldl (accountMonthStep rand) (d, st)).2.conceptBudgets
            = histFold st.conceptBudgets S)
        ∧ ((ps.foldl (accountMonthStep rand) (d, st)).2.subBudgets
            = histFold st.subBudgets S)
        ∧ ((ps.foldl (accountMonthStep rand) (d, st)).2.catBudgets
            = histFold st.catBudgets S))
      ∧ (numVals d.monthlyBudgets →
          numVals (ps.foldl (accountMonthStep rand) (d, st)).1.monthlyBudgets)
      ∧ (∀ m,
          m ∈ monthKeys (ps.foldl (accountMonthStep rand) (d, st)).1.monthlyBudgets
            ↔ m ∈ monthKeys d.monthlyBudgets ∨ m ∈ ps.map Prod.fst)
      ∧ ((monthKeys d.monthlyBudgets).Nodup →
          (monthKeys
            (ps.foldl (accountMonthStep rand) (d, st)).1.monthlyBudgets).Nodup) := by
  intro ps
  induction ps with
  | nil =>
    intro d st _
    refine ⟨⟨[], rfl, fun p hp => absurd hp (by simp), rfl, rfl, rfl⟩,
      fun h => h, ?_, fun h => h⟩
    intro m
    simp
  | cons p ps ih =>
    intro d st hnv
    rw [List.foldl_cons]
    have hbd : (drawBudget rand st.ctr p.2).1 ≠ JSNum.nan :=
      drawBudget_num rand st.ctr p.2 (hnv p (List.mem_cons_self _ _))
    rcases hstep : accountMonthStep rand (d, st) p with ⟨d', st'⟩
    have hst' : st' = (accountMonthStep rand (d, st) p).2 := by rw [hstep]
    have hd' : d' = (accountMonthStep rand (d, st) p).1 := by rw [hstep]
    have hb1 : st'.conceptBudgets
        = bump st.conceptBudgets p.1 (drawBudget rand st.ctr p.2).1 := by
      rw [hst']; rfl
    have hb2 : st'.subBudgets
        = bump st.subBudgets p.1 (drawBudget rand st.ctr p.2).1 := by
      rw [hst']; rfl
    have hb3 : st'.catBudgets
        = bump st.catBudgets p.1 (drawBudget rand st.ctr p.2).1 := by
      rw [hst']; rfl
    have hdb : d'.monthlyBudgets
        = objSet d.monthlyBudgets p.1 (drawBudget rand st.ctr p.2).1 := by
      rw [hd']; rfl
    rcases ih d' st' (fun r hr => hnv r (List.mem_cons_of_mem _ hr)) with
      ⟨⟨S', hfst, hnum, e1, e2, e3⟩, inum, ikeys, ind⟩
    refine ⟨⟨(p.1, (drawBudget rand st.ctr p.2).1) :: S', ?_, ?_, ?_, ?_, ?_⟩,
      ?_, ?_, ?_⟩
    · rw [List.map_cons, hfst]
      rfl
    · intro q hq
      rcases List.mem_cons.mp hq with rfl | hq'
      · exact hbd
      · exact hnum q hq'
    · rw [e1, histFold_cons, hb1]
    · rw [e2, histFold_cons, hb2]
    · rw [e3, histFold_cons, hb3]
    · intro hz
      refine inum ?_
      rw [hdb]
      exact objSet_numVals _ _ _ hz hbd
    · intro m
      rw [ikeys m, hdb, mem_keys_objSet, List.map_cons, List.mem_cons]
      tauto
    · intro hz
      refine ind ?_
      rw [hdb]
      exact nodup_keys_objSet _ _ _ hz

theorem budgetPass_budgets (rand : ℕ → ℚ) (st : PassState) (d : AccountDetail)
    (hvd : numVals d.monthlyAmounts) (hzd : d.monthlyBudgets = []) :
    (∃ S : List (String × JSNum),
      S.map Prod.fst = d.monthlyAmounts.map Prod.fst ∧ numVals S ∧
      ((accountBudgetPass rand st d).2.conceptBudgets
          = histFold st.conceptBudgets S)
      ∧ ((accountBudgetPass rand st d).2.subBudgets
          = histFold st.subBudgets S)
      ∧ ((accountBudgetPass rand st d).2.catBudgets
          = histFold st.catBudgets S))
    ∧ numVals (accountBudgetPass rand st d).1.monthlyBudgets
    ∧ (∀ m, m ∈ monthKeys (accountBudgetPass rand st d).1.monthlyBudgets
        ↔ m ∈ monthKeys d.monthlyAmounts)
    ∧ (monthKeys (accountBudgetPass rand st d).1.monthlyBudgets).Nodup := by
  rcases monthFold_budgets rand d.monthlyAmounts d st hvd with ⟨hS, hn, hk, hd⟩
  refine ⟨hS, hn ?_, ?_, hd ?_⟩
  · rw [hzd]
    exact fun p hp => absurd hp (by simp)
  · intro m
    show m ∈ monthKeys
        (d.monthlyAmounts.foldl (accountMonthStep rand) (d, st)).1.monthlyBudgets
      ↔ m ∈ monthKeys d.monthlyAmounts
    rw [hk m, hzd]
    simp [monthKeys]
  · rw [hzd]
    exact List.nodup_nil

theorem detailsPass_budgets (rand : ℕ → ℚ) :
    ∀ (ds : List AccountDetail) (st : PassState),
      (∀ d ∈ ds, d.monthlyBudgets = []) →
      (∀ d ∈ ds, numVals d.monthlyAmounts) →
      (∃ S : List (String × JSNum),
        S.map Prod.fst = (detailStream ds).map Prod.fst ∧ numVals S ∧
        ((mapAccum (fun s d => accountBudgetPass rand s d) st ds).2.conceptBudgets
            = histFold st.conceptBudgets S)
        ∧ ((mapAccum (fun s d => accountBudgetPass rand s d) st ds).2.subBudgets
            = histFold st.subBudgets S)
        ∧ ((mapAccum (fun s d => accountBudgetPass rand s d) st ds).2.catBudgets
            = histFold st.catBudgets S))
      ∧ ∀ d' ∈ (mapAccum (fun s d => accountBudgetPass rand s d) st ds).1,
          ∃ d0 ∈ ds,
            d'.compteNum = d0.compteNum
            ∧ d'.monthlyAmounts = d0.monthlyAmounts
            ∧ numVals d'.monthlyBudgets
            ∧ (∀ m, m ∈ monthKeys d'.monthlyBudgets
                ↔ m ∈ monthKeys d0.monthlyAmounts)
            ∧ (monthKeys d'.monthlyBudgets).Nodup := by
  intro ds
  induction ds with
  | nil =>
    intro st _ _
    refine ⟨⟨[], rfl, fun p hp => absurd hp (by simp), rfl, rfl, rfl⟩, ?_⟩
    intro d' hd'
    exact absurd hd' (by simp [mapAccum])
  | cons d ds ih =>
    intro st hz hv
    rw [mapAccum_cons]
    rcases budgetPass_budgets rand st d (hv d (List.mem_cons_self _ _))
      (hz d (List.mem_cons_self _ _)) with
      ⟨⟨Sh, hhfst, hhnum, he1, he2, he3⟩, hdn, hdk, hdd⟩
    rcases ih (accountBudgetPass rand st d).2
      (fun x hx => hz x (List.mem_cons_of_mem _ hx))
      (fun x hx => hv x (List.mem_cons_of_mem _ hx)) with
      ⟨⟨St, htfst, htnum, te1, te2, te3⟩, tdet⟩
    rcases budgetPass_amounts rand st d with ⟨_, _, _, ha4, ha5⟩
    refine ⟨⟨Sh ++ St, ?_, ?_, ?_, ?_, ?_⟩, ?_⟩
    · rw [List.map_append, hhfst, htfst, detailStream_cons, List.map_append]
    · intro p hp
      rcases List.mem_append.mp hp with h1 | h2
      · exact hhnum p h1
      · exact htnum p h2
    · show (mapAccum _ (accountBudgetPass rand st d).2 ds).2.conceptBudgets = _
      rw [te1, he1, histFold_append]
    · show (mapAccum _ (accountBudgetPass rand st d).2 ds).2.subBudgets = _
      rw [te2, he2, histFold_append]
    · show (mapAccum _ (accountBudgetPass rand st d).2 ds).2.catBudgets = _
      rw [te3, he3, histFold_append]
    · intro d' hd'
      rcases List.mem_cons.mp hd' with rfl | hd2
      · exact ⟨d, List.mem_cons_self _ _, ha4, ha5, hdn, hdk, hdd⟩
      · rcases tdet d' hd2 with ⟨d0, hd0, h1, h2, h3, h4, h5⟩
        exact ⟨d0, List.mem_cons_of_mem _ hd0, h1, h2, h3, h4, h5⟩

theorem buildConceptRow_budgets (rand : ℕ → ℚ) (cat sub con : String)
    (ce : List MappedEntry) (st : SubState)
    (hwn : ∀ e ∈ ce, e.netAmount ≠ JSNum.nan) :
    (∃ S : List (String × JSNum),
      S.map Prod.fst = (conceptStream ce).map Prod.fst ∧ numVals S ∧
      ((buildConceptRow rand cat sub con ce st).1.monthlyBudgets
          = histFold [] S)
      ∧ ((buildConceptRow rand cat sub con ce st).2.subBudgets
          = histFold st.subBudgets S)
      ∧ ((buildConceptRow rand cat sub con ce st).2.catBudgets
          = histFold st.catBudgets S))
    ∧ ∀ d' ∈ (buildConceptRow rand cat sub con ce st).1.accountDetails,
        ∃ d0 ∈ ce.foldl addEntryToDetails [],
          d'.compteNum = d0.compteNum
          ∧ d'.monthlyAmounts = d0.monthlyAmounts
          ∧ numVals d'.monthlyBudgets
          ∧ (∀ m, m ∈ monthKeys d'.monthlyBudgets
              ↔ m ∈ monthKeys d0.monthlyAmounts)
          ∧ (monthKeys d'.monthlyBudgets).Nodup := by
  have hz : ∀ d ∈ ce.foldl addEntryToDetails [], d.monthlyBudgets = [] :=
    details0_budgets ce [] (fun d hd => absurd hd (by simp))
  have hvd : ∀ d ∈ ce.foldl addEntryToDetails [], numVals d.monthlyAmounts := by
    intro d hd
    exact ((detailsInv_of_fold ce hwn).2.2 d hd).1
  rcases detailsPass_budgets rand (ce.foldl addEntryToDetails [])
    { conceptAmounts := [], conceptBudgets := [],
      subAmounts := st.subAmounts, subBudgets := st.subBudgets,
      catAmounts := st.catAmounts, catBudgets := st.catBudgets,
      ctr := st.ctr } hz hvd with ⟨⟨S, hfst, hnum, e1, e2, e3⟩, hdet⟩
  refine ⟨⟨S, hfst, hnum, e1, e2, e3⟩, ?_⟩
  intro d' hd'
  exact hdet d' ((mem_insertionSortBy detailLe _ d').mp hd')

theorem conceptsPass_budgets (rand : ℕ → ℚ) (cat sub : String) :
    ∀ (gs : List (String × List MappedEntry)) (s0 : SubState),
      (∀ g ∈ gs, ∀ e ∈ g.2, e.netAmount ≠ JSNum.nan) →
      ∃ S : List (String × JSNum),
        S.map Prod.fst = ((gs.map (fun g => conceptStream g.2)).join).map Prod.fst
        ∧ numVals S
        ∧ ((mapAccum (fun s cg => buildConceptRow rand cat sub cg.1 cg.2 s) s0
            gs).2.subBudgets = histFold s0.subBudgets S)
        ∧ ((mapAccum (fun s cg => buildConceptRow rand cat sub cg.1 cg.2 s) s0
            gs).2.catBudgets = histFold s0.catBudgets S) := by
  intro gs
  induction gs with
  | nil =>
    intro s0 _
    exact ⟨[], rfl, fun p hp => absurd hp (by simp), rfl, rfl⟩
  | cons g gs ih =>
    intro s0 hwn
    rw [mapAccum_cons]
    rcases (buildConceptRow_budgets rand cat sub g.1 g.2 s0
      (hwn g (List.mem_cons_self _ _))).1 with ⟨Sh, hhfst, hhnum, _, he2, he3⟩
    rcases ih (buildConceptRow rand cat sub g.1 g.2 s0).2
      (fun x hx => hwn x (List.mem_cons_of_mem _ hx)) with
      ⟨St, htfst, htnum, te1, te2⟩
    refine ⟨Sh ++ St, ?_, ?_, ?_, ?_⟩
    · rw [List.map_append, hhfst, htfst, List.map_cons,
        show (conceptStream g.2 :: gs.map (fun g => conceptStream g.2)).join
          = conceptStream g.2 ++ (gs.map (fun g => conceptStream g.2)).join
          from rfl,
        List.map_append]
    · intro p hp
      rcases List.mem_append.mp hp with h1 | h2
      · exact hhnum p h1
      · exact htnum p h2
    · show (mapAccum _ (buildConceptRow rand cat sub g.1 g.2 s0).2 gs).2.subBudgets = _
      rw [te1, he2, histFold_append]
    · show (mapAccum _ (buildConceptRow rand cat sub g.1 g.2 s0).2 gs).2.catBudgets = _
      rw [te2, he3, histFold_append]

theorem buildSubRow_budgets (rand : ℕ → ℚ) (cat : String) (st : CatState)
    (g : String × List MappedEntry)
    (hwn : ∀ e ∈ g.2, e.netAmount ≠ JSNum.nan) :
    ∃ S : List (String × JSNum),
      S.map Prod.fst = (subStream g.2).map Prod.fst ∧ numVals S ∧
      ((buildSubCategoryRow rand cat st g).1.monthlyBudgets
          = cumulIf (isBalanceSheetCategory cat) (histFold [] S))
      ∧ ((buildSubCategoryRow rand cat st g).2.catBudgets
          = histFold st.catBudgets S) := by
  rcases conceptsPass_budgets rand cat g.1
    (groupByKey (fun e => e.mapping.concept) g.2)
    { subCategoryTotal := JSNum.num 0, subAmounts := [], subBudgets := [],
      catAmounts := st.catAmounts, catBudgets := st.catBudgets,
      ctr := st.ctr }
    (fun gg hgg e he => hwn e (mem_of_mem_group hgg e he)) with
    ⟨S, hfst, hnum, e1, e2⟩
  refine ⟨S, hfst, hnum, ?_, ?_⟩
  · show cumulIf (isBalanceSheetCategory cat)
      ((mapAccum (fun (s : SubState) (cg : String × List MappedEntry) =>
          buildConceptRow rand cat g.1 cg.1 cg.2 s)
        { subCategoryTotal := JSNum.num 0, subAmounts := [], subBudgets := [],
          catAmounts := st.catAmounts, catBudgets := st.catBudgets,
          ctr := st.ctr }
        (groupByKey (fun e => e.mapping.concept) g.2)).2.subBudgets)
      = cumulIf (isBalanceSheetCategory cat) (histFold [] S)
    rw [e1]
  · show (mapAccum (fun (s : SubState) (cg : String × List MappedEntry) =>
          buildConceptRow rand cat g.1 cg.1 cg.2 s)
        { subCategoryTotal := JSNum.num 0, subAmounts := [], subBudgets := [],
          catAmounts := st.catAmounts, catBudgets := st.catBudgets,
          ctr := st.ctr }
        (groupByKey (fun e => e.mapping.concept) g.2)).2.catBudgets
      = histFold st.catBudgets S
    exact e2

theorem subsPass_budgets (rand : ℕ → ℚ) (cat : String) :
    ∀ (sgs : List (String × List MappedEntry)) (c0 : CatState),
      (∀ g ∈ sgs, ∀ e ∈ g.2, e.netAmount ≠ JSNum.nan) →
      ∃ Ss : List (List (String × JSNum)),
        (Ss.map (List.map Prod.fst)
            = sgs.map (fun g' => (subStream g'.2).map Prod.fst))
        ∧ (∀ S ∈ Ss, numVals S)
        ∧ ((mapAccum (buildSubCategoryRow rand cat) c0 sgs).1.map
              (fun r => r.monthlyBudgets)
            = Ss.map (fun S => cumulIf (isBalanceSheetCategory cat)
                (histFold [] S)))
        ∧ ((mapAccum (buildSubCategoryRow rand cat) c0 sgs).2.catBudgets
            = histFold c0.catBudgets Ss.join) := by
  intro sgs
  induction sgs with
  | nil =>
    intro c0 _
    exact ⟨[], rfl, fun S hS => absurd hS (by simp), rfl, rfl⟩
  | cons g sgs ih =>
    intro c0 hwn
    rw [mapAccum_cons]
    rcases buildSubRow_budgets rand cat c0 g (hwn g (List.mem_cons_self _ _))
      with ⟨Sh, hhfst, hhnum, he1, he2⟩
    rcases ih (buildSubCategoryRow rand cat c0 g).2
      (fun x hx => hwn x (List.mem_cons_of_mem _ hx)) with
      ⟨Ss, htfst, htnum, te1, te2⟩
    refine ⟨Sh :: Ss, ?_, ?_, ?_, ?_⟩
    · rw [List.map_cons, List.map_cons, hhfst, htfst]
    · intro S hS
      rcases List.mem_cons.mp hS with rfl | hS'
      · exact hhnum
      · exact htnum S hS'
    · rw [List.map_cons, List.map_cons, te1, he1]
    · show (mapAccum _ (buildSubCategoryRow rand cat c0 g).2 sgs).2.catBudgets = _
      rw [te2, he2,
        show (Sh :: Ss).join = Sh ++ Ss.join from rfl, histFold_append]

theorem buildCatRow_budgets2 (rand : ℕ → ℚ) (ctr : ℕ)
    (g : String × List MappedEntry)
    (hwn : ∀ e ∈ g.2, e.netAmount ≠ JSNum.nan) :
    ∃ Ss : List (List (String × JSNum)),
      (Ss.map (List.map Prod.fst)
          = (groupByKey (fun e => e.mapping.sousCategorie) g.2).map
            (fun g' => (subStream g'.2).map Prod.fst))
      ∧ (∀ S ∈ Ss, numVals S)
      ∧ ((buildCategoryRow rand ctr g).1.children.map
            (fun r => r.monthlyBudgets)
          = Ss.map (fun S => cumulIf (isBalanceSheetCategory g.1)
              (histFold [] S)))
      ∧ ((buildCategoryRow rand ctr g).1.monthlyBudgets
          = cumulIf (isBalanceSheetCategory g.1) (histFold [] Ss.join)) := by
  rcases subsPass_budgets rand g.1
    (groupByKey (fun e => e.mapping.sousCategorie) g.2)
    { categoryTotal := JSNum.num 0, catAmounts := [], catBudgets := [],
      ctr := ctr }
    (fun gg hgg e he => hwn e (mem_of_mem_group hgg e he)) with
    ⟨Ss, h1, h2, h3, h4⟩
  refine ⟨Ss, h1, h2, h3, ?_⟩
  show cumulIf (isBalanceSheetCategory g.1)
      ((mapAccum (buildSubCategoryRow rand g.1)
        { categoryTotal := JSNum.num 0, catAmounts := [], catBudgets := [],
          ctr := ctr }
        (groupByKey (fun e => e.mapping.sousCategorie) g.2)).2.catBudgets)
    = cumulIf (isBalanceSheetCategory g.1) (histFold [] Ss.join)
  rw [h4]

theorem claimBudget_of_stream (isBS : Bool) (S A : List (String × JSNum))
    (sl : List MappedEntry)
    (hfst : S.map Prod.fst = A.map Prod.fst) (hnum : numVals S)
    (hmemA : ∀ m, m ∈ A.map Prod.fst ↔ (¬ m = "" ∧ ∃ e ∈ sl, monthOf e = m)) :
    claimBudget isBS (cumulIf isBS (histFold [] S)) sl := by
  refine claimBudget_of isBS (histFold [] S) sl
    (histFold_numVals S [] (fun p hp => absurd hp (by simp)) hnum)
    (nodup_keys_histFold S [] List.nodup_nil) ?_
  intro m
  rw [mem_keys_histFold]
  constructor
  · rintro (h1 | h2)
    · exact absurd h1 (by simp [monthKeys])
    · refine (hmemA m).mp ?_
      rw [← hfst]
      exact h2
  · intro h
    refine Or.inr ?_
    rw [hfst]
    exact (hmemA m).mpr h

/-- C1: in every tree built by `buildOperatingModel`, every row of a stock
(balance-sheet) category carries, at every level — category, sub-category,
concept and account detail — a `monthlyAmounts` whose keys are the sorted
nonempty months of the node's own entries and whose value at each month is
the running cumulative of the node's own raw monthly net movements over the
sorted key prefix up to and including that month; every row of a flow
category keeps the raw net movement within each month; and at every level
`monthlyBudgets` is the same transform (cumulative for stock, identity for
flow) of a raw monthly budget dictionary keyed exactly by the node's own
nonempty entry months. -/
theorem C1_monthly_series (custom : String → Option CustomMapping)
    (fallback exact : String → Option Mapping) (rand : ℕ → ℚ)
    (entries : List FECEntry)
    (hwp : ∀ e ∈ entries,
      parseAmount e.Debit ≠ JSNum.nan ∧ parseAmount e.Credit ≠ JSNum.nan) :
    ∀ crow ∈ processRawFEC custom fallback exact rand entries,
      (claimSeries (isBalanceSheetCategory crow.category) crow.monthlyAmounts
          (catEntriesOf custom fallback exact entries crow.category)
        ∧ claimBudget (isBalanceSheetCategory crow.category)
            crow.monthlyBudgets
            (catEntriesOf custom fallback exact entries crow.category))
      ∧ ∀ srow ∈ crow.children,
        (claimSeries (isBalanceSheetCategory srow.category) srow.monthlyAmounts
            (subEntriesOf custom fallback exact entries srow.category
              srow.subCategory)
          ∧ claimBudget (isBalanceSheetCategory srow.category)
              srow.monthlyBudgets
              (subEntriesOf custom fallback exact entries srow.category
                srow.subCategory))
        ∧ ∀ corow ∈ srow.children,
          (claimSeries (isBalanceSheetCategory corow.category)
              corow.monthlyAmounts
              (conceptEntriesOf custom fallback exact entries corow.category
                corow.subCategory corow.concept)
            ∧ claimBudget (isBalanceSheetCategory corow.category)
                corow.monthlyBudgets
                (conceptEntriesOf custom fallback exact entries corow.category
                  corow.subCategory corow.concept))
          ∧ ∀ d ∈ corow.accountDetails,
            claimSeries (isBalanceSheetCategory corow.category)
              d.monthlyAmounts
              ((conceptEntriesOf custom fallback exact entries corow.category
                corow.subCategory corow.concept).filter
                (fun me => me.CompteNum = d.compteNum))
            ∧ claimBudget (isBalanceSheetCategory corow.category)
                d.monthlyBudgets
                ((conceptEntriesOf custom fallback exact entries corow.category
                  corow.subCategory corow.concept).filter
                  (fun me => me.CompteNum = d.compteNum)) := by
  intro crow hcrow
  rcases processRawFEC_row custom fallback exact rand entries crow hcrow with
    ⟨g, hg, ctr, hrow⟩
  subst hrow
  rw [catRow_category]
  have hg2 : g.2 = catEntriesOf custom fallback exact entries g.1 := by
    rw [(mem_groupByKey.mp hg).2]
    rfl
  have hwn1 : ∀ me ∈ g.2, me.netAmount ≠ JSNum.nan := by
    intro me hme
    rw [hg2] at hme
    exact mappedEntries_netAmount custom fallback exact entries hwp me
      (List.mem_of_mem_filter hme)
  refine ⟨⟨?_, ?_⟩, ?_⟩
  · rw [(buildCatRow_monthly rand ctr g).1, ← hg2]
    exact seriesOfStream _ _ _ (catStream_facts g.2 hwn1)
  · rcases buildCatRow_budgets2 rand ctr g hwn1 with ⟨Ss, hSsfst, hSsnum, _, hcb⟩
    rw [hcb, ← hg2]
    have hjn : numVals Ss.join := by
      intro p hp
      rcases List.mem_join.mp hp with ⟨S, hS, hpS⟩
      exact hSsnum S hS p hpS
    have hfstj : Ss.join.map Prod.fst = (catStream g.2).map Prod.fst := by
      rw [map_fst_join, hSsfst,
        show catStream g.2
          = ((groupByKey (fun e => e.mapping.sousCategorie) g.2).map
            (fun g' => subStream g'.2)).join from rfl,
        map_fst_join, List.map_map]
      rfl
    exact claimBudget_of_stream _ Ss.join (catStream g.2) g.2 hfstj hjn
      (catStream_facts g.2 hwn1).2.2
  · intro srow hsrow
    rcases mem_catRow_children rand ctr g srow hsrow with ⟨g', hg', st, hsrow'⟩
    subst hsrow'
    rw [(subRow_fields rand g.1 st g').1, (subRow_fields rand g.1 st g').2]
    have hg'2 : g'.2 = subEntriesOf custom fallback exact entries g.1 g'.1 := by
      rw [(mem_groupByKey.mp hg').2, hg2]
      rfl
    have hwn2 : ∀ me ∈ g'.2, me.netAmount ≠ JSNum.nan := by
      intro me hme
      refine hwn1 me ?_
      rw [(mem_groupByKey.mp hg').2] at hme
      exact List.mem_of_mem_filter hme
    refine ⟨⟨?_, ?_⟩, ?_⟩
    · rw [(buildSubRow_monthly rand g.1 st g').1, ← hg'2]
      exact seriesOfStream _ _ _ (subStream_facts g'.2 hwn2)
    · rcases buildSubRow_budgets rand g.1 st g' hwn2 with ⟨S, hfstS, hnumS, hb, _⟩
      rw [hb, ← hg'2]
      exact claimBudget_of_stream _ S (subStream g'.2) g'.2 hfstS hnumS
        (subStream_facts g'.2 hwn2).2.2
    · intro corow hcorow
      rcases mem_subRow_children rand g.1 st g' corow hcorow with
        ⟨g'', hg'', ss, hcorow'⟩
      subst hcorow'
      rw [(updateConceptRow_more _ _).1, (updateConceptRow_more _ _).2.1,
        (updateConceptRow_fields _ _).2.1,
        (buildConceptRow_cat_sub rand g.1 g'.1 g''.1 g''.2 ss).1,
        (buildConceptRow_cat_sub rand g.1 g'.1 g''.1 g''.2 ss).2,
        (conceptRow_fields rand g.1 g'.1 g''.1 g''.2 ss).1]
      have hg''2 : g''.2
          = conceptEntriesOf custom fallback exact entries g.1 g'.1 g''.1 := by
        rw [(mem_groupByKey.mp hg'').2, hg'2]
        rfl
      have hwn3 : ∀ me ∈ g''.2, me.netAmount ≠ JSNum.nan := by
        intro me hme
        refine hwn2 me ?_
        rw [(mem_groupByKey.mp hg'').2] at hme
        exact List.mem_of_mem_filter hme
      refine ⟨⟨?_, ?_⟩, ?_⟩
      · rw [(updateConceptRow_more _ _).2.2.1,
          (buildConceptRow_monthly rand g.1 g'.1 g''.1 g''.2 ss).1, ← hg''2]
        exact seriesOfStream _ _ _ (conceptStream_facts g''.2 hwn3)
      · rw [(updateConceptRow_more _ _).2.2.2.1]
        rcases (buildConceptRow_budgets rand g.1 g'.1 g''.1 g''.2 ss hwn3).1 with
          ⟨S, hfstS, hnumS, hb, _, _⟩
        rw [hb, ← hg''2]
        exact claimBudget_of_stream _ S (conceptStream g''.2) g''.2 hfstS hnumS
          (conceptStream_facts g''.2 hwn3).2.2
      · intro d hd
        rw [(updateConceptRow_more _ _).2.2.2.2] at hd
        rcases List.mem_map.mp hd with ⟨d1, hd1, rfl⟩
        rcases (buildConceptRow_monthly rand g.1 g'.1 g''.1 g''.2 ss).2.2.2 d1 hd1
          with ⟨d0, hd0, hcn, hma⟩
        rw [(updateDetail_more _ _).1, hcn]
        refine ⟨?_, ?_⟩
        · rw [(updateDetail_more _ _).2.1, hma, ← hg''2]
          rcases detailsInv_of_fold g''.2 hwn3 with ⟨_, _, hprops⟩
          rcases hprops d0 hd0 with ⟨hv, hnd, hmem0, hval0⟩
          refine seriesOfR _ d0.monthlyAmounts _ hv hnd ?_ ?_
          · intro m
            rw [hmem0 m]
            constructor
            · rintro ⟨hm, e, he, hec, hem⟩
              exact ⟨hm, e, List.mem_filter.mpr ⟨he, by simp [hec]⟩, hem⟩
            · rintro ⟨hm, e, hef, hem⟩
              rcases List.mem_filter.mp hef with ⟨he, hdec⟩
              exact ⟨hm, e, he, by simpa using hdec, hem⟩
          · exact hval0
        · rw [(updateDetail_more _ _).2.2, ← hg''2]
          rcases (buildConceptRow_budgets rand g.1 g'.1 g''.1 g''.2 ss hwn3).2 d1
            hd1 with ⟨d0', hd0', hcn', _, hbn, hbk, hbd⟩
          have hcc : d0.compteNum = d0'.compteNum := by rw [← hcn, hcn']
          rcases detailsInv_of_fold g''.2 hwn3 with ⟨_, _, hprops⟩
          rcases hprops d0' hd0' with ⟨_, _, hmem0', _⟩
          refine claimBudget_of _ d1.monthlyBudgets _ hbn hbd ?_
          intro m
          rw [hbk m, hmem0' m]
          constructor
          · rintro ⟨hm, e, he, hec, hem⟩
            refine ⟨hm, e, List.mem_filter.mpr ⟨he, ?_⟩, hem⟩
            simp [hec, hcc]
          · rintro ⟨hm, e, hef, hem⟩
            rcases List.mem_filter.mp hef with ⟨he, hdec⟩
            have he2 : e.CompteNum = d0.compteNum := by simpa using hdec
            exact ⟨hm, e, he, by rw [he2, hcc], hem⟩

theorem C1_monthly_series_witness :
    (∀ e ∈ [entrySoftware, entrySales],
      parseAmount e.Debit ≠ JSNum.nan ∧ parseAmount e.Credit ≠ JSNum.nan) ∧
    ∀ crow ∈ processRawFEC customSpecExample lookupNone lookupNone randZero
        [entrySoftware, entrySales],
      (claimSeries (isBalanceSheetCategory crow.category) crow.monthlyAmounts
          (catEntriesOf customSpecExample lookupNone lookupNone
            [entrySoftware, entrySales] crow.category)
        ∧ claimBudget (isBalanceSheetCategory crow.category)
            crow.monthlyBudgets
            (catEntriesOf customSpecExample lookupNone lookupNone
              [entrySoftware, entrySales] crow.category))
      ∧ ∀ srow ∈ crow.children,
        (claimSeries (isBalanceSheetCategory srow.category) srow.monthlyAmounts
            (subEntriesOf customSpecExample lookupNone lookupNone
              [entrySoftware, entrySales] srow.category srow.subCategory)
          ∧ claimBudget (isBalanceSheetCategory srow.category)
              srow.monthlyBudgets
              (subEntriesOf customSpecExample lookupNone lookupNone
                [entrySoftware, entrySales] srow.category srow.subCategory))
        ∧ ∀ corow ∈ srow.children,
          (claimSeries (isBalanceSheetCategory corow.category)
              corow.monthlyAmounts
              (conceptEntriesOf customSpecExample lookupNone lookupNone
                [entrySoftware, entrySales] corow.category corow.subCategory
                corow.concept)
            ∧ claimBudget (isBalanceSheetCategory corow.category)
                corow.monthlyBudgets
                (conceptEntriesOf customSpecExample lookupNone lookupNone
                  [entrySoftware, entrySales] corow.category corow.subCategory
                  corow.concept))
          ∧ ∀ d ∈ corow.accountDetails,
            claimSeries (isBalanceSheetCategory corow.category)
              d.monthlyAmounts
              ((conceptEntriesOf customSpecExample lookupNone lookupNone
                [entrySoftware, entrySales] corow.category corow.subCategory
                corow.concept).filter
                (fun me => me.CompteNum = d.compteNum))
            ∧ claimBudget (isBalanceSheetCategory corow.category)
                d.monthlyBudgets
                ((conceptEntriesOf customSpecExample lookupNone lookupNone
                  [entrySoftware, entrySales] corow.category corow.subCategory
                  corow.concept).filter
                  (fun me => me.CompteNum = d.compteNum)) :=
  ⟨by decide,
    C1_monthly_series customSpecExample lookupNone lookupNone randZero
      [entrySoftware, entrySales] (by decide)⟩

theorem cumulIf_false (M : MonthlyAmounts) : cumulIf false M = M := rfl

/-- C2 counterexample: in a stock category whose two sub-categories post in
different months, the category's cumulative `monthlyAmounts` at the second
month (150) is not the sum of its children's already-transformed
`monthlyAmounts` at that month (50): the children's carried-forward values
are lost because absent keys count as 0. -/
theorem C2_counterexample :
    ∃ crow ∈ processRawFEC cm2 lookupNone lookupNone randZero
        [entryS1, entryS2],
      isBalanceSheetCategory crow.category = true ∧
      alookup crow.monthlyAmounts ("2025-02") = some (JSNum.num 150) ∧
      ((crow.children.map (fun s =>
        qOf ((alookup s.monthlyAmounts ("2025-02")).getD (JSNum.num 0)))).sum)
        = 50 := by
  decide

/-- C2 (amended): the transitive children-sum identity holds for flow
categories — for every month, a flow category row's `monthlyAmounts` value
(0 when absent) is the sum of its sub-category children's values (0 when
absent), and likewise for `monthlyBudgets` — but not for stock categories,
where the category series is the cumulative of the summed raw series rather
than the sum of the children's cumulatives. -/
theorem C2_children_sum (custom : String → Option CustomMapping)
    (fallback exact : String → Option Mapping) (rand : ℕ → ℚ)
    (entries : List FECEntry)
    (hwp : ∀ e ∈ entries,
      parseAmount e.Debit ≠ JSNum.nan ∧ parseAmount e.Credit ≠ JSNum.nan) :
    ∀ crow ∈ processRawFEC custom fallback exact rand entries,
      isBalanceSheetCategory crow.category = false →
      ∀ m,
        (ql crow.monthlyAmounts m
          = (crow.children.map (fun s => ql s.monthlyAmounts m)).sum)
        ∧ (ql crow.monthlyBudgets m
          = (crow.children.map (fun s => ql s.monthlyBudgets m)).sum) := by
  intro crow hcrow
  rcases processRawFEC_row custom fallback exact rand entries crow hcrow with
    ⟨g, hg, ctr, hrow⟩
  subst hrow
  rw [catRow_category]
  intro hflow m
  have hg2 : g.2 = catEntriesOf custom fallback exact entries g.1 := by
    rw [(mem_groupByKey.mp hg).2]
    rfl
  have hwn1 : ∀ me ∈ g.2, me.netAmount ≠ JSNum.nan := by
    intro me hme
    rw [hg2] at hme
    exact mappedEntries_netAmount custom fallback exact entries hwp me
      (List.mem_of_mem_filter hme)
  have hvcat : numVals (catStream g.2) := (catStream_facts g.2 hwn1).1
  have hnil : numVals ([] : MonthlyAmounts) := by
    intro p hp
    exact absurd hp (by simp)
  refine ⟨?_, ?_⟩
  · have hL : ql (buildCategoryRow rand ctr g).1.monthlyAmounts m
        = keyQ (catStream g.2) m := by
      rw [(buildCatRow_monthly rand ctr g).1, hflow, cumulIf_false,
        ql_histFold _ _ _ hnil hvcat]
      have h0 : ql [] m = 0 := rfl
      rw [h0]
      ring
    rw [hL]
    have hR : (buildCategoryRow rand ctr g).1.children.map
          (fun s => ql s.monthlyAmounts m)
        = (groupByKey (fun e => e.mapping.sousCategorie) g.2).map
          (fun g' => keyQ (subStream g'.2) m) := by
      have h1 : (buildCategoryRow rand ctr g).1.children.map
            (fun s => ql s.monthlyAmounts m)
          = ((buildCategoryRow rand ctr g).1.children.map
              (fun s => s.monthlyAmounts)).map (fun M => ql M m) := by
        rw [List.map_map]
        rfl
      rw [h1, (buildCatRow_monthly rand ctr g).2, hflow, List.map_map]
      refine List.map_congr_left ?_
      intro g' hg'
      have hwn' : ∀ me ∈ g'.2, me.netAmount ≠ JSNum.nan := by
        intro me hme
        exact hwn1 me (mem_of_mem_group hg' me hme)
      show ql (cumulIf false (histFold [] (subStream g'.2))) m = _
      rw [cumulIf_false, ql_histFold _ _ _ hnil (subStream_facts g'.2 hwn').1]
      have h0 : ql [] m = 0 := rfl
      rw [h0]
      ring
    rw [hR]
    rw [show catStream g.2
        = ((groupByKey (fun e => e.mapping.sousCategorie) g.2).map
          (fun g' => subStream g'.2)).join from rfl,
      keyQ_join, List.map_map]
    rfl
  · rcases buildCatRow_budgets2 rand ctr g hwn1 with ⟨Ss, _, hSsnum, hch, hcb⟩
    have hjn : numVals Ss.join := by
      intro p hp
      rcases List.mem_join.mp hp with ⟨S, hS, hpS⟩
      exact hSsnum S hS p hpS
    have hLb : ql (buildCategoryRow rand ctr g).1.monthlyBudgets m
        = keyQ Ss.join m := by
      rw [hcb, hflow, cumulIf_false, ql_histFold _ _ _ hnil hjn]
      have h0 : ql [] m = 0 := rfl
      rw [h0]
      ring
    rw [hLb]
    have hRb : (buildCategoryRow rand ctr g).1.children.map
          (fun s => ql s.monthlyBudgets m)
        = Ss.map (fun S => keyQ S m) := by
      have h1 : (buildCategoryRow rand ctr g).1.children.map
            (fun s => ql s.monthlyBudgets m)
          = ((buildCategoryRow rand ctr g).1.children.map
              (fun s => s.monthlyBudgets)).map (fun M => ql M m) := by
        rw [List.map_map]
        rfl
      rw [h1, hch, hflow, List.map_map]
      refine List.map_congr_left ?_
      intro S hS
      show ql (cumulIf false (histFold [] S)) m = keyQ S m
      rw [cumulIf_false, ql_histFold _ _ _ hnil (hSsnum S hS)]
      have h0 : ql [] m = 0 := rfl
      rw [h0]
      ring
    rw [hRb, keyQ_join]

theorem C2_children_sum_witness :
    (∀ e ∈ [entrySoftware, entrySales],
      parseAmount e.Debit ≠ JSNum.nan ∧ parseAmount e.Credit ≠ JSNum.nan) ∧
    ∀ crow ∈ processRawFEC customSpecExample lookupNone lookupNone randZero
        [entrySoftware, entrySales],
      isBalanceSheetCategory crow.category = false →
      ∀ m,
        (ql crow.monthlyAmounts m
          = (crow.children.map (fun s => ql s.monthlyAmounts m)).sum)
        ∧ (ql crow.monthlyBudgets m
          = (crow.children.map (fun s => ql s.monthlyBudgets m)).sum) :=
  ⟨by decide,
    C2_children_sum customSpecExample lookupNone lookupNone randZero
      [entrySoftware, entrySales] (by decide)⟩
